import Mathlib

/-!
# GammaRay object wrapper: property cache, control block, handles, registry

A shallow embedding of `core/objectwrapper.h`.

* Raw object pointers (`void*`, `Class*`) are natural numbers, `0` is `nullptr`.
  The result of `dynamic_cast` is given by the collaborators and may be another
  address than the one cast. The implicit conversion of a pointer to a base class
  pointer keeps the address: all nodes of a cache tree store the address with which
  the root was constructed.
* A `std::shared_ptr` / `std::weak_ptr` to a control block is an optional index into
  the heap of control blocks; `none` is the null pointer. New blocks get the next
  index. A block lives until its destructor runs (`State.destroy`, the release of the
  last strong reference).
* A property value is a value of a type without wrapper specialisation, or a pointer
  to an object of a wrapped class (or a list of such pointers). `wrap` turns such a
  pointer into the view or the handle of the pointee, which is named by the pointee:
  the registry call that makes it, and the control block that `handleForObject` may
  create for the pointee, are not modelled, so that `update` does not re-enter the
  registry.
* `Q_ASSERT` aborts when assertions are compiled in and does nothing otherwise;
  dereferencing a null pointer is a fault, as is waiting for a semaphore that
  nothing will release.
* The live objects, the probe and Qt are collaborators: they are fields of `Env`.
  A live read is a function of the state of the live objects and does not call back
  into the wrapper. A live write is a transformer of that state; where it emits the
  notify signal of the property, the functors that control blocks connected to the
  signal run inside the write.

The file has the embedding first, then the notions used to state the properties,
then lemmas, then one theorem for each property of the specification.
-/

namespace GammaRay

abbrev Ptr := Nat
abbrev TypeId := Nat

/-- Cached or fetched property value. `int` and `str` are values of types that have
no wrapper specialisation. `pointer T object` is a raw `T*` to an object of a class
with a wrapper specialisation, `pointers` a `QList<T*>` or `QVector<T*>` of such.
`view T object` and `handle T object` stand for the `ObjectView<T>` and the
`ObjectHandle<T>` that `viewForObject(object)` and `handleForObject(object)` return
for the pointee, `views` and `handles` for the lists of them: a wrapped pointer is
named by its pointee. -/
inductive Value where
  | int (n : Int)
  | str (s : String)
  | pointer (T : TypeId) (object : Ptr)
  | view (T : TypeId) (object : Ptr)
  | handle (T : TypeId) (object : Ptr)
  | pointers (T : TypeId) (objects : List Ptr)
  | views (T : TypeId) (objects : List Ptr)
  | handles (T : TypeId) (objects : List Ptr)
  deriving DecidableEq, Repr

/-- Ways in which an operation does not return normally: a failed `Q_ASSERT`, a
dereference of a null (or dangling) pointer, a wait for the semaphore that cannot
end, and an access to a slot that the tuple type of `dataStorage` does not have. -/
inductive Fault where
  | assertion
  | nullDeref
  | blocked
  | noSlot
  deriving DecidableEq, Repr

/-! ## ObjectWrapperFlag -/

def NoFlags : Nat := 0
def Getter : Nat := 1
def MemberVar : Nat := 2
def DptrGetter : Nat := 4
def DptrMember : Nat := 8
def CustomCommand : Nat := 16
def QProp : Nat := 128
def OwningPointer : Nat := 256
def NonOwningPointer : Nat := 512
def ForeignPointerBit : Nat := 1024
def ForeignPointer : Nat := ForeignPointerBit ||| NonOwningPointer
def NonConst : Nat := 2048

/-- Which property macro declared the property. -/
inductive PropKind where
  | ro
  | rw
  | custom
  deriving DecidableEq, Repr

/-- One `RO_PROP` / `RW_PROP` / `CUSTOM_PROP` line of a wrapper definition.
`init` is the value-initialised content of the slot type. -/
structure PropDecl where
  name : String
  kind : PropKind
  flags : Nat
  init : Value
  deriving DecidableEq, Repr

/-- A wrapper specialisation `ObjectWrapper<Class>` as declared by
`DEFINE_OBJECT_WRAPPER`, `_WB` or `_WB2`: the wrapped class (its type id, whether it
derives from `QObject`, whether it is polymorphic), `DISABLE_CACHING`, the property
lines in declaration order, and the wrappers of the declared base classes. -/
inductive WrapperClass where
  | mk (id : TypeId) (isQObject : Bool) (polymorphic : Bool) (disableCaching : Bool)
      (props : List PropDecl) (bases : List WrapperClass)
  deriving Repr

namespace WrapperClass

def id : WrapperClass → TypeId
  | mk i _ _ _ _ _ => i

def isQObject : WrapperClass → Bool
  | mk _ q _ _ _ _ => q

def polymorphic : WrapperClass → Bool
  | mk _ _ p _ _ _ => p

def cachingDisabled : WrapperClass → Bool
  | mk _ _ _ c _ _ => c

def props : WrapperClass → List PropDecl
  | mk _ _ _ _ ps _ => ps

def bases : WrapperClass → List WrapperClass
  | mk _ _ _ _ _ bs => bs

end WrapperClass

/-- A `std::unique_ptr<PropertyCacheBase>`: null, or a `PropertyCache<Class, Bases...>`
node with its `dataStorage`, `m_baseCaches` and `m_object`. -/
inductive PropertyCache where
  | null
  | node (cls : WrapperClass) (dataStorage : List Value)
      (m_baseCaches : List PropertyCache) (m_object : Ptr)
  deriving Repr

namespace PropertyCache

def isNull : PropertyCache → Bool
  | null => true
  | node _ _ _ _ => false

/-- The `dynamic_cast<PropertyCache<T,...>*>(p) != nullptr` test. -/
def isA : PropertyCache → TypeId → Bool
  | null, _ => false
  | node cls _ _ _, t => cls.id == t

def m_object : PropertyCache → Ptr
  | null => 0
  | node _ _ _ o => o

def dataStorage : PropertyCache → List Value
  | null => []
  | node _ ds _ _ => ds

def m_baseCaches : PropertyCache → List PropertyCache
  | null => []
  | node _ _ bs _ => bs

end PropertyCache

/-- Value-initialised `Data_t dataStorage`. -/
def defaultData (cls : WrapperClass) : List Value :=
  cls.props.map PropDecl.init

mutual
/-- The constructor `PropertyCache(Class *object)`: recursively creates the caches of
all base classes. -/
def makeCache : WrapperClass → Ptr → PropertyCache
  | .mk i q p c ps bs, object =>
    .node (.mk i q p c ps bs) (ps.map PropDecl.init) (makeCaches bs object) object
/-- The pack expansion `make_unique<propertyCache_t<BaseClasses>>(object)...`; the
conversion of `object` to the pointer to the base class keeps the address. -/
def makeCaches : List WrapperClass → Ptr → List PropertyCache
  | [], _ => []
  | b :: bs, object => makeCache b object :: makeCaches bs object
end

mutual
/-- The virtual `PropertyCache::cache(std::type_index)`: the node itself if it has the
requested type, else the search through the base caches. The result is a raw pointer,
`null` for `nullptr`. Calling it through a null `unique_ptr` is a fault. -/
def PropertyCache.cache : PropertyCache → TypeId → Except Fault PropertyCache
  | .null, _ => .error .nullDeref
  | .node cls ds bs o, type =>
    if cls.id = type then .ok (.node cls ds bs o) else getCacheFromBases bs type
/-- The recursion `getCacheFromBases(TemplateParamList<Head, Rest...>, type)`. -/
def getCacheFromBases : List PropertyCache → TypeId → Except Fault PropertyCache
  | [], _ => .ok .null
  | c :: rest, type =>
    match c.cache type with
    | .error e => .error e
    | .ok .null => getCacheFromBases rest type
    | .ok ret => .ok ret
end

/-! ## Collaborators -/

/-- The collaborators of the wrapper layer, over a type `L` of states of the live
objects: whether `Q_ASSERT` is compiled in, the probe (`isValidObject`), the thread
check `obj->thread() == QThread::currentThread()`, RTTI (the result of `dynamic_cast`
of a pointer to a class: null where the object is not of that class, else the address
of the object of that class, which is not the given address where the pointer points
to a base class subobject at an offset), the Qt meta object (`hasNotifySignal` of the
named property),
the live read and write of property `i` of a class (`fetch_<prop>`, `write_<prop>`),
whether that write, made with a value in a state of the live objects, emits the notify
signal of the property, and `qHash` on raw pointers. -/
structure Env (L : Type) where
  assertsEnabled : Bool
  isValidObject : L → Ptr → Bool
  inObjectThread : L → Ptr → Bool
  dynamicCast : L → Ptr → TypeId → Ptr
  hasNotifySignal : L → Ptr → String → Bool
  fetch : L → Ptr → TypeId → Nat → Value
  write : L → Ptr → TypeId → Nat → Value → L
  emitsNotify : L → Ptr → TypeId → Nat → Value → Bool
  qHashPtr : Ptr → Nat → Nat

/-- The macro `Q_ASSERT(cond)`. -/
def Q_ASSERT (assertsEnabled : Bool) (cond : Bool) : Except Fault Unit :=
  if assertsEnabled && !cond then .error .assertion else .ok ()

/-! ## Wrapping -/

/-- The overloads of `wrap<flags>`. A pointer to an object of a wrapped class becomes
the view of the pointee with `NonOwningPointer` and the handle of the pointee with
`OwningPointer`, and a list of such pointers is wrapped element by element; every
other value, and a pointer with neither flag, is returned as it is (first overload).
(With both flags set the call is ambiguous and does not compile; the view is taken.) -/
def wrap (flags : Nat) : Value → Value
  | .pointer T object =>
    if flags &&& NonOwningPointer ≠ 0 then .view T object
    else if flags &&& OwningPointer ≠ 0 then .handle T object
    else .pointer T object
  | .pointers T list =>
    if flags &&& NonOwningPointer ≠ 0 then .views T list
    else if flags &&& OwningPointer ≠ 0 then .handles T list
    else .pointers T list
  | value => value

def wrapPhase1 (flags : Nat) (value : Value) : Value :=
  if flags &&& ForeignPointerBit ≠ 0 then value else wrap flags value

def wrapPhase2 (flags : Nat) (value : Value) : Value :=
  if flags &&& ForeignPointerBit = 0 then value else wrap flags value

/-- The overloads of `unwrap`: `object()` of a view or a handle, element by element
for a list of them, and the value itself otherwise (fallback overload). -/
def unwrap : Value → Value
  | .view T object => .pointer T object
  | .handle T object => .pointer T object
  | .views T list => .pointers T list
  | .handles T list => .pointers T list
  | value => value

/-! ## Control block -/

/-- One `QMetaObject::Connection` made by `connectToUpdates`: the notify signal of the
property cached in slot `storageIndex` of the node of class `type`, on `object`. -/
structure Connection where
  type : TypeId
  storageIndex : Nat
  object : Ptr
  deriving DecidableEq, Repr

/-- The class `ObjectWrapperPrivate`; `semaphore` is the number of available
resources of the `QSemaphore`. -/
structure ObjectWrapperPrivate where
  m_cache : PropertyCache
  connections : List Connection
  semaphore : Nat
  deriving Repr

namespace ObjectWrapperPrivate

variable {L : Type}

/-- The member template `cache<T>()`. -/
def cache (E : Env L) (d : ObjectWrapperPrivate) (T : TypeId) : Except Fault PropertyCache :=
  match d.m_cache.cache T with
  | .error e => .error e
  | .ok ret =>
    match Q_ASSERT E.assertsEnabled (!ret.isNull) with
    | .error e => .error e
    | .ok _ => .ok ret

/-- The member template `isComplete<T>()`. -/
def isComplete (d : ObjectWrapperPrivate) (T : TypeId) : Except Fault Bool :=
  match d.m_cache.cache T with
  | .error e => .error e
  | .ok ret => .ok (!ret.isNull)

/-- The member template `object<T>()`. -/
def object (E : Env L) (d : ObjectWrapperPrivate) (T : TypeId) : Except Fault Ptr :=
  match d.cache E T with
  | .error e => .error e
  | .ok c => .ok (if c.isNull then 0 else c.m_object)

/-- The call `semaphore.acquire()`, which cannot return while nothing is available. -/
def acquire (d : ObjectWrapperPrivate) : Except Fault ObjectWrapperPrivate :=
  if d.semaphore = 0 then .error .blocked else .ok { d with semaphore := d.semaphore - 1 }

/-- The destructor of `QSemaphoreReleaser`. -/
def release (d : ObjectWrapperPrivate) : ObjectWrapperPrivate :=
  { d with semaphore := d.semaphore + 1 }

end ObjectWrapperPrivate

/-- A call `fetch_<prop><Flags>(object)` of property `i` of class `cls`; it reads
through `object`. -/
def fetchLive {L : Type} (E : Env L) (live : L) (cls : WrapperClass) (i : Nat) (object : Ptr) :
    Except Fault Value :=
  if object = 0 then .error .nullDeref else .ok (E.fetch live object cls.id i)

/-- The state expression of `DATA_APPEND` for property `i`:
`wrapPhase1<Flags>(fetch_<prop><Flags>(d->object<value_type>()))`. -/
def stateExpr {L : Type} (E : Env L) (live : L) (d : ObjectWrapperPrivate) (cls : WrapperClass)
    (i : Nat) (p : PropDecl) : Except Fault Value :=
  match d.object E cls.id with
  | .error e => .error e
  | .ok o =>
    match fetchLive E live cls i o with
    | .error e => .error e
    | .ok v => .ok (wrapPhase1 p.flags v)

/-- The overload set `__data(d, __number<k>)` of `ObjectWrapper<cls>`: the overload
for counter `k + 1` is generated by the property with storage index `k`; where there
is none, the call resolves to the next lower counter. -/
def __data {L : Type} (E : Env L) (live : L) (d : ObjectWrapperPrivate) (cls : WrapperClass) :
    Nat → Except Fault (List Value)
  | 0 => .ok []
  | k + 1 =>
    match cls.props[k]? with
    | none => __data E live d cls k
    | some p =>
      match __data E live d cls k with
      | .error e => .error e
      | .ok t =>
        match stateExpr E live d cls k p with
        | .error e => .error e
        | .ok v => .ok (t ++ [v])

mutual
/-- The method `PropertyCache::update(ObjectWrapperPrivate *d)`. -/
def PropertyCache.update {L : Type} (E : Env L) (live : L) (d : ObjectWrapperPrivate) :
    PropertyCache → Except Fault PropertyCache
  | .null => .error .nullDeref
  | .node cls _ bs o =>
    match __data E live d cls 255 with
    | .error e => .error e
    | .ok ds =>
      match updateBases E live d bs with
      | .error e => .error e
      | .ok bs1 => .ok (.node cls ds bs1 o)
/-- The recursion `updateBases(d, TemplateParamList<Head, Rest...>)`. -/
def updateBases {L : Type} (E : Env L) (live : L) (d : ObjectWrapperPrivate) :
    List PropertyCache → Except Fault (List PropertyCache)
  | [] => .ok []
  | c :: rest =>
    match c.update E live d with
    | .error e => .error e
    | .ok c1 =>
      match updateBases E live d rest with
      | .error e => .error e
      | .ok rest1 => .ok (c1 :: rest1)
end

mutual
/-- Write-back through the pointer returned by `cache(type)`: the tree in which the
node that `cache type` returns has been replaced by `n`. -/
def PropertyCache.replace : PropertyCache → TypeId → PropertyCache → PropertyCache
  | .null, _, _ => .null
  | .node cls ds bs o, type, n =>
    if cls.id = type then n else .node cls ds (replaceInBases bs type n) o
/-- Write-back for `getCacheFromBases`. -/
def replaceInBases : List PropertyCache → TypeId → PropertyCache → List PropertyCache
  | [], _, _ => []
  | c :: rest, type, n =>
    match c.cache type with
    | .ok (.node _ _ _ _) => c.replace type n :: rest
    | _ => c :: replaceInBases rest type n
end

/-! ## Update subscriptions -/

/-- The member template `connectToUpdates<Class, storageIndex, Flags>(command, name)`:
nothing without `QProp`; else it reads the object of the node of `Class`, returns if
the Qt property has no notify signal, and records the connection otherwise. -/
def ObjectWrapperPrivate.connectToUpdates {L : Type} (E : Env L) (live : L)
    (d : ObjectWrapperPrivate) (cls : WrapperClass) (storageIndex : Nat) (p : PropDecl) :
    Except Fault ObjectWrapperPrivate :=
  if p.flags &&& QProp = 0 then .ok d
  else
    match d.cache E cls.id with
    | .error e => .error e
    | .ok .null => .error .nullDeref
    | .ok (.node _ _ _ object) =>
      if object = 0 then .error .nullDeref
      else if !E.hasNotifySignal live object p.name then .ok d
      else .ok { d with connections := d.connections ++ [⟨cls.id, storageIndex, object⟩] }

/-- The overloads `__connectToUpdates(d, __number<k>)` for `k > 0`, generated by
`CONNECT_TO_UPDATES` in `RO_PROP` and `RW_PROP` (not in `CUSTOM_PROP`): connect the
property with storage index `k - 1`, then go on with the lower counter. The result
is the block with which `__connectToUpdates(d, __number<0>)` is entered. -/
def connectProps {L : Type} (E : Env L) (live : L) (cls : WrapperClass) :
    Nat → ObjectWrapperPrivate → Except Fault ObjectWrapperPrivate
  | 0, d => .ok d
  | k + 1, d =>
    match cls.props[k]? with
    | none => connectProps E live cls k d
    | some p =>
      if p.kind = .custom then connectProps E live cls k d
      else
        match d.connectToUpdates E live cls k p with
        | .error e => .error e
        | .ok d1 => connectProps E live cls k d1

mutual
/-- The call `ObjectWrapper<cls>::__connectToUpdates(d, __number<255>{})`: the
properties of the class from the last one down, then, in the overload for counter 0,
the same call for each declared base class. -/
def __connectToUpdates {L : Type} (E : Env L) (live : L) :
    WrapperClass → ObjectWrapperPrivate → Except Fault ObjectWrapperPrivate
  | .mk i q p c ps bs, d =>
    match connectProps E live (.mk i q p c ps bs) 255 d with
    | .error e => .error e
    | .ok d1 => connectBases E live bs d1
/-- Body of the overload for counter 0 in `_WB` and `_WB2` wrappers. -/
def connectBases {L : Type} (E : Env L) (live : L) :
    List WrapperClass → ObjectWrapperPrivate → Except Fault ObjectWrapperPrivate
  | [], d => .ok d
  | b :: bs, d =>
    match __connectToUpdates E live b d with
    | .error e => .error e
    | .ok d1 => connectBases E live bs d1
end

/-! ## Cache expansion -/

/-- The function `dynamic_pointer_cast<T>(unique_ptr<U> &&r)`; what is not cast is
destroyed with `r`. -/
def dynamic_pointer_cast (T : TypeId) (r : PropertyCache) : PropertyCache :=
  if r.isA T then r else .null

/-- The function `moveAndCreateBaseclassCaches<Class, Primary, Secondary...>`. -/
def moveAndCreateBaseclassCaches (secondaryBaseClasses : List WrapperClass) (object : Ptr)
    (primaryBaseCache : PropertyCache) : List PropertyCache :=
  primaryBaseCache :: makeCaches secondaryBaseClasses object

/-- The two overloads of `PropertyCache<Class, BaseClasses...>::fromBaseclassCache`
(no base classes / at least one base class). -/
def fromBaseclassCache (assertsEnabled : Bool) :
    WrapperClass → Ptr → PropertyCache → Except Fault PropertyCache
  | .mk i _ _ _ _ [], _, baseCache =>
    match Q_ASSERT assertsEnabled (baseCache.isA i) with
    | .error e => .error e
    | .ok _ => .ok baseCache
  | .mk i q p c ps (b :: bs), object, baseCache =>
    if baseCache.isA i then .ok baseCache
    else
      match fromBaseclassCache assertsEnabled b object baseCache with
      | .error e => .error e
      | .ok directBaseCache =>
        .ok (.node (.mk i q p c ps (b :: bs)) (ps.map PropDecl.init)
          (moveAndCreateBaseclassCaches bs object (dynamic_pointer_cast b.id directBaseCache))
          object)

namespace ObjectWrapperPrivate

variable {L : Type}

/-- The member template `expandCache<T>(T *obj)`. -/
def expandCache (E : Env L) (live : L) (d : ObjectWrapperPrivate) (T : WrapperClass)
    (obj : Ptr) : Except Fault ObjectWrapperPrivate :=
  match fromBaseclassCache E.assertsEnabled T obj d.m_cache with
  | .error e => .error e
  | .ok c => __connectToUpdates E live T { d with m_cache := c }

/-- The statement `d->cache<Class>()->update(d)`. -/
def updateCache (E : Env L) (live : L) (d : ObjectWrapperPrivate) (T : TypeId) :
    Except Fault ObjectWrapperPrivate :=
  match d.cache E T with
  | .error e => .error e
  | .ok c =>
    match c.update E live d with
    | .error e => .error e
    | .ok c1 => .ok { d with m_cache := d.m_cache.replace T c1 }

end ObjectWrapperPrivate

/-! ## Registry and heap of control blocks -/

/-- The control blocks that exist (`none` once destroyed) and the map
`m_objectToWrapperPrivateMap` of `ObjectShadowDataRepository`, from raw object
pointers to weak references. -/
structure State where
  heap : List (Option ObjectWrapperPrivate)
  m_objectToWrapperPrivateMap : Ptr → Option Nat

namespace State

/-- The call `weak_ptr::lock()`. -/
def lock (s : State) (w : Nat) : Option Nat :=
  match s.heap[w]? with
  | some (some _) => some w
  | _ => none

/-- Dereference of a `shared_ptr` to a control block. -/
def deref (s : State) (d : Option Nat) : Except Fault ObjectWrapperPrivate :=
  match d with
  | none => .error .nullDeref
  | some i =>
    match s.heap[i]? with
    | some (some blk) => .ok blk
    | _ => .error .nullDeref

/-- The state after a mutation of the block that `d` points to. -/
def store (s : State) (d : Option Nat) (blk : ObjectWrapperPrivate) : State :=
  match d with
  | none => s
  | some i => { s with heap := s.heap.set i (some blk) }

/-- The call `std::make_shared<ObjectWrapperPrivate>(...)`. -/
def alloc (s : State) (blk : ObjectWrapperPrivate) : Nat × State :=
  (s.heap.length, { s with heap := s.heap ++ [some blk] })

/-- The call `m_objectToWrapperPrivateMap.insert(object, weak_ptr { d })`. -/
def insert (s : State) (object : Ptr) (d : Nat) : State :=
  { s with m_objectToWrapperPrivateMap :=
      fun k => if k = object then some d else s.m_objectToWrapperPrivateMap k }

/-- The registry before first use, with no control block. -/
def empty : State := ⟨[], fun _ => none⟩

end State

/-! ## Creation -/

def checkCorrectThread {L : Type} (E : Env L) (live : L) (T : WrapperClass) (obj : Ptr) : Bool :=
  if T.isQObject then E.inObjectThread live obj else true

def checkValidObject {L : Type} (E : Env L) (live : L) (T : WrapperClass) (obj : Ptr) : Bool :=
  if T.isQObject then E.isValidObject live obj else obj != 0

/-- The customisation point `downcast<Derived_t>(Base_t b)`: `dynamic_cast` for a
polymorphic base (null for a null pointer), `nullptr` otherwise. -/
def downcast {L : Type} (E : Env L) (live : L) (Derived : WrapperClass) (Base : WrapperClass)
    (b : Ptr) : Ptr :=
  if Base.polymorphic then (if b != 0 then E.dynamicCast live b Derived.id else 0) else 0

/-- The template parameter `Class` of `create` and `handleForObject`: the wrapper
specialisation together with the factories that `DEFINE_FACTORY_WB` and `_WB2` of
derived wrappers pushed to `s_subclassFactories()`, in registration order. The entry
for a derived wrapper `D` stands for `&ObjectWrapperPrivate::createFromBase<D, Class>`. -/
inductive ObjectWrapper where
  | mk (cls : WrapperClass) (s_subclassFactories : List ObjectWrapper)

namespace ObjectWrapper

def cls : ObjectWrapper → WrapperClass
  | mk c _ => c

def s_subclassFactories : ObjectWrapper → List ObjectWrapper
  | mk _ fs => fs

end ObjectWrapper

/-- The part of `ObjectWrapperPrivate::create` after the factory loop. -/
def createOwn {L : Type} (E : Env L) (live : L) (Class : WrapperClass) (object : Ptr)
    (s : State) : Except Fault (Option Nat × State) :=
  let cache := makeCache Class object
  match __connectToUpdates E live Class ⟨cache, [], 1⟩ with
  | .error e => .error e
  | .ok blk =>
    let (d, s1) := s.alloc blk
    let s2 := s1.insert object d
    if !Class.cachingDisabled then
      match blk.updateCache E live Class.id with
      | .error e => .error e
      | .ok blk1 => .ok (some d, s2.store (some d) blk1)
    else .ok (some d, s2)

mutual
/-- The function template `ObjectWrapperPrivate::create<Class>(Class *object)`. -/
def create {L : Type} (E : Env L) (live : L) :
    ObjectWrapper → Ptr → State → Except Fault (Option Nat × State)
  | .mk Class factories, object, s =>
    if !checkValidObject E live Class object then .ok (none, s)
    else
      match Q_ASSERT E.assertsEnabled (checkCorrectThread E live Class object) with
      | .error e => .error e
      | .ok _ =>
        match subclassFactoryLoop E live Class factories object s with
        | .error e => .error e
        | .ok (some p, s1) => .ok (some p, s1)
        | .ok (none, s1) => createOwn E live Class object s1
/-- The loop over `s_subclassFactories()` in `create`, with the body of
`createFromBase<Derived, BaseClass>` for each factory: the first factory that returns
a control block ends the loop; `none` when all returned null. -/
def subclassFactoryLoop {L : Type} (E : Env L) (live : L) (BaseClass : WrapperClass) :
    List ObjectWrapper → Ptr → State → Except Fault (Option Nat × State)
  | [], _, s => .ok (none, s)
  | .mk Derived fs :: rest, obj, s =>
    let p := downcast E live Derived BaseClass obj
    if p != 0 then
      match create E live (.mk Derived fs) p s with
      | .error e => .error e
      | .ok (some d, s1) => .ok (some d, s1)
      | .ok (none, s1) => subclassFactoryLoop E live BaseClass rest obj s1
    else subclassFactoryLoop E live BaseClass rest obj s
end

/-- The function template `createFromBase<Class, BaseClass>(void *obj)`. -/
def createFromBase {L : Type} (E : Env L) (live : L) (Class : ObjectWrapper)
    (BaseClass : WrapperClass) (obj : Ptr) (s : State) : Except Fault (Option Nat × State) :=
  let p := downcast E live Class.cls BaseClass obj
  if p != 0 then create E live Class p s else .ok (none, s)

/-! ## Handles and views -/

/-- An `ObjectHandle<T>`: the shared pointer `m_d.d`. -/
structure ObjectHandle where
  d : Option Nat
  deriving DecidableEq, Repr

/-- An `ObjectView<T>`: the weak pointer `d`. -/
structure ObjectView where
  d : Option Nat
  deriving DecidableEq, Repr

/-- The function template `ObjectShadowDataRepository::handleForObject<Class>`. -/
def handleForObject {L : Type} (E : Env L) (live : L) (Class : ObjectWrapper) (obj : Ptr)
    (s : State) : Except Fault (ObjectHandle × State) :=
  if obj = 0 then .ok (⟨none⟩, s)
  else
    match s.m_objectToWrapperPrivateMap obj with
    | some w =>
      let d := s.lock w
      match s.deref d with
      | .error e => .error e
      | .ok blk =>
        match blk.isComplete Class.cls.id with
        | .error e => .error e
        | .ok true => .ok (⟨d⟩, s)
        | .ok false =>
          match blk.expandCache E live Class.cls obj with
          | .error e => .error e
          | .ok blk1 =>
            if !Class.cls.cachingDisabled then
              match blk1.updateCache E live Class.cls.id with
              | .error e => .error e
              | .ok blk2 => .ok (⟨d⟩, s.store d blk2)
            else .ok (⟨d⟩, s.store d blk1)
    | none =>
      match create E live Class obj s with
      | .error e => .error e
      | .ok (d, s1) => .ok (⟨d⟩, s1)

/-- The function template `ObjectShadowDataRepository::viewForObject<Class>`. -/
def viewForObject {L : Type} (E : Env L) (Class : WrapperClass) (obj : Ptr) (s : State) :
    Except Fault ObjectView :=
  if obj = 0 then .ok ⟨none⟩
  else
    match s.m_objectToWrapperPrivateMap obj with
    | none => .ok ⟨none⟩
    | some w =>
      let controlPtr := s.lock w
      match s.deref controlPtr with
      | .error e => .error e
      | .ok blk =>
        match blk.isComplete Class.id with
        | .error e => .error e
        | .ok complete =>
          match Q_ASSERT E.assertsEnabled complete with
          | .error e => .error e
          | .ok _ => if !complete then .ok ⟨none⟩ else .ok ⟨controlPtr⟩

/-- Address held by a `shared_ptr` (`d_ptr()`): `0` for null. -/
def addressOf (d : Option Nat) : Nat :=
  match d with
  | none => 0
  | some i => i + 1

namespace ObjectHandle

variable {L : Type}

/-- The member `m_d.d_ptr()`. -/
def d_ptr (h : ObjectHandle) : Nat := addressOf h.d

/-- The method `ObjectHandle<T>::object()`, that is `ObjectWrapper<T>::object()`:
`d ? d->object<T>() : nullptr`. -/
def object (E : Env L) (T : WrapperClass) (s : State) (h : ObjectHandle) : Except Fault Ptr :=
  match h.d with
  | none => .ok 0
  | some i =>
    match s.deref (some i) with
    | .error e => .error e
    | .ok blk => blk.object E T.id

/-- The two overloads of `ObjectHandle<T>::isValid()`. -/
def isValid (E : Env L) (live : L) (T : WrapperClass) (s : State) (h : ObjectHandle) :
    Except Fault Bool :=
  match h.object E T s with
  | .error e => .error e
  | .ok o => .ok (if T.isQObject then E.isValidObject live o else o != 0)

def eq (lhs rhs : ObjectHandle) : Bool := lhs.d_ptr == rhs.d_ptr
def ne (lhs rhs : ObjectHandle) : Bool := lhs.d_ptr != rhs.d_ptr
def lt (lhs rhs : ObjectHandle) : Bool := decide (lhs.d_ptr < rhs.d_ptr)
def gt (lhs rhs : ObjectHandle) : Bool := decide (lhs.d_ptr > rhs.d_ptr)
def le (lhs rhs : ObjectHandle) : Bool := decide (lhs.d_ptr ≤ rhs.d_ptr)
def ge (lhs rhs : ObjectHandle) : Bool := decide (lhs.d_ptr ≥ rhs.d_ptr)

/-- The function `qHash(const ObjectHandle<T> &key, uint seed)`. -/
def qHash (E : Env L) (T : WrapperClass) (s : State) (key : ObjectHandle) (seed : Nat) :
    Except Fault Nat :=
  match key.object E T s with
  | .error e => .error e
  | .ok o => .ok (E.qHashPtr o seed)

end ObjectHandle

namespace ObjectView

variable {L : Type}

/-- The method `ObjectView<T>::lock()`. -/
def lock (s : State) (v : ObjectView) : ObjectHandle :=
  match v.d with
  | none => ⟨none⟩
  | some w => ⟨s.lock w⟩

/-- The method `ObjectView<T>::object()`. -/
def object (E : Env L) (T : WrapperClass) (s : State) (v : ObjectView) : Except Fault Ptr :=
  match (v.lock s).d with
  | none => .ok 0
  | some i =>
    match s.deref (some i) with
    | .error e => .error e
    | .ok blk => blk.object E T.id

/-- Comparison of two raw pointers obtained from `object()`. -/
def viaObjects (op : Ptr → Ptr → Bool) (l r : Except Fault Ptr) : Except Fault Bool :=
  match l with
  | .error e => .error e
  | .ok a =>
    match r with
    | .error e => .error e
    | .ok b => .ok (op a b)

def ne (E : Env L) (T : WrapperClass) (s : State) (lhs rhs : ObjectView) : Except Fault Bool :=
  viaObjects (fun a b => a != b) (lhs.object E T s) (rhs.object E T s)
def eq (E : Env L) (T : WrapperClass) (s : State) (lhs rhs : ObjectView) : Except Fault Bool :=
  (ne E T s lhs rhs).map (fun b => !b)
def lt (E : Env L) (T : WrapperClass) (s : State) (lhs rhs : ObjectView) : Except Fault Bool :=
  viaObjects (fun a b => decide (a < b)) (lhs.object E T s) (rhs.object E T s)
def gt (E : Env L) (T : WrapperClass) (s : State) (lhs rhs : ObjectView) : Except Fault Bool :=
  viaObjects (fun a b => decide (a > b)) (lhs.object E T s) (rhs.object E T s)
def le (E : Env L) (T : WrapperClass) (s : State) (lhs rhs : ObjectView) : Except Fault Bool :=
  viaObjects (fun a b => decide (a ≤ b)) (lhs.object E T s) (rhs.object E T s)
def ge (E : Env L) (T : WrapperClass) (s : State) (lhs rhs : ObjectView) : Except Fault Bool :=
  viaObjects (fun a b => decide (a ≥ b)) (lhs.object E T s) (rhs.object E T s)

/-- The function `qHash(const ObjectView<T> &key, uint seed)`. -/
def qHash (E : Env L) (T : WrapperClass) (s : State) (key : ObjectView) (seed : Nat) :
    Except Fault Nat :=
  match key.object E T s with
  | .error e => .error e
  | .ok o => .ok (E.qHashPtr o seed)

end ObjectView

/-! Mixed comparison operators, `ObjectHandle<T>` with `ObjectView<T>` and back. -/

namespace HandleView

variable {L : Type}

def ne (E : Env L) (T : WrapperClass) (s : State) (lhs : ObjectHandle) (rhs : ObjectView) :
    Except Fault Bool :=
  ObjectView.viaObjects (fun a b => a != b) (lhs.object E T s) (rhs.object E T s)
def eq (E : Env L) (T : WrapperClass) (s : State) (lhs : ObjectHandle) (rhs : ObjectView) :
    Except Fault Bool :=
  (ne E T s lhs rhs).map (fun b => !b)
def lt (E : Env L) (T : WrapperClass) (s : State) (lhs : ObjectHandle) (rhs : ObjectView) :
    Except Fault Bool :=
  ObjectView.viaObjects (fun a b => decide (a < b)) (lhs.object E T s) (rhs.object E T s)
def gt (E : Env L) (T : WrapperClass) (s : State) (lhs : ObjectHandle) (rhs : ObjectView) :
    Except Fault Bool :=
  ObjectView.viaObjects (fun a b => decide (a > b)) (lhs.object E T s) (rhs.object E T s)
def le (E : Env L) (T : WrapperClass) (s : State) (lhs : ObjectHandle) (rhs : ObjectView) :
    Except Fault Bool :=
  (gt E T s lhs rhs).map (fun b => !b)
def ge (E : Env L) (T : WrapperClass) (s : State) (lhs : ObjectHandle) (rhs : ObjectView) :
    Except Fault Bool :=
  (lt E T s lhs rhs).map (fun b => !b)

end HandleView

namespace ViewHandle

variable {L : Type}

def ne (E : Env L) (T : WrapperClass) (s : State) (lhs : ObjectView) (rhs : ObjectHandle) :
    Except Fault Bool :=
  HandleView.ne E T s rhs lhs
def eq (E : Env L) (T : WrapperClass) (s : State) (lhs : ObjectView) (rhs : ObjectHandle) :
    Except Fault Bool :=
  (ne E T s lhs rhs).map (fun b => !b)
def lt (E : Env L) (T : WrapperClass) (s : State) (lhs : ObjectView) (rhs : ObjectHandle) :
    Except Fault Bool :=
  ObjectView.viaObjects (fun a b => decide (a < b)) (lhs.object E T s) (rhs.object E T s)
def gt (E : Env L) (T : WrapperClass) (s : State) (lhs : ObjectView) (rhs : ObjectHandle) :
    Except Fault Bool :=
  ObjectView.viaObjects (fun a b => decide (a > b)) (lhs.object E T s) (rhs.object E T s)
def le (E : Env L) (T : WrapperClass) (s : State) (lhs : ObjectView) (rhs : ObjectHandle) :
    Except Fault Bool :=
  (gt E T s lhs rhs).map (fun b => !b)
def ge (E : Env L) (T : WrapperClass) (s : State) (lhs : ObjectView) (rhs : ObjectHandle) :
    Except Fault Bool :=
  (lt E T s lhs rhs).map (fun b => !b)

end ViewHandle

/-! ## Generated accessors -/

/-- The statement `d_ptr()->cache<value_type>()->get<StorageIndex>() = v`, written
back into the tree of the block. -/
def ObjectWrapperPrivate.setSlot {L : Type} (E : Env L) (d : ObjectWrapperPrivate)
    (T : TypeId) (StorageIndex : Nat) (v : Value) : Except Fault ObjectWrapperPrivate :=
  match d.cache E T with
  | .error e => .error e
  | .ok .null => .error .nullDeref
  | .ok (.node cls ds bs o) =>
    if StorageIndex < ds.length then
      .ok { d with m_cache := d.m_cache.replace T (.node cls (ds.set StorageIndex v) bs o) }
    else .error .noSlot

/-- The expression `d_ptr()->cache<value_type>()->get<StorageIndex>()` as a value. -/
def ObjectWrapperPrivate.getSlot {L : Type} (E : Env L) (d : ObjectWrapperPrivate)
    (T : TypeId) (StorageIndex : Nat) : Except Fault Value :=
  match d.cache E T with
  | .error e => .error e
  | .ok .null => .error .nullDeref
  | .ok (.node _ ds _ _) =>
    match ds[StorageIndex]? with
    | none => .error .noSlot
    | some v => .ok v

/-- The getter generated by `DEFINE_GETTER(FieldName, StorageIndex, Flags)` in
`ObjectWrapper<cls>`, called on a wrapper whose control block pointer is `d`. -/
def getter {L : Type} (E : Env L) (live : L) (cls : WrapperClass) (StorageIndex : Nat)
    (Flags : Nat) (d : Option Nat) (s : State) : Except Fault (Value × State) :=
  match Q_ASSERT E.assertsEnabled d.isSome with
  | .error e => .error e
  | .ok _ =>
    match s.deref d with
    | .error e => .error e
    | .ok blk0 =>
      match blk0.acquire with
      | .error e => .error e
      | .ok blk =>
        if cls.cachingDisabled then
          match blk.object E cls.id with
          | .error e => .error e
          | .ok o =>
            match fetchLive E live cls StorageIndex o with
            | .error e => .error e
            | .ok v => .ok (wrap Flags v, s.store d blk.release)
        else
          match blk.getSlot E cls.id StorageIndex with
          | .error e => .error e
          | .ok v => .ok (wrapPhase2 Flags v, s.store d blk.release)

/-- The functor `f` that `connectToUpdates<Class, storageIndex, Flags>` connects to the
notify signal of the property, run when the signal is emitted; `weakSelf` is the
captured weak pointer to the control block. (The mutex `Probe::objectLock()` that it
locks first is not modelled.) -/
def notifyFunctor {L : Type} (E : Env L) (live : L) (cls : WrapperClass) (storageIndex : Nat)
    (Flags : Nat) (weakSelf : Nat) (s : State) : Except Fault State :=
  let d := s.lock weakSelf
  match s.deref d with
  | .error e => .error e
  | .ok blk0 =>
    match blk0.acquire with
    | .error e => .error e
    | .ok blk =>
      match blk.object E cls.id with
      | .error e => .error e
      | .ok o =>
        match fetchLive E live cls storageIndex o with
        | .error e => .error e
        | .ok v =>
          match blk.setSlot E cls.id storageIndex (wrapPhase1 Flags v) with
          | .error e => .error e
          | .ok blk1 => .ok (s.store d blk1.release)

/-- The functors connected to the signal of the connection `c`, as the heap indices of
the control blocks whose connection list holds `c`, one entry for each such
connection; `b` is the heap index of the first block of the list. -/
def listenersFrom (c : Connection) : List (Option ObjectWrapperPrivate) → Nat → List Nat
  | [], _ => []
  | none :: rest, b => listenersFrom c rest (b + 1)
  | some blk :: rest, b =>
    List.replicate (blk.connections.count c) b ++ listenersFrom c rest (b + 1)

/-- The calls that Qt makes when the notify signal of property `storageIndex` of `cls`
is emitted: the functors connected to it with `Qt::DirectConnection`, one after the
other in the emitting thread; `live` is the state of the live objects that they read. -/
def runFunctors {L : Type} (E : Env L) (live : L) (cls : WrapperClass) (storageIndex : Nat)
    (Flags : Nat) : List Nat → State → Except Fault State
  | [], s => .ok s
  | weakSelf :: rest, s =>
    match notifyFunctor E live cls storageIndex Flags weakSelf s with
    | .error e => .error e
    | .ok s1 => runFunctors E live cls storageIndex Flags rest s1

/-- A call `write_<prop><Flags>(object, newVal)`; it writes through `object`. -/
def writeLive {L : Type} (E : Env L) (live : L) (cls : WrapperClass) (i : Nat) (object : Ptr)
    (newVal : Value) : Except Fault L :=
  if object = 0 then .error .nullDeref else .ok (E.write live object cls.id i newVal)

/-- What happens inside the call `write_<prop>(object, newVal)` after the live write
that took the live objects from `live` to `live1`: where the write emits the notify
signal of the property, the functors that control blocks connected to it run before
the call returns. -/
def emitNotifySignal {L : Type} (E : Env L) (live live1 : L) (cls : WrapperClass)
    (storageIndex : Nat) (Flags : Nat) (object : Ptr) (newVal : Value) (s : State) :
    Except Fault State :=
  if E.emitsNotify live object cls.id storageIndex newVal then
    runFunctors E live1 cls storageIndex Flags
      (listenersFrom ⟨cls.id, storageIndex, object⟩ s.heap 0) s
  else .ok s

/-- The destructor of `QSemaphoreReleaser releaser { d_ptr()->semaphore }` at the end
of a generated accessor. -/
def releaseSemaphore (d : Option Nat) (s : State) : Except Fault State :=
  match s.deref d with
  | .error e => .error e
  | .ok blk => .ok (s.store d blk.release)

/-- The setter generated by `DEFINE_SETTER(FieldName, SetterName, StorageIndex, Flags)`
in `ObjectWrapper<cls>`. The semaphore of the block is held from `acquire` to the end
of the body, also during `write_<prop>` and the functors that the write makes Qt call. -/
def setter {L : Type} (E : Env L) (live : L) (cls : WrapperClass) (StorageIndex : Nat)
    (Flags : Nat) (d : Option Nat) (newValue : Value) (s : State) :
    Except Fault (State × L) :=
  match Q_ASSERT E.assertsEnabled d.isSome with
  | .error e => .error e
  | .ok _ =>
    match s.deref d with
    | .error e => .error e
    | .ok blk0 =>
      match blk0.acquire with
      | .error e => .error e
      | .ok blk =>
        if cls.cachingDisabled then
          match blk.object E cls.id with
          | .error e => .error e
          | .ok o =>
            match writeLive E live cls StorageIndex o (unwrap newValue) with
            | .error e => .error e
            | .ok live1 =>
              match emitNotifySignal E live live1 cls StorageIndex Flags o (unwrap newValue)
                  (s.store d blk) with
              | .error e => .error e
              | .ok s1 =>
                match releaseSemaphore d s1 with
                | .error e => .error e
                | .ok s2 => .ok (s2, live1)
        else
          match blk.setSlot E cls.id StorageIndex newValue with
          | .error e => .error e
          | .ok blk1 =>
            match blk1.object E cls.id with
            | .error e => .error e
            | .ok o =>
              match writeLive E live cls StorageIndex o (unwrap newValue) with
              | .error e => .error e
              | .ok live1 =>
                match emitNotifySignal E live live1 cls StorageIndex Flags o
                    (unwrap newValue) (s.store d blk1) with
                | .error e => .error e
                | .ok s1 =>
                  match releaseSemaphore d s1 with
                  | .error e => .error e
                  | .ok s2 => .ok (s2, live1)

/-! ## Invariants of cache trees and specification-level notions -/

def PropertyCache.cls? : PropertyCache → Option WrapperClass
  | .null => none
  | .node cls _ _ _ => some cls

mutual
/-- The tree is a complete cache of static type `propertyCache_t<C>` for the object
at `o`: no null node, every node caches `o`, and the base caches of a node are caches
of the declared bases of its class, in order. -/
def PropertyCache.IsCacheOf (o : Ptr) : PropertyCache → WrapperClass → Prop
  | .null, _ => False
  | .node cls _ bs o1, C => cls = C ∧ o1 = o ∧ AreCachesOf o bs C.bases
def AreCachesOf (o : Ptr) : List PropertyCache → List WrapperClass → Prop
  | [], [] => True
  | c :: cs, b :: bs => c.IsCacheOf o b ∧ AreCachesOf o cs bs
  | [], _ :: _ => False
  | _ :: _, [] => False
end

mutual
/-- Type ids of the nodes of a tree, in the order in which `cache` visits them. -/
def PropertyCache.nodeIds : PropertyCache → List TypeId
  | .null => []
  | .node cls _ bs _ => cls.id :: nodeIdsOfBases bs
def nodeIdsOfBases : List PropertyCache → List TypeId
  | [] => []
  | c :: cs => c.nodeIds ++ nodeIdsOfBases cs
end

mutual
/-- The class and all its direct and indirect declared bases, depth first. -/
def WrapperClass.hierarchy : WrapperClass → List WrapperClass
  | .mk i q p c ps bs => .mk i q p c ps bs :: hierarchyOfBases bs
def hierarchyOfBases : List WrapperClass → List WrapperClass
  | [] => []
  | b :: bs => b.hierarchy ++ hierarchyOfBases bs
end

/-- The lookup `cache(T)` returns a complete cache, for the object at `o`, of a
class with type id `T`. -/
def PropertyCache.Found (t : PropertyCache) (o : Ptr) (T : TypeId) : Prop :=
  ∃ r C, t.cache T = .ok r ∧ r.IsCacheOf o C ∧ C.id = T

/-- What `__data(d, __number<k>)` computes when the node of the class caches `o`. -/
def liveData {L : Type} (E : Env L) (live : L) (cls : WrapperClass) (o : Ptr) : Nat → List Value
  | 0 => []
  | k + 1 =>
    match cls.props[k]? with
    | none => liveData E live cls o k
    | some p => liveData E live cls o k ++ [wrapPhase1 p.flags (E.fetch live o cls.id k)]

mutual
/-- Every slot of every node holds the live value of its property. -/
def PropertyCache.Fresh {L : Type} (E : Env L) (live : L) : PropertyCache → Prop
  | .null => True
  | .node cls ds bs o => ds = liveData E live cls o 255 ∧ FreshBases E live bs
def FreshBases {L : Type} (E : Env L) (live : L) : List PropertyCache → Prop
  | [] => True
  | c :: cs => c.Fresh E live ∧ FreshBases E live cs
end

/-- The tree `t` can be expanded to `C`: going from `C` down the chain of first
declared bases one reaches the class of the root of `t`, and `t` has no node for the
classes passed on the way. -/
def Expandable (t : PropertyCache) : WrapperClass → Prop
  | .mk i q p c ps [] => t.cls? = some (.mk i q p c ps [])
  | .mk i q p c ps (b :: bs) =>
    t.cls? = some (.mk i q p c ps (b :: bs)) ∨ (t.cache i = .ok .null ∧ Expandable t b)

/-- The block at heap index `b` exists. -/
def State.Alive (s : State) (b : Nat) : Prop :=
  ∃ blk, s.heap[b]? = some (some blk)

/-- The state `s1` comes from `s` by adding control blocks and by changing the
registry entry of `o` at most. -/
def State.ExtendsAt (o : Ptr) (s s1 : State) : Prop :=
  (∀ k, k ≠ o → s1.m_objectToWrapperPrivateMap k = s.m_objectToWrapperPrivateMap k) ∧
  (∀ i, i < s.heap.length → s1.heap[i]? = s.heap[i]?) ∧ s.heap.length ≤ s1.heap.length

/-- One call of the registry, with the state of the live objects at the time of
the call. -/
inductive Call (L : Type) where
  | handleFor (live : L) (Class : ObjectWrapper) (obj : Ptr)
  | viewFor (Class : WrapperClass) (obj : Ptr)

/-- Runs the calls in order, up to the first one that does not return; for each call
the object asked for and the control block pointer of the returned handle or view. -/
def runCalls {L : Type} (E : Env L) : List (Call L) → State → List (Ptr × Option Nat)
  | [], _ => []
  | .handleFor live Class obj :: rest, s =>
    match handleForObject E live Class obj s with
    | .error _ => []
    | .ok (h, s1) => (obj, h.d) :: runCalls E rest s1
  | .viewFor Class obj :: rest, s =>
    match viewForObject E Class obj s with
    | .error _ => []
    | .ok v => (obj, v.d) :: runCalls E rest s

/-- What `create` and the factory loop do to the state: only blocks are added, only
the registry entry of the object is written; when null is returned nothing changed,
else the returned block exists and is registered for the object. -/
def CreatePost (o : Ptr) (s : State) (r : Option Nat) (s1 : State) : Prop :=
  State.ExtendsAt o s s1 ∧ (r = none → s1 = s) ∧
    ∀ d, r = some d → s1.m_objectToWrapperPrivateMap o = some d ∧ s1.Alive d

/-- No control block holds a connection to the signal of the connection `c`. -/
def State.NoListener (s : State) (c : Connection) : Prop :=
  ∀ (b : Nat) (blk : ObjectWrapperPrivate),
    s.heap[b]? = some (some blk) → c ∉ blk.connections

/-- RTTI keeps addresses: `dynamic_cast` to a class returns null or the address it is
given, as it does where every class has its base classes at offset 0. -/
def Env.KeepsAddress {L : Type} (E : Env L) : Prop :=
  ∀ live p T, E.dynamicCast live p T = 0 ∨ E.dynamicCast live p T = p

/-- The addresses that the factories can reach from the pointer `o`: `o` itself and
every non-null result of a `dynamic_cast` of such an address. -/
inductive CastImage {L : Type} (E : Env L) (live : L) (o : Ptr) : Ptr → Prop where
  | self : CastImage E live o o
  | cast {p : Ptr} (T : TypeId) :
      CastImage E live o p → E.dynamicCast live p T ≠ 0 →
      CastImage E live o (E.dynamicCast live p T)

/-- What `create` and the factory loop, called with the pointer `o`, do to the state:
when null is returned nothing changed; else blocks were added and one registry entry
was written, for a key `k` that `o` was cast to, and the returned block exists, is
registered for `k` and has `k` in the root of its tree. -/
def CreatedAt {L : Type} (E : Env L) (live : L) (o : Ptr) (s : State) (r : Option Nat)
    (s1 : State) : Prop :=
  (r = none → s1 = s) ∧
  ∀ d, r = some d → ∃ k, CastImage E live o k ∧ State.ExtendsAt k s s1 ∧
    s1.m_objectToWrapperPrivateMap k = some d ∧
    ∃ blk cls ds bs, s1.heap[d]? = some (some blk) ∧ blk.m_cache = .node cls ds bs k

/-! ## Example wrappers and collaborators -/

def exX : PropDecl := ⟨"x", .rw, Getter, .int 0⟩

def exY : PropDecl := ⟨"y", .ro, Getter, .str ""⟩

/-- `DEFINE_OBJECT_WRAPPER(Base)` with `RW_PROP(x, setX, Getter)`; `Base` is neither
polymorphic nor a `QObject`. -/
def exBase : WrapperClass := .mk 1 false false false [exX] []

/-- `DEFINE_OBJECT_WRAPPER_WB(Derived, Base)` with `RO_PROP(y, Getter)`. -/
def exDerived : WrapperClass := .mk 2 false false false [exY] [exBase]

def exDerivedW : ObjectWrapper := .mk exDerived []

/-- `Base` with the factory that `DEFINE_FACTORY_WB(Derived, Base)` registered. -/
def exBaseW : ObjectWrapper := .mk exBase [exDerivedW]

/-- Collaborators for the example classes; the state of the live objects is the
current value of `x`, and `y` is "hi". -/
def exEnv (assertsEnabled : Bool) : Env Int where
  assertsEnabled := assertsEnabled
  isValidObject := fun _ p => p != 0
  inObjectThread := fun _ _ => true
  dynamicCast := fun _ p _ => p
  hasNotifySignal := fun _ _ _ => false
  fetch := fun live _ t _ => if t = 1 then .int live else .str "hi"
  write := fun live _ t _ v =>
    match v with
    | .int n => if t = 1 then n else live
    | _ => live
  emitsNotify := fun _ _ _ _ _ => false
  qHashPtr := fun p seed => p + seed

/-- The block of a handle for object 7 as `Base` while `x` is 5. -/
def exBaseBlock : ObjectWrapperPrivate :=
  ⟨.node exBase [.int 5] [] 7, [], 1⟩

/-- The state after `handleForObject<Base>` for object 7 while `x` is 5. -/
def exBaseState : State :=
  ⟨[some exBaseBlock], fun k => if k = 7 then some 0 else none⟩

/-- A wrapper of a `QObject` class without properties. -/
def exQ : WrapperClass := .mk 5 true true false [] []

def exQW : ObjectWrapper := .mk exQ []

/-- Collaborators whose live state says whether the object at 7 still exists. -/
def exQEnv : Env Bool where
  assertsEnabled := true
  isValidObject := fun live p => live && p == 7
  inObjectThread := fun _ _ => true
  dynamicCast := fun _ p _ => p
  hasNotifySignal := fun _ _ _ => false
  fetch := fun _ _ _ _ => .int 0
  write := fun live _ _ _ _ => live
  emitsNotify := fun _ _ _ _ _ => false
  qHashPtr := fun p seed => p + seed

/-- The factories in the list were registered with `B` by `DEFINE_FACTORY_WB` or
`_WB2` of wrappers that declare `B` as a base class, and so on for the factories
registered with those wrappers. -/
def FactoriesOf : WrapperClass → List ObjectWrapper → Prop
  | _, [] => True
  | B, .mk D fs :: rest => B ∈ D.bases ∧ FactoriesOf D fs ∧ FactoriesOf B rest

/-- A control block returned by `create` exists and its tree is a complete cache,
for the address `o1` that the object was cast to, of a class `R` whose hierarchy has
the class `B`. -/
def Discovered (B : WrapperClass) (r : Option Nat) (s1 : State) : Prop :=
  ∀ d, r = some d →
    ∃ blk R o1, s1.heap[d]? = some (some blk) ∧ blk.m_cache.IsCacheOf o1 R ∧ B ∈ R.hierarchy

/-- A polymorphic class `Shape` with property `x`. -/
def exShape : WrapperClass := .mk 10 false true false [exX] []

/-- `DEFINE_OBJECT_WRAPPER_WB(Square, Shape)`. -/
def exSquare : WrapperClass := .mk 12 false true false [] [exShape]

/-- `DEFINE_OBJECT_WRAPPER_WB(Circle, Shape)` with property `y`. -/
def exCircle : WrapperClass := .mk 11 false true false [exY] [exShape]

def exSquareW : ObjectWrapper := .mk exSquare []

def exCircleW : ObjectWrapper := .mk exCircle []

/-- `Shape` with the factories of `Square` and `Circle`, registered in this order. -/
def exShapeW : ObjectWrapper := .mk exShape [exSquareW, exCircleW]

/-- Collaborators for the shapes: the object at 7 is a `Circle`; `x` is the live
state and `y` is "hi". -/
def exShapeEnv : Env Int where
  assertsEnabled := true
  isValidObject := fun _ p => p != 0
  inObjectThread := fun _ _ => true
  dynamicCast := fun _ p t => if p == 7 && (t == 10 || t == 11) then p else 0
  hasNotifySignal := fun _ _ _ => false
  fetch := fun live _ t _ => if t = 10 then .int live else .str "hi"
  write := fun live _ _ _ _ => live
  emitsNotify := fun _ _ _ _ _ => false
  qHashPtr := fun p seed => p + seed

/-- The state after `create<Shape>` for the circle at 7 while `x` is 5. -/
def exCircleState : State :=
  ⟨[some ⟨.node exCircle [.str "hi"] [.node exShape [.int 5] [] 7] 7, [], 1⟩],
    fun k => if k = 7 then some 0 else none⟩

/-- `DEFINE_OBJECT_WRAPPER(B1)` with property `x`. -/
def exB1 : WrapperClass := .mk 21 false false false [exX] []

/-- `DEFINE_OBJECT_WRAPPER(B2)` with property `y`. -/
def exB2 : WrapperClass := .mk 22 false false false [exY] []

/-- `DEFINE_OBJECT_WRAPPER_WB2(D, B1, B2)`; none of the classes is polymorphic. -/
def exD : WrapperClass := .mk 23 false false false [] [exB1, exB2]

/-- The fault with which a call ended, if it did not return. -/
def faultOf {α : Type} : Except Fault α → Option Fault
  | .ok _ => none
  | .error e => some e

/-- The content of slot `i` of the node of class `T` in block 0. -/
def slotOfBlock0 {L : Type} (E : Env L) (s : State) (T : TypeId) (i : Nat) :
    Except Fault Value :=
  match s.deref (some 0) with
  | .error e => .error e
  | .ok blk => blk.getSlot E T i

mutual
/-- Type id and slots of every node of a tree, in the order in which `cache` visits
the nodes. -/
def PropertyCache.nodes : PropertyCache → List (TypeId × List Value)
  | .null => []
  | .node cls ds bs _ => (cls.id, ds) :: nodesOfBases bs
def nodesOfBases : List PropertyCache → List (TypeId × List Value)
  | [] => []
  | c :: cs => c.nodes ++ nodesOfBases cs
end

/-- The list of nodes in which slot `i` of the first node of type `T` is `v` and
nothing else is changed. -/
def setFirstSlot (T : TypeId) (i : Nat) (v : Value) :
    List (TypeId × List Value) → List (TypeId × List Value)
  | [] => []
  | (t, ds) :: rest =>
    if t = T then (t, ds.set i v) :: rest else (t, ds) :: setFirstSlot T i v rest

/-- The wrapper of `Base` with `DISABLE_CACHING`. -/
def exLive : WrapperClass := .mk 1 false false true [exX] []

/-! ## Destruction, validity of views, refresh -/

/-- The destructor `ObjectWrapperPrivate::~ObjectWrapperPrivate()`, run on block `d`
when the last `shared_ptr` to it is released: the connections passed to
`QObject::disconnect`, in order, and the state in which the registry entry of
`m_cache->object()` is removed and the block is gone. -/
def State.destroy (s : State) (d : Nat) : Except Fault (List Connection × State) :=
  match s.heap[d]? with
  | some (some blk) =>
    match blk.m_cache with
    | .null => .error .nullDeref
    | .node _ _ _ object =>
      .ok (blk.connections,
        { heap := s.heap.set d none
          m_objectToWrapperPrivateMap :=
            fun k => if k = object then none else s.m_objectToWrapperPrivateMap k })
  | _ => .error .nullDeref

namespace ObjectHandle

variable {L : Type}

/-- The method `ObjectHandle<T>::data()`. -/
def data (E : Env L) (T : WrapperClass) (s : State) (h : ObjectHandle) : Except Fault Ptr :=
  h.object E T s

/-- The method `ObjectHandle<T>::clear()`, that is `m_d._clear()`. -/
def clear (_h : ObjectHandle) : ObjectHandle := ⟨none⟩

/-- The method `ObjectHandle<T>::refresh()`:
`m_d.d_ptr()->cache<T>()->update(m_d.d_ptr())`. -/
def refresh (E : Env L) (live : L) (T : WrapperClass) (s : State) (h : ObjectHandle) :
    Except Fault State :=
  match s.deref h.d with
  | .error e => .error e
  | .ok blk =>
    match blk.updateCache E live T.id with
    | .error e => .error e
    | .ok blk1 => .ok (s.store h.d blk1)

end ObjectHandle

namespace ObjectView

variable {L : Type}

/-- The two overloads of `ObjectView<T>::isValid()`. -/
def isValid (E : Env L) (live : L) (T : WrapperClass) (s : State) (v : ObjectView) :
    Except Fault Bool :=
  match (v.lock s).d with
  | none => .ok false
  | some i =>
    match s.deref (some i) with
    | .error e => .error e
    | .ok d_locked =>
      match d_locked.object E T.id with
      | .error e => .error e
      | .ok o => .ok (if T.isQObject then E.isValidObject live o else o != 0)

/-- The method `ObjectView<T>::data()`. -/
def data (E : Env L) (T : WrapperClass) (s : State) (v : ObjectView) : Except Fault Ptr :=
  v.object E T s

/-- The method `ObjectView<T>::clear()`, that is `d.reset()`. -/
def clear (_v : ObjectView) : ObjectView := ⟨none⟩

/-- The method `ObjectView<T>::refresh()`:
`auto d_ptr = d.lock(); d_ptr->cache<T>()->update(d_ptr.get())`. -/
def refresh (E : Env L) (live : L) (T : WrapperClass) (s : State) (v : ObjectView) :
    Except Fault State :=
  let d_ptr := (v.lock s).d
  match s.deref d_ptr with
  | .error e => .error e
  | .ok blk =>
    match blk.updateCache E live T.id with
    | .error e => .error e
    | .ok blk1 => .ok (s.store d_ptr blk1)

end ObjectView

/-- The method `refresh_<FieldName>()` generated by
`DEFINE_REFRESH_PROPERTY(FieldName, StorageIndex, Flags)` in `ObjectWrapper<cls>`. -/
def refresh_property {L : Type} (E : Env L) (live : L) (cls : WrapperClass)
    (StorageIndex : Nat) (Flags : Nat) (d : Option Nat) (s : State) : Except Fault State :=
  match Q_ASSERT E.assertsEnabled d.isSome with
  | .error e => .error e
  | .ok _ =>
    if cls.cachingDisabled then .ok s
    else
      match s.deref d with
      | .error e => .error e
      | .ok blk0 =>
        match blk0.acquire with
        | .error e => .error e
        | .ok blk =>
          match blk.object E cls.id with
          | .error e => .error e
          | .ok o =>
            match fetchLive E live cls StorageIndex o with
            | .error e => .error e
            | .ok v =>
              match blk.setSlot E cls.id StorageIndex (wrapPhase1 Flags v) with
              | .error e => .error e
              | .ok blk1 => .ok (s.store d blk1.release)

/-- A `QObject` class `Window` with the Qt property `title`, declared
`RO_PROP(title, QProp)`. -/
def exWindow : WrapperClass := .mk 6 true true false [⟨"title", .ro, QProp, .str ""⟩] []

def exWindowW : ObjectWrapper := .mk exWindow []

/-- Collaborators for `Window`: the live state is the number in the title, every Qt
property has a notify signal, and the object at 7 is valid. -/
def exWindowEnv : Env Int where
  assertsEnabled := true
  isValidObject := fun _ p => p == 7
  inObjectThread := fun _ _ => true
  dynamicCast := fun _ p _ => p
  hasNotifySignal := fun _ _ _ => true
  fetch := fun live _ _ _ => .int live
  write := fun live _ _ _ _ => live
  emitsNotify := fun _ _ _ _ _ => false
  qHashPtr := fun p seed => p + seed

/-- The state after `handleForObject<Window>` for the window at 7 with title 5: one
block with the connection to the notify signal of `title`. -/
def exWindowState : State :=
  ⟨[some ⟨.node exWindow [.int 5] [] 7, [⟨6, 0, 7⟩], 1⟩],
    fun k => if k = 7 then some 0 else none⟩

/-- The state after the destruction of block 0; the state itself where the destructor
faults. -/
def State.destroyed0 (s : State) : State :=
  match s.destroy 0 with
  | .ok (_, s1) => s1
  | .error _ => s

/-! ## Wrapper objects and conversions to base class handles -/

/-- An object of class `ObjectWrapper<Class>`: the member `d` in a wrapper declared
with `DEFINE_OBJECT_WRAPPER`, the base class subobjects in a wrapper declared with
`_WB` (one) or `_WB2` (two). -/
inductive WrapperObject where
  | root (d : Option Nat)
  | derived (bases : List WrapperObject)

namespace WrapperObject

mutual
/-- The constructor `ObjectWrapper<Class>(std::shared_ptr<ObjectWrapperPrivate>
controlBlock)`: `DEFINE_OBJECT_WRAPPER` moves the pointer into `d`, `_WB` passes it to
the base class, `_WB2` copies it to the first base class and moves it to the second. -/
def construct : WrapperClass → Option Nat → WrapperObject
  | .mk _ _ _ _ _ [], controlBlock => .root controlBlock
  | .mk _ _ _ _ _ (b :: bs), controlBlock =>
    .derived (construct b controlBlock :: constructBases bs controlBlock)
/-- The base class initialisers after the first. -/
def constructBases : List WrapperClass → Option Nat → List WrapperObject
  | [], _ => []
  | b :: bs, controlBlock => construct b controlBlock :: constructBases bs controlBlock
end

mutual
/-- The pointer that `d_ptr()` and `cloneD()` read: the member `d`, inherited from the
base class in `_WB` and named `ObjectWrapper<BaseClass1>::d` in `_WB2`. -/
def d : WrapperObject → Option Nat
  | .root d => d
  | .derived bases => dOfFirst bases
/-- The member `d` of the first base class subobject. -/
def dOfFirst : List WrapperObject → Option Nat
  | [] => none
  | b :: _ => b.d
end

mutual
/-- The conversion `static_cast<ObjectWrapper<U>>(w)` of an object `w` of class
`ObjectWrapper<C>`: a copy of the base class subobject of class `ObjectWrapper<U>`,
`none` where there is no such base class. (Where two base class subobjects have that
class the conversion is ambiguous and does not compile; the first one is taken.) -/
def staticCast : WrapperClass → WrapperObject → TypeId → Option WrapperObject
  | .mk i _ _ _ _ bs, w, U =>
    if i = U then some w
    else
      match w with
      | .root _ => none
      | .derived ws => staticCastBases bs ws U
/-- The search through the base class subobjects, in declaration order. -/
def staticCastBases : List WrapperClass → List WrapperObject → TypeId → Option WrapperObject
  | [], _, _ => none
  | _ :: _, [], _ => none
  | b :: bs, w :: ws, U =>
    match staticCast b w U with
    | some r => some r
    | none => staticCastBases bs ws U
end

end WrapperObject

namespace ObjectHandle

/-- The member `m_d` of an `ObjectHandle<T>` whose control block pointer is `h.d`, as
the constructors of the handle make it. -/
def m_d (T : WrapperClass) (h : ObjectHandle) : WrapperObject :=
  WrapperObject.construct T h.d

/-- The conversion `operator ObjectHandle<U>()` of `ObjectHandle<T>`:
`ObjectHandle<U> { static_cast<ObjectWrapper<U>>(m_d) }`; `none` where it does not
compile. -/
def toObjectHandle (T : WrapperClass) (U : TypeId) (h : ObjectHandle) : Option ObjectHandle :=
  match WrapperObject.staticCast T (h.m_d T) U with
  | none => none
  | some w => some ⟨w.d⟩

/-- The conversion `operator ObjectView<U>()` of `ObjectHandle<T>`:
`ObjectView<U> { static_cast<ObjectWrapper<U>>(m_d).cloneD() }`. -/
def toObjectView (T : WrapperClass) (U : TypeId) (h : ObjectHandle) : Option ObjectView :=
  match WrapperObject.staticCast T (h.m_d T) U with
  | none => none
  | some w => some ⟨w.d⟩

end ObjectHandle

/-! ## Call forwarding -/

/-- What a call of `callVoid` has done when it returns: the receivers of the
invocations `(object->*f)(args...)` it made itself, and the pointers captured by the
functors it gave to `QMetaObject::invokeMethod` with `Qt::QueuedConnection`. Whether
and when Qt runs such a functor is not part of this file. (The template `call` has no
instance: its functor captures the `std::promise` by copy.) -/
structure Forwarded where
  invoked : List Ptr
  queued : List Ptr
  deriving DecidableEq, Repr

/-- The function template `ObjectWrapperPrivate::callVoid(object, f, args...)`. -/
def ObjectWrapperPrivate.callVoid {L : Type} (E : Env L) (live : L) (object : Ptr) :
    Forwarded :=
  if !E.isValidObject live object then ⟨[], []⟩
  else if E.inObjectThread live object then ⟨[object], []⟩
  else ⟨[], [object]⟩

/-- A state whose only block is a complete cache of `D` for the object at 7. -/
def exDState : State :=
  ⟨[some ⟨.node exD [] [.node exB1 [.int 5] [] 7, .node exB2 [.str "hi"] [] 7] 7, [], 1⟩],
    fun k => if k = 7 then some 0 else none⟩

/-- The state `exBaseState` while another operation holds the semaphore of the block. -/
def exHeldState : State :=
  ⟨[some ⟨.node exBase [.int 5] [] 7, [], 0⟩], fun k => if k = 7 then some 0 else none⟩

/-! ## Sub-trees and lookup, specification level -/

/-- The first base cache of a node; null where there is none. -/
def PropertyCache.firstBase : PropertyCache → PropertyCache
  | .node _ _ (b :: _) _ => b
  | _ => .null

mutual
/-- The nodes of a tree with their sub-trees, depth first, base caches in declaration
order. -/
def PropertyCache.subtrees : PropertyCache → List PropertyCache
  | .null => []
  | .node cls ds bs o => .node cls ds bs o :: subtreesOfBases bs
def subtreesOfBases : List PropertyCache → List PropertyCache
  | [] => []
  | c :: cs => c.subtrees ++ subtreesOfBases cs
end

mutual
/-- The tree is not null and no base cache pointer in it is null. -/
def PropertyCache.hasNoNull : PropertyCache → Bool
  | .null => false
  | .node _ _ bs _ => basesHaveNoNull bs
def basesHaveNoNull : List PropertyCache → Bool
  | [] => true
  | c :: cs => c.hasNoNull && basesHaveNoNull cs
end

/-- The first node of the requested type in a list of nodes, null if there is none. -/
def firstOfList (type : TypeId) (l : List PropertyCache) : PropertyCache :=
  match l.find? (fun n => n.isA type) with
  | some n => n
  | none => .null

/-- The lookup as the specification words it: the first node of the requested type
met depth first in declaration order, null if no node has that type. -/
def PropertyCache.firstOfType (t : PropertyCache) (type : TypeId) : PropertyCache :=
  firstOfList type t.subtrees

/-- The first non-null pointer of a list of lookup results, null if there is none. -/
def firstNonNull (l : List PropertyCache) : PropertyCache :=
  match l.find? (fun r => !r.isNull) with
  | some r => r
  | none => .null

/-! ## Property counters and static meta objects -/

/-- Size of the tuple type `decltype(__data(d, __number<k>{}))` when `__data` has the
overload for counter 0 and the overloads that `DATA_APPEND` declared for the counters
in `declared`: the call resolves to the overload with the greatest counter not above
`k`, and the tuple of the overload for a counter has one element more than the tuple
of the call with the counter before it. -/
def tupleSize (declared : List Nat) : Nat → Nat
  | 0 => 0
  | k + 1 => if k + 1 ∈ declared then tupleSize declared k + 1 else tupleSize declared k

/-- The macro `DEFINE_COUNTER(CounterName, __data)`: the tuple size of
`__data(d, __number<255>{})` plus one. -/
def DEFINE_COUNTER (declared : List Nat) : Nat :=
  tupleSize declared 255 + 1

/-- The constants `W_COUNTER_<FieldName>` of the property lines of one wrapper, in
declaration order: each of `RO_PROP`, `RW_PROP` and `CUSTOM_PROP` first defines its
counter with `DEFINE_COUNTER` and then the overload of `__data` for that counter with
`DATA_APPEND`; `declared` are the counters of the lines before. -/
def W_COUNTER : List PropDecl → List Nat → List Nat
  | [], _ => []
  | _ :: ps, declared =>
    DEFINE_COUNTER declared :: W_COUNTER ps (DEFINE_COUNTER declared :: declared)

/-- The storage index `W_COUNTER_<FieldName> - 1` that the property line at position
`i` passes to `DEFINE_GETTER`, `DEFINE_SETTER`, `DEFINE_REFRESH_PROPERTY` and
`connectToUpdates`. -/
def storageIndexOfLine (cls : WrapperClass) (i : Nat) : Nat :=
  ((W_COUNTER cls.props [])[i]?).getD 0 - 1

/-- A call made on the `MetaObjectImpl` that `createStaticMetaObject` builds. -/
inductive MetaObjectCall where
  | setClassName
  | addProperty (name : String)
  | addBaseClass (cls : TypeId)
  deriving DecidableEq, Repr

/-- The overload set `__metadata(__number<k>, mo)` of `ObjectWrapper<cls>`: the
overload for counter `k + 1`, generated by `ADD_TO_METAOBJECT` for the property with
storage index `k`, adds its property and calls the overload for the counter before;
where there is none, the call resolves to the next lower counter. -/
def __metadata (cls : WrapperClass) : Nat → List MetaObjectCall
  | 0 => []
  | k + 1 =>
    match cls.props[k]? with
    | none => __metadata cls k
    | some p => .addProperty p.name :: __metadata cls k

/-- The recursion `appendBaseclassMetaObjects(mo, TemplateParamList<Head, Rest...>)`. -/
def appendBaseclassMetaObjects : List WrapperClass → List MetaObjectCall
  | [] => []
  | Head :: Rest => .addBaseClass Head.id :: appendBaseclassMetaObjects Rest

/-- The function `PropertyCache<Class, BaseClasses...>::createStaticMetaObject`: the
calls it makes on the new meta object, in order. -/
def createStaticMetaObject (cls : WrapperClass) : List MetaObjectCall :=
  .setClassName :: (__metadata cls 255 ++ appendBaseclassMetaObjects cls.bases)

/-- The type id of the class of a node; 0 for null. -/
def PropertyCache.typeId : PropertyCache → TypeId
  | .null => 0
  | .node cls _ _ _ => cls.id

/-- `DEFINE_OBJECT_WRAPPER(A)` with property `x`. -/
def exA : WrapperClass := .mk 30 false false false [exX] []

/-- `DEFINE_OBJECT_WRAPPER_WB(Left, A)`. -/
def exLeft : WrapperClass := .mk 31 false false false [] [exA]

/-- `DEFINE_OBJECT_WRAPPER_WB(Right, A)`. -/
def exRight : WrapperClass := .mk 32 false false false [] [exA]

/-- `DEFINE_OBJECT_WRAPPER_WB2(Diamond, Left, Right)`: `A` is reached through both
declared bases. -/
def exDiamond : WrapperClass := .mk 33 false false false [] [exLeft, exRight]

/-! ## Subscriptions, specification level -/

/-- The connections that the overloads `__connectToUpdates(d, __number<k>)` of a class
make for an object at `o`: one for each property line below counter `k`, from the
last one down, that is not a `CUSTOM_PROP`, has the flag `QProp` and whose Qt property
has a notify signal. -/
def propConnections {L : Type} (E : Env L) (live : L) (cls : WrapperClass) (o : Ptr) :
    Nat → List Connection
  | 0 => []
  | k + 1 =>
    match cls.props[k]? with
    | none => propConnections E live cls o k
    | some p =>
      if p.kind = .custom ∨ p.flags &&& QProp = 0 ∨ E.hasNotifySignal live o p.name = false then
        propConnections E live cls o k
      else ⟨cls.id, k, o⟩ :: propConnections E live cls o k

mutual
/-- The connections for all notifying properties of a class and of its direct and
indirect declared bases. -/
def subscriptionsOf {L : Type} (E : Env L) (live : L) (o : Ptr) : WrapperClass → List Connection
  | .mk i q p c ps bs =>
    propConnections E live (.mk i q p c ps bs) o 255 ++ subscriptionsOfBases E live o bs
def subscriptionsOfBases {L : Type} (E : Env L) (live : L) (o : Ptr) :
    List WrapperClass → List Connection
  | [] => []
  | b :: bs => subscriptionsOf E live o b ++ subscriptionsOfBases E live o bs
end

/-- `DEFINE_OBJECT_WRAPPER_WB(Dialog, Window)` with the Qt property `modal`, declared
`RO_PROP(modal, QProp)`. -/
def exDialog : WrapperClass := .mk 8 true true false [⟨"modal", .ro, QProp, .str ""⟩] [exWindow]

def exDialogW : ObjectWrapper := .mk exDialog []

/-- The macro `DISABLE_CACHING` in the body of a wrapper: the same wrapper with
caching disabled. -/
def DISABLE_CACHING : WrapperClass → WrapperClass
  | .mk i q p _ ps bs => .mk i q p true ps bs

/-! ## Registry invariant -/

/-- Every entry of the registry map refers to a control block that exists, and the
key of the entry is the object pointer in the root node of the tree of that block. -/
def State.RegistryInvariant (s : State) : Prop :=
  ∀ k w, s.m_objectToWrapperPrivateMap k = some w →
    ∃ blk cls ds bs, s.heap[w]? = some (some blk) ∧ blk.m_cache = .node cls ds bs k

/-- The states reached from the empty registry by calls of `handleForObject`, of
`create`, of `expandCache` on the registered block of the object it is called for, and
by the destruction of control blocks. -/
inductive Reachable {L : Type} (E : Env L) : State → Prop where
  | empty : Reachable E State.empty
  | handleForObject {s s1 : State} {live : L} {W : ObjectWrapper} {obj : Ptr}
      {h : ObjectHandle} :
      Reachable E s → handleForObject E live W obj s = .ok (h, s1) → Reachable E s1
  | create {s s1 : State} {live : L} {W : ObjectWrapper} {obj : Ptr} {r : Option Nat} :
      Reachable E s → create E live W obj s = .ok (r, s1) → Reachable E s1
  | expandCache {s : State} {live : L} {T : WrapperClass} {obj : Ptr} {b : Nat}
      {blk blk1 : ObjectWrapperPrivate} :
      Reachable E s → s.m_objectToWrapperPrivateMap obj = some b →
      s.heap[b]? = some (some blk) → blk.expandCache E live T obj = .ok blk1 →
      Reachable E (s.store (some b) blk1)
  | destroy {s s1 : State} {d : Nat} {disconnected : List Connection} :
      Reachable E s → s.destroy d = .ok (disconnected, s1) → Reachable E s1

/-- Collaborators for a circle whose `Shape` base class subobject lies at address 8,
in the `Circle` object at address 4 (as when `Circle` has another base class before
`Shape`): `dynamic_cast<Circle*>` of the `Shape*` 8 is 4. `x` is the live state and
`y` is "hi". -/
def exOffsetEnv : Env Int where
  assertsEnabled := true
  isValidObject := fun _ p => p != 0
  inObjectThread := fun _ _ => true
  dynamicCast := fun _ p t => if (p == 8 || p == 4) && t == 11 then 4 else 0
  hasNotifySignal := fun _ _ _ => false
  fetch := fun live _ t _ => if t = 10 then .int live else .str "hi"
  write := fun live _ _ _ _ => live
  emitsNotify := fun _ _ _ _ _ => false
  qHashPtr := fun p seed => p + seed

/-- A `QObject` class `Label` with the Qt property `text`, declared
`RW_PROP(text, setText, Getter | QProp)`. -/
def exLabel : WrapperClass := .mk 9 true true false [⟨"text", .rw, Getter ||| QProp, .int 0⟩] []

def exLabelW : ObjectWrapper := .mk exLabel []

/-- Collaborators for `Label`: the live state is the number that the label shows,
`text` has a notify signal, and `setText` emits it when the text changes. -/
def exLabelEnv : Env Int where
  assertsEnabled := true
  isValidObject := fun _ p => p == 7
  inObjectThread := fun _ _ => true
  dynamicCast := fun _ p _ => p
  hasNotifySignal := fun _ _ _ => true
  fetch := fun live _ _ _ => .int live
  write := fun live _ _ _ v =>
    match v with
    | .int n => n
    | _ => live
  emitsNotify := fun live _ _ _ v => v != .int live
  qHashPtr := fun p seed => p + seed

/-- The block of the label at 7 showing 5, connected to the notify signal of `text`. -/
def exLabelBlock : ObjectWrapperPrivate :=
  ⟨.node exLabel [.int 5] [] 7, [⟨9, 0, 7⟩], 1⟩

/-- The state after `handleForObject<Label>` for the label at 7 showing 5. -/
def exLabelState : State :=
  ⟨[some exLabelBlock], fun k => if k = 7 then some 0 else none⟩

/-- A class `Item` with the properties `parent`, a foreign pointer to an `Item`, and
`child`, an owning pointer to an `Item`. -/
def exItem : WrapperClass :=
  .mk 40 false false false
    [⟨"parent", .ro, Getter ||| ForeignPointer, .pointer 40 0⟩,
     ⟨"child", .ro, Getter ||| OwningPointer, .handle 40 0⟩] []

/-- Collaborators for `Item`: the parent of every item is the item at 3, its child the
item at 9. -/
def exItemEnv : Env Unit where
  assertsEnabled := true
  isValidObject := fun _ p => p != 0
  inObjectThread := fun _ _ => true
  dynamicCast := fun _ p _ => p
  hasNotifySignal := fun _ _ _ => false
  fetch := fun _ _ _ i => if i = 0 then .pointer 40 3 else .pointer 40 9
  write := fun live _ _ _ _ => live
  emitsNotify := fun _ _ _ _ _ => false
  qHashPtr := fun p seed => p + seed

/-! # Lemmas -/

theorem isCacheOf_node {o : Ptr} {r : PropertyCache} {C : WrapperClass} (h : r.IsCacheOf o C) :
    ∃ ds bs, r = .node C ds bs o ∧ AreCachesOf o bs C.bases := by
  cases r with
  | null => simp [PropertyCache.IsCacheOf] at h
  | node cls ds bs o1 =>
    simp only [PropertyCache.IsCacheOf] at h
    obtain ⟨h1, h2, h3⟩ := h
    subst h1 h2
    exact ⟨ds, bs, rfl, h3⟩

theorem makeCache_isCacheOf (o : Ptr) (C : WrapperClass) : (makeCache C o).IsCacheOf o C := by
  refine WrapperClass.rec (motive_1 := fun C => (makeCache C o).IsCacheOf o C)
    (motive_2 := fun bs => AreCachesOf o (makeCaches bs o) bs) ?_ ?_ ?_ C
  · intro i q p c ps bs ih
    simp only [makeCache, PropertyCache.IsCacheOf, WrapperClass.bases, true_and]
    exact ih
  · simp [makeCaches, AreCachesOf]
  · intro b bs ihb ihbs
    simp only [makeCaches, AreCachesOf]
    exact ⟨ihb, ihbs⟩

theorem makeCaches_areCachesOf (o : Ptr) (bs : List WrapperClass) :
    AreCachesOf o (makeCaches bs o) bs := by
  induction bs with
  | nil => simp [makeCaches, AreCachesOf]
  | cons b bs ih =>
    simp only [makeCaches, AreCachesOf]
    exact ⟨makeCache_isCacheOf o b, ih⟩

/-- On a complete cache, `cache(T)` returns without a fault, and what it returns is
null or a complete cache of a class with type id `T`. -/
theorem cache_of_isCacheOf (o : Ptr) (T : TypeId) (t : PropertyCache) :
    ∀ C, t.IsCacheOf o C →
      ∃ r, t.cache T = .ok r ∧ (r = .null ∨ ∃ C1, r.IsCacheOf o C1 ∧ C1.id = T) := by
  refine PropertyCache.rec
    (motive_1 := fun t => ∀ C, t.IsCacheOf o C →
      ∃ r, t.cache T = .ok r ∧ (r = .null ∨ ∃ C1, r.IsCacheOf o C1 ∧ C1.id = T))
    (motive_2 := fun cs => ∀ bs, AreCachesOf o cs bs →
      ∃ r, getCacheFromBases cs T = .ok r ∧ (r = .null ∨ ∃ C1, r.IsCacheOf o C1 ∧ C1.id = T))
    ?_ ?_ ?_ ?_ t
  · intro C h
    simp [PropertyCache.IsCacheOf] at h
  · intro cls ds bs o1 ih C h
    have h1 := h
    simp only [PropertyCache.IsCacheOf] at h1
    obtain ⟨hc, ho, hb⟩ := h1
    simp only [PropertyCache.cache]
    by_cases hid : cls.id = T
    · simp only [hid, if_true]
      exact ⟨_, rfl, Or.inr ⟨C, h, hc ▸ hid⟩⟩
    · simp only [hid, if_false]
      exact ih _ hb
  · intro bs _
    exact ⟨.null, by simp [getCacheFromBases], Or.inl rfl⟩
  · intro c cs ihc ihcs bs h
    cases bs with
    | nil => simp [AreCachesOf] at h
    | cons b bs =>
      simp only [AreCachesOf] at h
      obtain ⟨r, hr, hrr⟩ := ihc b h.1
      simp only [getCacheFromBases, hr]
      cases r with
      | null => exact ihcs bs h.2
      | node cls ds bs1 o1 =>
        refine ⟨_, rfl, ?_⟩
        rcases hrr with hrr | hrr
        · cases hrr
        · exact Or.inr hrr

theorem found_of_mem_nodeIds (o : Ptr) (T : TypeId) (t : PropertyCache) :
    ∀ C, t.IsCacheOf o C → T ∈ t.nodeIds → t.Found o T := by
  refine PropertyCache.rec
    (motive_1 := fun t => ∀ C, t.IsCacheOf o C → T ∈ t.nodeIds → t.Found o T)
    (motive_2 := fun cs => ∀ bs, AreCachesOf o cs bs → T ∈ nodeIdsOfBases cs →
      ∃ r C, getCacheFromBases cs T = .ok r ∧ r.IsCacheOf o C ∧ C.id = T)
    ?_ ?_ ?_ ?_ t
  · intro C h
    simp [PropertyCache.IsCacheOf] at h
  · intro cls ds bs o1 ih C h hT
    have h1 := h
    simp only [PropertyCache.IsCacheOf] at h1
    obtain ⟨hc, _, hb⟩ := h1
    simp only [PropertyCache.nodeIds, List.mem_cons] at hT
    unfold PropertyCache.Found
    simp only [PropertyCache.cache]
    by_cases hid : cls.id = T
    · simp only [hid, if_true]
      exact ⟨_, C, rfl, h, hc ▸ hid⟩
    · simp only [hid, if_false]
      rcases hT with hT | hT
      · exact absurd hT.symm hid
      · exact ih _ hb hT
  · intro bs _ hT
    simp [nodeIdsOfBases] at hT
  · intro c cs ihc ihcs bs h hT
    cases bs with
    | nil => simp [AreCachesOf] at h
    | cons b bs =>
      simp only [AreCachesOf] at h
      simp only [nodeIdsOfBases, List.mem_append] at hT
      obtain ⟨r, hr, hrr⟩ := cache_of_isCacheOf o T c b h.1
      simp only [getCacheFromBases, hr]
      cases r with
      | null =>
        rcases hT with hT | hT
        · obtain ⟨r1, C1, hf, hC1, _⟩ := ihc b h.1 hT
          rw [hr] at hf
          cases hf
          simp [PropertyCache.IsCacheOf] at hC1
        · exact ihcs bs h.2 hT
      | node cls ds bs1 o1 =>
        rcases hrr with hrr | ⟨C1, hC1, hid⟩
        · cases hrr
        · exact ⟨_, C1, rfl, hC1, hid⟩

theorem nodeIds_of_isCacheOf (o : Ptr) (t : PropertyCache) :
    ∀ C, t.IsCacheOf o C → t.nodeIds = C.hierarchy.map WrapperClass.id := by
  refine PropertyCache.rec
    (motive_1 := fun t => ∀ C, t.IsCacheOf o C → t.nodeIds = C.hierarchy.map WrapperClass.id)
    (motive_2 := fun cs => ∀ bs, AreCachesOf o cs bs →
      nodeIdsOfBases cs = (hierarchyOfBases bs).map WrapperClass.id)
    ?_ ?_ ?_ ?_ t
  · intro C h
    simp [PropertyCache.IsCacheOf] at h
  · intro cls ds bs o1 ih C h
    simp only [PropertyCache.IsCacheOf] at h
    obtain ⟨hc, _, hb⟩ := h
    subst hc
    cases cls with
    | mk i q p c ps bs0 =>
      simp only [PropertyCache.nodeIds, WrapperClass.hierarchy, List.map_cons]
      rw [ih _ hb]
      rfl
  · intro bs h
    cases bs with
    | nil => rfl
    | cons b bs => simp [AreCachesOf] at h
  · intro c cs ihc ihcs bs h
    cases bs with
    | nil => simp [AreCachesOf] at h
    | cons b bs =>
      simp only [AreCachesOf] at h
      simp only [nodeIdsOfBases, hierarchyOfBases, List.map_append]
      rw [ihc b h.1, ihcs bs h.2]

/-- A complete cache of `C` has a node for every class of the hierarchy of `C`. -/
theorem found_of_mem_hierarchy {o : Ptr} {t : PropertyCache} {C X : WrapperClass}
    (h : t.IsCacheOf o C) (hX : X ∈ C.hierarchy) : t.Found o X.id := by
  apply found_of_mem_nodeIds o X.id t C h
  rw [nodeIds_of_isCacheOf o t C h]
  exact List.mem_map_of_mem _ hX

theorem self_mem_hierarchy (C : WrapperClass) : C ∈ C.hierarchy := by
  cases C
  simp [WrapperClass.hierarchy]

theorem hierarchy_subset_of_mem_bases {B C : WrapperClass} (h : B ∈ C.bases) :
    B.hierarchy ⊆ C.hierarchy := by
  cases C with
  | mk i q p c ps bs =>
    simp only [WrapperClass.bases] at h
    simp only [WrapperClass.hierarchy]
    intro X hX
    apply List.mem_cons_of_mem
    clear i q p c ps
    induction bs with
    | nil => cases h
    | cons b bs ih =>
      simp only [hierarchyOfBases, List.mem_append]
      rcases List.mem_cons.1 h with h | h
      · exact Or.inl (h ▸ hX)
      · exact Or.inr (ih h)

section

variable {L : Type} (E : Env L) (live : L)

theorem object_of_found {d : ObjectWrapperPrivate} {o : Ptr} {T : TypeId}
    (h : d.m_cache.Found o T) : d.object E T = .ok o := by
  obtain ⟨r, C, hr, hC, _⟩ := h
  obtain ⟨ds, bs, rfl, _⟩ := isCacheOf_node hC
  simp [ObjectWrapperPrivate.object, ObjectWrapperPrivate.cache, hr, Q_ASSERT,
    PropertyCache.isNull, PropertyCache.m_object]

theorem data_of_object {d : ObjectWrapperPrivate} {o : Ptr} {cls : WrapperClass}
    (h : d.object E cls.id = .ok o) (ho : o ≠ 0) (k : Nat) :
    __data E live d cls k = .ok (liveData E live cls o k) := by
  induction k with
  | zero => rfl
  | succ k ih =>
    simp only [__data, liveData]
    cases hp : cls.props[k]? with
    | none => simpa using ih
    | some p => simp [ih, stateExpr, h, fetchLive, ho]

theorem update_of_isCacheOf (d : ObjectWrapperPrivate) (o : Ptr) (ho : o ≠ 0)
    (t : PropertyCache) :
    ∀ C, t.IsCacheOf o C → (∀ T ∈ t.nodeIds, d.object E T = .ok o) →
      ∃ t1, t.update E live d = .ok t1 ∧ t1.IsCacheOf o C ∧ t1.Fresh E live := by
  refine PropertyCache.rec
    (motive_1 := fun t => ∀ C, t.IsCacheOf o C → (∀ T ∈ t.nodeIds, d.object E T = .ok o) →
      ∃ t1, t.update E live d = .ok t1 ∧ t1.IsCacheOf o C ∧ t1.Fresh E live)
    (motive_2 := fun cs => ∀ bs, AreCachesOf o cs bs →
      (∀ T ∈ nodeIdsOfBases cs, d.object E T = .ok o) →
      ∃ cs1, updateBases E live d cs = .ok cs1 ∧ AreCachesOf o cs1 bs ∧ FreshBases E live cs1)
    ?_ ?_ ?_ ?_ t
  · intro C h
    simp [PropertyCache.IsCacheOf] at h
  · intro cls ds bs o1 ih C h hobj
    simp only [PropertyCache.IsCacheOf] at h
    obtain ⟨hc, ho1, hb⟩ := h
    subst hc ho1
    have h0 : d.object E cls.id = .ok o1 := hobj _ (by simp [PropertyCache.nodeIds])
    obtain ⟨cs1, hcs1, hA, hF⟩ := ih _ hb (fun T hT => hobj T (by
      simp only [PropertyCache.nodeIds, List.mem_cons]
      exact Or.inr hT))
    refine ⟨.node cls (liveData E live cls o1 255) cs1 o1, ?_, ?_, ?_⟩
    · simp [PropertyCache.update, data_of_object E live h0 ho, hcs1]
    · simp only [PropertyCache.IsCacheOf, true_and]
      exact hA
    · simp only [PropertyCache.Fresh, true_and]
      exact hF
  · intro bs h _
    cases bs with
    | nil => exact ⟨[], rfl, by simp [AreCachesOf], by simp [FreshBases]⟩
    | cons b bs => simp [AreCachesOf] at h
  · intro c cs ihc ihcs bs h hobj
    cases bs with
    | nil => simp [AreCachesOf] at h
    | cons b bs =>
      simp only [AreCachesOf] at h
      obtain ⟨c1, hc1, hA1, hF1⟩ := ihc b h.1 (fun T hT => hobj T (by
        simp only [nodeIdsOfBases, List.mem_append]
        exact Or.inl hT))
      obtain ⟨cs1, hcs1, hA2, hF2⟩ := ihcs bs h.2 (fun T hT => hobj T (by
        simp only [nodeIdsOfBases, List.mem_append]
        exact Or.inr hT))
      refine ⟨c1 :: cs1, ?_, ?_, ?_⟩
      · simp [updateBases, hc1, hcs1]
      · simp only [AreCachesOf]
        exact ⟨hA1, hA2⟩
      · simp only [FreshBases]
        exact ⟨hF1, hF2⟩

end

section

variable {L : Type} (E : Env L) (live : L)

/-- A node returned by `cache` from a fresh tree is fresh. -/
theorem fresh_of_cache (T : TypeId) (t : PropertyCache) :
    t.Fresh E live → ∀ r, t.cache T = .ok r → r.Fresh E live := by
  refine PropertyCache.rec
    (motive_1 := fun t => t.Fresh E live → ∀ r, t.cache T = .ok r → r.Fresh E live)
    (motive_2 := fun cs => FreshBases E live cs →
      ∀ r, getCacheFromBases cs T = .ok r → r.Fresh E live)
    ?_ ?_ ?_ ?_ t
  · intro _ r hr
    simp [PropertyCache.cache] at hr
  · intro cls ds bs o ih hF r hr
    simp only [PropertyCache.cache] at hr
    by_cases hid : cls.id = T
    · simp only [hid, if_true, Except.ok.injEq] at hr
      exact hr ▸ hF
    · simp only [hid, if_false] at hr
      simp only [PropertyCache.Fresh] at hF
      exact ih hF.2 r hr
  · intro _ r hr
    simp only [getCacheFromBases, Except.ok.injEq] at hr
    subst hr
    simp [PropertyCache.Fresh]
  · intro c cs ihc ihcs hF r hr
    simp only [FreshBases] at hF
    simp only [getCacheFromBases] at hr
    cases hc : c.cache T with
    | error e => simp [hc] at hr
    | ok r1 =>
      cases r1 with
      | null =>
        simp only [hc] at hr
        exact ihcs hF.2 r hr
      | node cls ds bs o =>
        simp only [hc, Except.ok.injEq] at hr
        exact hr ▸ ihc hF.1 _ hc

theorem connectToUpdates_of_found {d : ObjectWrapperPrivate} {o : Ptr} (ho : o ≠ 0)
    (cls : WrapperClass) (k : Nat) (p : PropDecl) (h : d.m_cache.Found o cls.id) :
    ∃ d1, d.connectToUpdates E live cls k p = .ok d1 ∧ d1.m_cache = d.m_cache ∧
      d1.semaphore = d.semaphore := by
  obtain ⟨r, C, hr, hC, _⟩ := h
  obtain ⟨ds, bs, rfl, _⟩ := isCacheOf_node hC
  unfold ObjectWrapperPrivate.connectToUpdates
  by_cases hq : p.flags &&& QProp = 0
  · simp only [hq, if_true]
    exact ⟨d, rfl, rfl, rfl⟩
  · simp only [hq, if_false, ObjectWrapperPrivate.cache, hr, Q_ASSERT, PropertyCache.isNull,
      Bool.not_false, Bool.not_true, Bool.and_false, ho]
    by_cases hn : E.hasNotifySignal live o p.name
    · simp [hn, ho]
    · simp [hn, ho]

theorem connectProps_of_found {o : Ptr} (ho : o ≠ 0) (cls : WrapperClass) (k : Nat) :
    ∀ d : ObjectWrapperPrivate, d.m_cache.Found o cls.id →
      ∃ d1, connectProps E live cls k d = .ok d1 ∧ d1.m_cache = d.m_cache ∧
        d1.semaphore = d.semaphore := by
  induction k with
  | zero => intro d _; exact ⟨d, rfl, rfl, rfl⟩
  | succ k ih =>
    intro d h
    simp only [connectProps]
    cases hp : cls.props[k]? with
    | none => exact ih d h
    | some p =>
      by_cases hk : p.kind = .custom
      · simp only [hk, if_true]
        exact ih d h
      · simp only [hk, if_false]
        obtain ⟨d1, hd1, hc, hs⟩ := connectToUpdates_of_found E live ho cls k p h
        obtain ⟨d2, hd2, hc2, hs2⟩ := ih d1 (hc ▸ h)
        exact ⟨d2, by simp [hd1, hd2], hc2.trans hc, hs2.trans hs⟩

theorem connect_of_found {o : Ptr} (ho : o ≠ 0) (C : WrapperClass) :
    ∀ d : ObjectWrapperPrivate, (∀ X ∈ C.hierarchy, d.m_cache.Found o X.id) →
      ∃ d1, __connectToUpdates E live C d = .ok d1 ∧ d1.m_cache = d.m_cache ∧
        d1.semaphore = d.semaphore := by
  refine WrapperClass.rec
    (motive_1 := fun C => ∀ d : ObjectWrapperPrivate,
      (∀ X ∈ C.hierarchy, d.m_cache.Found o X.id) →
      ∃ d1, __connectToUpdates E live C d = .ok d1 ∧ d1.m_cache = d.m_cache ∧
        d1.semaphore = d.semaphore)
    (motive_2 := fun bs => ∀ d : ObjectWrapperPrivate,
      (∀ X ∈ hierarchyOfBases bs, d.m_cache.Found o X.id) →
      ∃ d1, connectBases E live bs d = .ok d1 ∧ d1.m_cache = d.m_cache ∧
        d1.semaphore = d.semaphore)
    ?_ ?_ ?_ C
  · intro i q p c ps bs ih d h
    simp only [WrapperClass.hierarchy, List.mem_cons, forall_eq_or_imp] at h
    obtain ⟨d1, hd1, hc, hs⟩ := connectProps_of_found E live ho (.mk i q p c ps bs) 255 d h.1
    obtain ⟨d2, hd2, hc2, hs2⟩ := ih d1 (fun X hX => hc ▸ h.2 X hX)
    exact ⟨d2, by simp [__connectToUpdates, hd1, hd2], hc2.trans hc, hs2.trans hs⟩
  · intro d _
    exact ⟨d, rfl, rfl, rfl⟩
  · intro b bs ihb ihbs d h
    simp only [hierarchyOfBases, List.mem_append] at h
    obtain ⟨d1, hd1, hc, hs⟩ := ihb d (fun X hX => h X (Or.inl hX))
    obtain ⟨d2, hd2, hc2, hs2⟩ := ihbs d1 (fun X hX => hc ▸ h X (Or.inr hX))
    exact ⟨d2, by simp [connectBases, hd1, hd2], hc2.trans hc, hs2.trans hs⟩

end

theorem isA_of_isCacheOf {o : Ptr} {t : PropertyCache} {C : WrapperClass}
    (h : t.IsCacheOf o C) : t.isA C.id = true := by
  obtain ⟨ds, bs, rfl, _⟩ := isCacheOf_node h
  simp [PropertyCache.isA]

theorem isCacheOf_of_cls {o : Ptr} {t : PropertyCache} {R C : WrapperClass}
    (h : t.IsCacheOf o R) (hc : t.cls? = some C) : t.IsCacheOf o C := by
  obtain ⟨ds, bs, rfl, _⟩ := isCacheOf_node h
  simp only [PropertyCache.cls?, Option.some.injEq] at hc
  exact hc ▸ h

theorem not_isA_of_cache_null {t : PropertyCache} {i : TypeId} (h : t.cache i = .ok .null) :
    t.isA i = false := by
  cases t with
  | null => rfl
  | node cls ds bs o =>
    simp only [PropertyCache.cache] at h
    by_cases hid : cls.id = i
    · simp [hid] at h
    · simp [PropertyCache.isA, hid]

/-- Expansion of a complete cache along the chain of first bases returns a complete
cache of the requested class in which every lookup that succeeded before returns the
same node as before. -/
theorem fromBaseclassCache_of_expandable (dbg : Bool) (o : Ptr) (t : PropertyCache)
    (R : WrapperClass) (ht : t.IsCacheOf o R) (C : WrapperClass) :
    Expandable t C →
      ∃ t1, fromBaseclassCache dbg C o t = .ok t1 ∧ t1.IsCacheOf o C ∧
        ∀ T r, t.cache T = .ok r → r ≠ .null → t1.cache T = .ok r := by
  refine WrapperClass.rec
    (motive_1 := fun C => Expandable t C →
      ∃ t1, fromBaseclassCache dbg C o t = .ok t1 ∧ t1.IsCacheOf o C ∧
        ∀ T r, t.cache T = .ok r → r ≠ .null → t1.cache T = .ok r)
    (motive_2 := fun bs => ∀ b ∈ bs.head?, Expandable t b →
      ∃ t1, fromBaseclassCache dbg b o t = .ok t1 ∧ t1.IsCacheOf o b ∧
        ∀ T r, t.cache T = .ok r → r ≠ .null → t1.cache T = .ok r)
    ?_ ?_ ?_ C
  · intro i q p c ps bs ih hE
    cases bs with
    | nil =>
      simp only [Expandable] at hE
      have hC := isCacheOf_of_cls ht hE
      have hA := isA_of_isCacheOf hC
      simp only [WrapperClass.id] at hA
      exact ⟨t, by simp [fromBaseclassCache, Q_ASSERT, hA], hC, fun _ _ h _ => h⟩
    | cons b bs =>
      simp only [Expandable] at hE
      rcases hE with hE | ⟨hnull, hE⟩
      · have hC := isCacheOf_of_cls ht hE
        have hA := isA_of_isCacheOf hC
        simp only [WrapperClass.id] at hA
        exact ⟨t, by simp [fromBaseclassCache, hA], hC, fun _ _ h _ => h⟩
      · obtain ⟨tb, htb, hCb, hmono⟩ := ih b (by simp) hE
        have hA := not_isA_of_cache_null hnull
        have hAb := isA_of_isCacheOf hCb
        refine ⟨.node (.mk i q p c ps (b :: bs)) (ps.map PropDecl.init)
          (moveAndCreateBaseclassCaches bs o (dynamic_pointer_cast b.id tb)) o,
          by simp [fromBaseclassCache, hA, htb], ?_, ?_⟩
        · have hcast : dynamic_pointer_cast b.id tb = tb := by
            simp [dynamic_pointer_cast, hAb]
          simp only [PropertyCache.IsCacheOf, WrapperClass.bases,
            moveAndCreateBaseclassCaches, hcast, AreCachesOf, true_and]
          exact ⟨hCb, makeCaches_areCachesOf o bs⟩
        · intro T r hr hne
          have hiT : i ≠ T := by
            intro h
            subst h
            rw [hnull] at hr
            cases hr
            exact hne rfl
          have hcast : dynamic_pointer_cast b.id tb = tb := by
            simp [dynamic_pointer_cast, hAb]
          have hid : (WrapperClass.mk i q p c ps (b :: bs)).id = i := rfl
          have hr1 := hmono T r hr hne
          cases r with
          | null => exact absurd rfl hne
          | node _ _ _ _ =>
            simp only [PropertyCache.cache, hid, hiT, if_false, moveAndCreateBaseclassCaches,
              hcast, getCacheFromBases, hr1]
  · intro b hb
    simp at hb
  · intro b bs ihb _ b1 hb1
    simp only [List.head?_cons, Option.mem_def, Option.some.injEq] at hb1
    exact hb1 ▸ ihb

theorem State.ExtendsAt.refl (o : Ptr) (s : State) : State.ExtendsAt o s s :=
  ⟨fun _ _ => rfl, fun _ _ => rfl, Nat.le_refl _⟩

theorem State.ExtendsAt.trans {o : Ptr} {s s1 s2 : State} (h1 : State.ExtendsAt o s s1)
    (h2 : State.ExtendsAt o s1 s2) : State.ExtendsAt o s s2 :=
  ⟨fun k hk => (h2.1 k hk).trans (h1.1 k hk),
   fun i hi => (h2.2.1 i (Nat.lt_of_lt_of_le hi h1.2.2)).trans (h1.2.1 i hi),
   Nat.le_trans h1.2.2 h2.2.2⟩

theorem State.Alive.lt {s : State} {b : Nat} (h : s.Alive b) : b < s.heap.length := by
  obtain ⟨blk, h⟩ := h
  by_contra hn
  rw [List.getElem?_eq_none (Nat.le_of_not_lt hn)] at h
  cases h

theorem State.ExtendsAt.alive {o : Ptr} {s s1 : State} (h : State.ExtendsAt o s s1) {b : Nat}
    (hb : s.Alive b) : s1.Alive b := by
  obtain ⟨blk, hblk⟩ := hb
  exact ⟨blk, (h.2.1 b (State.Alive.lt ⟨blk, hblk⟩)).trans hblk⟩

theorem State.store_map (s : State) (d : Option Nat) (blk : ObjectWrapperPrivate) :
    (s.store d blk).m_objectToWrapperPrivateMap = s.m_objectToWrapperPrivateMap := by
  cases d <;> rfl

theorem State.store_alive {s : State} (d : Option Nat) (blk : ObjectWrapperPrivate) {b : Nat}
    (hb : s.Alive b) : (s.store d blk).Alive b := by
  cases d with
  | none => exact hb
  | some i =>
    obtain ⟨blk0, h0⟩ := hb
    simp only [State.store, State.Alive, List.getElem?_set]
    by_cases hi : i = b
    · subst hi
      have := State.Alive.lt ⟨blk0, h0⟩
      simp [this]
    · simp [hi, h0]

theorem State.store_length (s : State) (d : Option Nat) (blk : ObjectWrapperPrivate) :
    (s.store d blk).heap.length = s.heap.length := by
  cases d <;> simp [State.store]

theorem downcast_cases {L : Type} (E : Env L) (live : L) (D B : WrapperClass) (b : Ptr) :
    downcast E live D B b = 0 ∨
      (b ≠ 0 ∧ E.dynamicCast live b D.id ≠ 0 ∧
        downcast E live D B b = E.dynamicCast live b D.id) := by
  unfold downcast
  by_cases hp : B.polymorphic
  · by_cases hb : b = 0
    · simp [hp, hb]
    · by_cases hc : E.dynamicCast live b D.id = 0
      · simp [hp, hb, hc]
      · exact Or.inr ⟨hb, hc, by simp [hp, hb]⟩
  · simp [hp]

theorem downcast_eq {L : Type} (E : Env L) (hE : E.KeepsAddress) (live : L)
    (D B : WrapperClass) (b : Ptr) :
    downcast E live D B b = 0 ∨ downcast E live D B b = b := by
  rcases downcast_cases E live D B b with h | ⟨_, hne, h⟩
  · exact Or.inl h
  · rcases hE live b D.id with h0 | h0
    · exact absurd h0 hne
    · exact Or.inr (h.trans h0)

theorem castImage_trans {L : Type} {E : Env L} {live : L} {o p k : Ptr}
    (h1 : CastImage E live o p) (h2 : CastImage E live p k) : CastImage E live o k := by
  induction h2 with
  | self => exact h1
  | cast T _ hne ih => exact CastImage.cast T ih hne

theorem castImage_eq_of_keepsAddress {L : Type} {E : Env L} (hE : E.KeepsAddress) {live : L}
    {o k : Ptr} (h : CastImage E live o k) : k = o := by
  induction h with
  | self => rfl
  | @cast p T _ hne ih =>
    rcases hE live p T with h0 | h0
    · exact absurd h0 hne
    · rw [h0, ih]

theorem createOwn_extends {L : Type} (E : Env L) (live : L) (C : WrapperClass) (o : Ptr)
    (s : State) (r : Option Nat) (s1 : State) (h : createOwn E live C o s = .ok (r, s1)) :
    State.ExtendsAt o s s1 ∧ r = some s.heap.length ∧
      s1.m_objectToWrapperPrivateMap o = some s.heap.length ∧ s1.Alive s.heap.length := by
  unfold createOwn at h
  cases hc : __connectToUpdates E live C ⟨makeCache C o, [], 1⟩ with
  | error e => simp [hc] at h
  | ok blk =>
    simp only [hc, State.alloc] at h
    by_cases hcd : C.cachingDisabled
    · simp only [hcd, Bool.not_true, Bool.false_eq_true, if_false, Except.ok.injEq,
        Prod.mk.injEq] at h
      obtain ⟨hr, hs⟩ := h
      subst hr hs
      refine ⟨⟨?_, ?_, ?_⟩, rfl, ?_, ?_⟩
      · intro k hk
        simp [State.insert, hk]
      · intro i hi
        simp [State.insert, List.getElem?_append_left hi]
      · simp [State.insert]
      · simp [State.insert]
      · exact ⟨blk, by simp [State.insert]⟩
    · simp only [hcd, Bool.not_false, if_true] at h
      cases hu : blk.updateCache E live C.id with
      | error e => simp [hu] at h
      | ok blk1 =>
        simp only [hu, Except.ok.injEq, Prod.mk.injEq] at h
        obtain ⟨hr, hs⟩ := h
        subst hr hs
        refine ⟨⟨?_, ?_, ?_⟩, rfl, ?_, ?_⟩
        · intro k hk
          simp [State.insert, State.store, hk]
        · intro i hi
          have : s.heap.length ≠ i := Nat.ne_of_gt hi
          simp [State.insert, State.store, List.getElem?_set, this,
            List.getElem?_append_left hi]
        · simp [State.insert, State.store]
        · simp [State.insert, State.store]
        · exact ⟨blk1, by simp [State.insert, State.store]⟩

theorem create_post {L : Type} (E : Env L) (hE : E.KeepsAddress) (live : L)
    (W : ObjectWrapper) :
    ∀ o s r s1, create E live W o s = .ok (r, s1) → CreatePost o s r s1 := by
  refine ObjectWrapper.rec
    (motive_1 := fun W => ∀ o s r s1, create E live W o s = .ok (r, s1) → CreatePost o s r s1)
    (motive_2 := fun fs => ∀ B o s r s1,
      subclassFactoryLoop E live B fs o s = .ok (r, s1) → CreatePost o s r s1)
    ?_ ?_ ?_ W
  · intro C fs ih o s r s1 h
    simp only [create] at h
    by_cases hv : checkValidObject E live C o
    · simp only [hv, Bool.not_true, Bool.false_eq_true, if_false] at h
      cases ha : Q_ASSERT E.assertsEnabled (checkCorrectThread E live C o) with
      | error e => simp [ha] at h
      | ok u =>
        simp only [ha] at h
        cases hl : subclassFactoryLoop E live C fs o s with
        | error e => simp [hl] at h
        | ok res =>
          obtain ⟨r0, s0⟩ := res
          have h0 := ih C o s r0 s0 hl
          cases r0 with
          | some p =>
            simp only [hl, Except.ok.injEq, Prod.mk.injEq] at h
            obtain ⟨hr, hs⟩ := h
            subst hr hs
            exact h0
          | none =>
            simp only [hl] at h
            have hs0 : s0 = s := h0.2.1 rfl
            subst hs0
            obtain ⟨hext, hr, hm, hal⟩ := createOwn_extends E live C o s0 r s1 h
            refine ⟨hext, ?_, ?_⟩
            · intro hn
              rw [hr] at hn
              cases hn
            · intro d hd
              rw [hr] at hd
              cases hd
              exact ⟨hm, hal⟩
    · simp only [hv, Bool.not_false, if_true, Except.ok.injEq, Prod.mk.injEq] at h
      obtain ⟨hr, hs⟩ := h
      subst hr hs
      exact ⟨State.ExtendsAt.refl _ _, fun _ => rfl, fun d hd => by cases hd⟩
  · intro B o s r s1 h
    simp only [subclassFactoryLoop, Except.ok.injEq, Prod.mk.injEq] at h
    obtain ⟨hr, hs⟩ := h
    subst hr hs
    exact ⟨State.ExtendsAt.refl _ _, fun _ => rfl, fun d hd => by cases hd⟩
  · intro F rest ihF ihrest B o s r s1 h
    cases F with
    | mk D fs =>
      simp only [subclassFactoryLoop] at h
      by_cases hp : downcast E live D B o = 0
      · simp only [hp, bne_self_eq_false, Bool.false_eq_true, if_false] at h
        exact ihrest B o s r s1 h
      · have hpo : downcast E live D B o = o := by
          rcases downcast_eq E hE live D B o with h1 | h1
          · exact absurd h1 hp
          · exact h1
        have hne : (o != 0) = true := by
          rw [hpo] at hp
          simpa using hp
        simp only [hpo, hne, if_true] at h
        cases hc : create E live (.mk D fs) o s with
        | error e => simp [hc] at h
        | ok res =>
          obtain ⟨r0, s0⟩ := res
          have h0 := ihF o s r0 s0 hc
          cases r0 with
          | some d =>
            simp only [hc, Except.ok.injEq, Prod.mk.injEq] at h
            obtain ⟨hr, hs⟩ := h
            subst hr hs
            exact h0
          | none =>
            simp only [hc] at h
            have hs0 : s0 = s := h0.2.1 rfl
            subst hs0
            exact ihrest B o s0 r s1 h

theorem State.lock_of_alive {s : State} {b : Nat} (hb : s.Alive b) : s.lock b = some b := by
  obtain ⟨blk, h⟩ := hb
  simp [State.lock, h]

theorem State.lock_eq (s : State) (w : Nat) : s.lock w = none ∨ s.lock w = some w := by
  unfold State.lock
  split
  · exact Or.inr rfl
  · exact Or.inl rfl

/-- A call of `handleForObject` keeps every registry entry whose block exists, and
a handle returned for a registered object refers to the registered block. -/
theorem handleForObject_keeps {L : Type} (E : Env L) (hE : E.KeepsAddress) (live : L)
    (W : ObjectWrapper) (obj : Ptr) (s : State) (h : ObjectHandle) (s1 : State)
    (hrun : handleForObject E live W obj s = .ok (h, s1)) (o : Ptr) (b : Nat)
    (hreg : s.m_objectToWrapperPrivateMap o = some b) (hb : s.Alive b) :
    s1.m_objectToWrapperPrivateMap o = some b ∧ s1.Alive b ∧
      (obj = o → h.d = none ∨ h.d = some b) := by
  unfold handleForObject at hrun
  by_cases h0 : obj = 0
  · simp only [h0, if_true, Except.ok.injEq, Prod.mk.injEq] at hrun
    obtain ⟨hh, hs⟩ := hrun
    subst hs hh
    exact ⟨hreg, hb, fun _ => Or.inl rfl⟩
  · simp only [h0, if_false] at hrun
    cases hm : s.m_objectToWrapperPrivateMap obj with
    | none =>
      simp only [hm] at hrun
      cases hc : create E live W obj s with
      | error e => simp [hc] at hrun
      | ok res =>
        obtain ⟨d, s2⟩ := res
        simp only [hc, Except.ok.injEq, Prod.mk.injEq] at hrun
        obtain ⟨hh, hs⟩ := hrun
        subst hs hh
        have hpost := create_post E hE live W obj s d s2 hc
        have hne : o ≠ obj := by
          intro he
          rw [he, hm] at hreg
          cases hreg
        exact ⟨(hpost.1.1 o hne).trans hreg, hpost.1.alive hb, fun he => absurd he.symm hne⟩
    | some w =>
      simp only [hm] at hrun
      cases hd : s.deref (s.lock w) with
      | error e => simp [hd] at hrun
      | ok blk =>
        simp only [hd] at hrun
        have hlock : obj = o → s.lock w = some b := by
          intro he
          rw [he, hreg] at hm
          cases hm
          exact State.lock_of_alive hb
        cases hcpl : blk.isComplete W.cls.id with
        | error e => simp [hcpl] at hrun
        | ok c =>
          cases c with
          | true =>
            simp only [hcpl, Except.ok.injEq, Prod.mk.injEq] at hrun
            obtain ⟨hh, hs⟩ := hrun
            subst hs hh
            exact ⟨hreg, hb, fun he => Or.inr (hlock he)⟩
          | false =>
            simp only [hcpl] at hrun
            cases he : blk.expandCache E live W.cls obj with
            | error e => simp [he] at hrun
            | ok blk1 =>
              simp only [he] at hrun
              by_cases hcd : W.cls.cachingDisabled
              · simp only [hcd, Bool.not_true, Bool.false_eq_true, if_false, Except.ok.injEq,
                  Prod.mk.injEq] at hrun
                obtain ⟨hh, hs⟩ := hrun
                subst hs hh
                exact ⟨by rw [State.store_map]; exact hreg, State.store_alive _ _ hb,
                  fun he => Or.inr (hlock he)⟩
              · simp only [hcd, Bool.not_false, if_true] at hrun
                cases hu : blk1.updateCache E live W.cls.id with
                | error e => simp [hu] at hrun
                | ok blk2 =>
                  simp only [hu, Except.ok.injEq, Prod.mk.injEq] at hrun
                  obtain ⟨hh, hs⟩ := hrun
                  subst hs hh
                  exact ⟨by rw [State.store_map]; exact hreg, State.store_alive _ _ hb,
                    fun he => Or.inr (hlock he)⟩

theorem viewForObject_registered {L : Type} (E : Env L) (C : WrapperClass) (o : Ptr)
    (s : State) (v : ObjectView) (hrun : viewForObject E C o s = .ok v) (b : Nat)
    (hreg : s.m_objectToWrapperPrivateMap o = some b) (hb : s.Alive b) :
    v.d = none ∨ v.d = some b := by
  unfold viewForObject at hrun
  by_cases h0 : o = 0
  · simp only [h0, if_true, Except.ok.injEq] at hrun
    exact Or.inl (hrun ▸ rfl)
  · simp only [h0, if_false, hreg, State.lock_of_alive hb] at hrun
    cases hd : s.deref (some b) with
    | error e => simp [hd] at hrun
    | ok blk =>
      simp only [hd] at hrun
      cases hcpl : blk.isComplete C.id with
      | error e => simp [hcpl] at hrun
      | ok c =>
        simp only [hcpl] at hrun
        cases ha : Q_ASSERT E.assertsEnabled c with
        | error e => simp [ha] at hrun
        | ok u =>
          simp only [ha] at hrun
          cases c with
          | true =>
            simp only [Bool.not_true, Bool.false_eq_true, if_false, Except.ok.injEq] at hrun
            exact Or.inr (hrun ▸ rfl)
          | false =>
            simp only [Bool.not_false, if_true, Except.ok.injEq] at hrun
            exact Or.inl (hrun ▸ rfl)

theorem isComplete_of_found {d : ObjectWrapperPrivate} {o : Ptr} {T : TypeId}
    (h : d.m_cache.Found o T) : d.isComplete T = .ok true := by
  obtain ⟨r, C, hr, hC, _⟩ := h
  obtain ⟨ds, bs, rfl, _⟩ := isCacheOf_node hC
  simp [ObjectWrapperPrivate.isComplete, hr, PropertyCache.isNull]

theorem cache_root {L : Type} (E : Env L) {d : ObjectWrapperPrivate} {o : Ptr}
    {C : WrapperClass} (h : d.m_cache.IsCacheOf o C) : d.cache E C.id = .ok d.m_cache := by
  obtain ⟨ds, bs, hd, _⟩ := isCacheOf_node h
  simp [ObjectWrapperPrivate.cache, hd, PropertyCache.cache, Q_ASSERT, PropertyCache.isNull]

/-- The statement `d->cache<Class>()->update(d)` on a block whose tree is a complete
cache of `Class`: it returns, the tree is again a complete cache of `Class`, and all
its slots hold live values. -/
theorem updateCache_root {L : Type} (E : Env L) (live : L) {d : ObjectWrapperPrivate}
    {o : Ptr} (ho : o ≠ 0) {C : WrapperClass} (h : d.m_cache.IsCacheOf o C) :
    ∃ t1, d.updateCache E live C.id = .ok { d with m_cache := t1 } ∧ t1.IsCacheOf o C ∧
      t1.Fresh E live := by
  obtain ⟨t1, ht1, hC1, hF1⟩ := update_of_isCacheOf E live d o ho d.m_cache C h
    (fun T hT => object_of_found E (found_of_mem_nodeIds o T d.m_cache C h hT))
  refine ⟨t1, ?_, hC1, hF1⟩
  obtain ⟨ds, bs, hd, _⟩ := isCacheOf_node h
  simp [ObjectWrapperPrivate.updateCache, cache_root E h, ht1]
  rw [hd]
  simp [PropertyCache.replace]

theorem State.heap_store_self (s : State) (i : Nat) (blk : ObjectWrapperPrivate)
    (hi : i < s.heap.length) : (s.store (some i) blk).heap[i]? = some (some blk) := by
  simp [State.store, List.getElem?_set, hi]

/-- The part of `create` after the factory loop returns for a non-null object: the
new block is at the next heap index, it is registered for the object, its tree is a
complete cache of the class, fresh unless caching is disabled. -/
theorem createOwn_ok {L : Type} (E : Env L) (live : L) (C : WrapperClass) {o : Ptr}
    (ho : o ≠ 0) (s : State) :
    ∃ s1 blk, createOwn E live C o s = .ok (some s.heap.length, s1) ∧
      s1.heap[s.heap.length]? = some (some blk) ∧ blk.m_cache.IsCacheOf o C ∧
      (C.cachingDisabled = false → blk.m_cache.Fresh E live) := by
  have hmk := makeCache_isCacheOf o C
  obtain ⟨d1, hd1, hc1, _⟩ := connect_of_found E live ho C ⟨makeCache C o, [], 1⟩
    (fun X hX => found_of_mem_hierarchy hmk hX)
  have hc1 : d1.m_cache = makeCache C o := hc1
  unfold createOwn
  simp only [hd1, State.alloc]
  by_cases hcd : C.cachingDisabled
  · simp only [hcd, Bool.not_true, Bool.false_eq_true, if_false]
    refine ⟨_, d1, rfl, by simp [State.insert], hc1 ▸ hmk, fun h => by cases h⟩
  · simp only [hcd, Bool.not_false, if_true]
    obtain ⟨t1, ht1, hC1, hF1⟩ := updateCache_root E live ho (hc1 ▸ hmk : d1.m_cache.IsCacheOf o C)
    simp only [ht1]
    refine ⟨_, { d1 with m_cache := t1 }, rfl, ?_, hC1, fun _ => hF1⟩
    simp [State.insert, State.store]

theorem hierarchy_subset_of_mem_hierarchy (R : WrapperClass) :
    ∀ D ∈ R.hierarchy, D.hierarchy ⊆ R.hierarchy := by
  refine WrapperClass.rec
    (motive_1 := fun R => ∀ D ∈ R.hierarchy, D.hierarchy ⊆ R.hierarchy)
    (motive_2 := fun bs => ∀ D ∈ hierarchyOfBases bs, D.hierarchy ⊆ hierarchyOfBases bs)
    ?_ ?_ ?_ R
  · intro i q p c ps bs ih D hD
    simp only [WrapperClass.hierarchy, List.mem_cons] at hD
    rcases hD with hD | hD
    · subst hD
      exact fun _ h => h
    · intro X hX
      simp only [WrapperClass.hierarchy]
      exact List.mem_cons_of_mem _ (ih D hD hX)
  · intro D hD
    simp [hierarchyOfBases] at hD
  · intro b bs ihb ihbs D hD
    simp only [hierarchyOfBases, List.mem_append] at hD
    intro X hX
    simp only [hierarchyOfBases, List.mem_append]
    rcases hD with hD | hD
    · exact Or.inl (ihb D hD hX)
    · exact Or.inr (ihbs D hD hX)

theorem subclassFactoryLoop_cons {L : Type} (E : Env L) (live : L) (B : WrapperClass)
    (F : ObjectWrapper) (rest : List ObjectWrapper) (o : Ptr) (s : State) :
    subclassFactoryLoop E live B (F :: rest) o s =
      match createFromBase E live F B o s with
      | .error e => .error e
      | .ok (some d, s1) => .ok (some d, s1)
      | .ok (none, s1) => subclassFactoryLoop E live B rest o s1 := by
  cases F with
  | mk D fs =>
    simp only [subclassFactoryLoop, createFromBase, ObjectWrapper.cls]
    cases hp : (downcast E live D B o != 0)
    · simp
    · simp only [if_true]
      try rfl

/-- With the thread assertion passing at every address that `o` can be cast to,
`create` and the factory loop return for every such address that is not null;
`create` returns null only for an object that fails the validity check; a returned
block exists and its tree is a complete cache of a class whose hierarchy has the
requested class. -/
theorem create_total {L : Type} (E : Env L) (live : L) (o : Ptr)
    (hthr : ∀ T p, CastImage E live o p →
      Q_ASSERT E.assertsEnabled (checkCorrectThread E live T p) = .ok ())
    (W : ObjectWrapper) :
    ∀ p s, CastImage E live o p → p ≠ 0 → FactoriesOf W.cls W.s_subclassFactories →
      ∃ r s1, create E live W p s = .ok (r, s1) ∧
        (checkValidObject E live W.cls p = true → r ≠ none) ∧ Discovered W.cls r s1 := by
  refine ObjectWrapper.rec
    (motive_1 := fun W => ∀ p s, CastImage E live o p → p ≠ 0 →
      FactoriesOf W.cls W.s_subclassFactories →
      ∃ r s1, create E live W p s = .ok (r, s1) ∧
        (checkValidObject E live W.cls p = true → r ≠ none) ∧ Discovered W.cls r s1)
    (motive_2 := fun fs => ∀ B p s, CastImage E live o p → p ≠ 0 → FactoriesOf B fs →
      ∃ r s1, subclassFactoryLoop E live B fs p s = .ok (r, s1) ∧ Discovered B r s1)
    ?_ ?_ ?_ W
  · intro C fs ih p s hp hp0 hfs
    simp only [ObjectWrapper.cls, ObjectWrapper.s_subclassFactories] at hfs ⊢
    simp only [create]
    by_cases hv : checkValidObject E live C p
    · simp only [hv, Bool.not_true, Bool.false_eq_true, if_false, hthr C p hp]
      obtain ⟨r0, s0, hl, hD⟩ := ih C p s hp hp0 hfs
      simp only [hl]
      cases r0 with
      | some d =>
        exact ⟨some d, s0, rfl, fun _ => by simp, hD⟩
      | none =>
        obtain ⟨s1, blk, hco, hblk, hC, _⟩ := createOwn_ok E live C hp0 s0
        refine ⟨_, _, hco, fun _ => by simp, ?_⟩
        intro d hd
        cases hd
        exact ⟨blk, C, p, hblk, hC, self_mem_hierarchy C⟩
    · simp only [hv, Bool.not_false, if_true]
      exact ⟨none, s, rfl, fun h => by simp at h, fun d hd => by cases hd⟩
  · intro B p s _ _ _
    exact ⟨none, s, rfl, fun d hd => by cases hd⟩
  · intro F rest ihF ihrest B p s hp hp0 hfs
    cases F with
    | mk D fs =>
      simp only [FactoriesOf] at hfs
      obtain ⟨hB, hD, hrest⟩ := hfs
      simp only [subclassFactoryLoop]
      rcases downcast_cases E live D B p with hz | ⟨_, hne, hq⟩
      · simp only [hz, bne_self_eq_false, Bool.false_eq_true, if_false]
        exact ihrest B p s hp hp0 hrest
      · have hne1 : (E.dynamicCast live p D.id != 0) = true := by simpa using hne
        simp only [hq, hne1, if_true]
        obtain ⟨r0, s0, hc, _, hDisc⟩ :=
          ihF (E.dynamicCast live p D.id) s (CastImage.cast D.id hp hne) hne hD
        simp only [hc]
        cases r0 with
        | some d =>
          refine ⟨some d, s0, rfl, ?_⟩
          intro d1 hd1
          obtain ⟨blk, R, o1, hblk, hR, hmem⟩ := hDisc d1 hd1
          exact ⟨blk, R, o1, hblk, hR, hierarchy_subset_of_mem_hierarchy R D hmem
            (hierarchy_subset_of_mem_bases hB (self_mem_hierarchy B))⟩
        | none => exact ihrest B p s0 hp hp0 hrest

theorem subclassFactoryLoop_first {L : Type} (E : Env L) (live : L) (B : WrapperClass)
    (o : Ptr) (s : State) (F : ObjectWrapper) (post : List ObjectWrapper) (d : Nat)
    (s1 : State) (hF : createFromBase E live F B o s = .ok (some d, s1)) :
    ∀ pre : List ObjectWrapper, (∀ G ∈ pre, createFromBase E live G B o s = .ok (none, s)) →
      subclassFactoryLoop E live B (pre ++ F :: post) o s = .ok (some d, s1) := by
  intro pre
  induction pre with
  | nil =>
    intro _
    simp [subclassFactoryLoop_cons, hF]
  | cons G pre ih =>
    intro h
    simp only [List.cons_append, subclassFactoryLoop_cons, h G (List.mem_cons_self _ _)]
    exact ih (fun G1 hG1 => h G1 (List.mem_cons_of_mem _ hG1))

theorem subclassFactoryLoop_none {L : Type} (E : Env L) (live : L) (B : WrapperClass)
    (o : Ptr) (s : State) :
    ∀ fs : List ObjectWrapper, (∀ G ∈ fs, createFromBase E live G B o s = .ok (none, s)) →
      subclassFactoryLoop E live B fs o s = .ok (none, s) := by
  intro fs
  induction fs with
  | nil =>
    intro _
    rfl
  | cons G fs ih =>
    intro h
    simp only [subclassFactoryLoop_cons, h G (List.mem_cons_self _ _)]
    exact ih (fun G1 hG1 => h G1 (List.mem_cons_of_mem _ hG1))

theorem factoriesOf_mem {B : WrapperClass} {fs : List ObjectWrapper} (h : FactoriesOf B fs) :
    ∀ F ∈ fs, B ∈ F.cls.bases ∧ FactoriesOf F.cls F.s_subclassFactories := by
  induction fs with
  | nil =>
    intro F hF
    cases hF
  | cons G fs ih =>
    intro F hF
    cases G with
    | mk D gs =>
      simp only [FactoriesOf] at h
      rcases List.mem_cons.1 hF with hF | hF
      · subst hF
        exact ⟨h.1, h.2.1⟩
      · exact ih h.2.2 F hF

theorem mem_nodeIds_of_cache (T : TypeId) (t : PropertyCache) :
    ∀ r, t.cache T = .ok r → r ≠ .null → T ∈ t.nodeIds := by
  refine PropertyCache.rec
    (motive_1 := fun t => ∀ r, t.cache T = .ok r → r ≠ .null → T ∈ t.nodeIds)
    (motive_2 := fun cs => ∀ r, getCacheFromBases cs T = .ok r → r ≠ .null →
      T ∈ nodeIdsOfBases cs)
    ?_ ?_ ?_ ?_ t
  · intro r hr
    simp [PropertyCache.cache] at hr
  · intro cls ds bs o ih r hr hne
    simp only [PropertyCache.cache] at hr
    simp only [PropertyCache.nodeIds, List.mem_cons]
    by_cases hid : cls.id = T
    · exact Or.inl hid.symm
    · simp only [hid, if_false] at hr
      exact Or.inr (ih r hr hne)
  · intro r hr hne
    simp only [getCacheFromBases, Except.ok.injEq] at hr
    exact absurd hr.symm hne
  · intro c cs ihc ihcs r hr hne
    simp only [getCacheFromBases] at hr
    simp only [nodeIdsOfBases, List.mem_append]
    cases hc : c.cache T with
    | error e => simp [hc] at hr
    | ok r1 =>
      cases r1 with
      | null =>
        simp only [hc] at hr
        exact Or.inr (ihcs r hr hne)
      | node cls ds bs o =>
        exact Or.inl (ihc _ hc (by simp))

/-- The member `expandCache<Class>(obj)` on a block whose tree is a complete cache
that can be expanded to `Class`: it returns, the tree is then a complete cache of
`Class`, and every lookup that found a node before finds the same node, with the
same slot values. -/
theorem expandCache_ok {L : Type} (E : Env L) (live : L) {blk : ObjectWrapperPrivate}
    {o : Ptr} (ho : o ≠ 0) {R C : WrapperClass} (hR : blk.m_cache.IsCacheOf o R)
    (hexp : Expandable blk.m_cache C) :
    ∃ d1, blk.expandCache E live C o = .ok d1 ∧ d1.m_cache.IsCacheOf o C ∧
      ∀ T r, blk.m_cache.cache T = .ok r → r ≠ .null → d1.m_cache.cache T = .ok r := by
  obtain ⟨t1, ht1, hC1, hmono⟩ :=
    fromBaseclassCache_of_expandable E.assertsEnabled o blk.m_cache R hR C hexp
  obtain ⟨d1, hd1, hc1, _⟩ := connect_of_found E live ho C { blk with m_cache := t1 }
    (fun X hX => found_of_mem_hierarchy hC1 hX)
  have hc1 : d1.m_cache = t1 := hc1
  refine ⟨d1, ?_, hc1 ▸ hC1, hc1 ▸ hmono⟩
  simp [ObjectWrapperPrivate.expandCache, ht1, hd1]

theorem liveData_length {L : Type} (E : Env L) (live : L) (cls : WrapperClass) (o : Ptr)
    (k : Nat) : (liveData E live cls o k).length = min k cls.props.length := by
  induction k with
  | zero => simp [liveData]
  | succ k ih =>
    simp only [liveData]
    cases hp : cls.props[k]? with
    | none =>
      have hk : cls.props.length ≤ k := by
        by_contra hn
        rw [List.getElem?_eq_getElem (Nat.lt_of_not_le hn)] at hp
        cases hp
      simp only [ih]
      omega
    | some p =>
      have hk : k < cls.props.length := by
        by_contra hn
        rw [List.getElem?_eq_none (Nat.le_of_not_lt hn)] at hp
        cases hp
      simp only [List.length_append, ih, List.length_singleton]
      omega

/-- Slot `i` of the data computed by `__data(d, __number<k>)` is the phase-1 wrapped
live value of property `i`. -/
theorem liveData_getElem? {L : Type} (E : Env L) (live : L) (cls : WrapperClass) (o : Ptr)
    (i : Nat) (p : PropDecl) (hp : cls.props[i]? = some p) :
    ∀ k, i < k → (liveData E live cls o k)[i]? =
      some (wrapPhase1 p.flags (E.fetch live o cls.id i)) := by
  have hi : i < cls.props.length := by
    by_contra hn
    rw [List.getElem?_eq_none (Nat.le_of_not_lt hn)] at hp
    cases hp
  intro k
  induction k with
  | zero => intro h; cases h
  | succ k ih =>
    intro hik
    simp only [liveData]
    cases hk : cls.props[k]? with
    | none =>
      have hkn : cls.props.length ≤ k := by
        by_contra hn
        rw [List.getElem?_eq_getElem (Nat.lt_of_not_le hn)] at hk
        cases hk
      exact ih (by omega)
    | some pk =>
      have hkn : k < cls.props.length := by
        by_contra hn
        rw [List.getElem?_eq_none (Nat.le_of_not_lt hn)] at hk
        cases hk
      have hlen := liveData_length E live cls o k
      by_cases hlt : i < k
      · rw [List.getElem?_append_left (by omega)]
        exact ih hlt
      · have hik2 : i = k := by omega
        subst hik2
        rw [hp] at hk
        cases hk
        rw [List.getElem?_append_right (by omega)]
        simp [hlen, Nat.min_eq_left (Nat.le_of_lt hkn)]

/-- The call `handleForObject<Class>(o)` for an object registered with a block that
is not complete for `Class` and whose tree can be expanded to `Class`: the block is
expanded and, unless caching is disabled for `Class`, updated; the handle refers to
the registered block. -/
theorem handleForObject_expand {L : Type} (E : Env L) (live : L) (W : ObjectWrapper)
    (o : Ptr) (b : Nat) (s : State) (blk : ObjectWrapperPrivate) (R : WrapperClass)
    (ho : o ≠ 0) (hreg : s.m_objectToWrapperPrivateMap o = some b)
    (hblk : s.heap[b]? = some (some blk)) (hR : blk.m_cache.IsCacheOf o R)
    (hexp : Expandable blk.m_cache W.cls) (hinc : blk.isComplete W.cls.id = .ok false) :
    ∃ blkE blk1, blk.expandCache E live W.cls o = .ok blkE ∧
      blkE.m_cache.IsCacheOf o W.cls ∧
      (∀ T r, blk.m_cache.cache T = .ok r → r ≠ .null → blkE.m_cache.cache T = .ok r) ∧
      handleForObject E live W o s = .ok (⟨some b⟩, s.store (some b) blk1) ∧
      blk1.m_cache.IsCacheOf o W.cls ∧
      (W.cls.cachingDisabled = true → blk1 = blkE) ∧
      (W.cls.cachingDisabled = false → blk1.m_cache.Fresh E live) := by
  have hlock : s.lock b = some b := State.lock_of_alive ⟨blk, hblk⟩
  have hderef : s.deref (some b) = .ok blk := by simp [State.deref, hblk]
  obtain ⟨blkE, hE, hCE, hmono⟩ := expandCache_ok E live ho hR hexp
  by_cases hcd : W.cls.cachingDisabled
  · refine ⟨blkE, blkE, hE, hCE, hmono, ?_, hCE, fun _ => rfl, fun h => ?_⟩
    · unfold handleForObject
      simp [ho, hreg, hlock, hderef, hinc, hE, hcd]
    · rw [hcd] at h
      cases h
  · obtain ⟨t1, ht1, hC1, hF1⟩ := updateCache_root E live ho hCE
    refine ⟨blkE, { blkE with m_cache := t1 }, hE, hCE, hmono, ?_, hC1, fun h => ?_,
      fun _ => hF1⟩
    · unfold handleForObject
      simp [ho, hreg, hlock, hderef, hinc, hE, hcd, ht1]
    · exact absurd h hcd

theorem not_mem_nodes_of_cache_null (T : TypeId) (t : PropertyCache) :
    t.cache T = .ok .null → ∀ ds, (T, ds) ∉ t.nodes := by
  refine PropertyCache.rec
    (motive_1 := fun t => t.cache T = .ok .null → ∀ ds, (T, ds) ∉ t.nodes)
    (motive_2 := fun cs => getCacheFromBases cs T = .ok .null → ∀ ds, (T, ds) ∉ nodesOfBases cs)
    ?_ ?_ ?_ ?_ t
  · intro _ ds h
    simp [PropertyCache.nodes] at h
  · intro cls ds bs o ih h ds1 hm
    simp only [PropertyCache.cache] at h
    by_cases hid : cls.id = T
    · simp [hid] at h
    · simp only [hid, if_false] at h
      simp only [PropertyCache.nodes, List.mem_cons, Prod.mk.injEq] at hm
      rcases hm with hm | hm
      · exact hid hm.1.symm
      · exact ih h ds1 hm
  · intro _ ds h
    simp [nodesOfBases] at h
  · intro c cs ihc ihcs h ds hm
    simp only [getCacheFromBases] at h
    simp only [nodesOfBases, List.mem_append] at hm
    cases hc : c.cache T with
    | error e => simp [hc] at h
    | ok r =>
      cases r with
      | null =>
        simp only [hc] at h
        rcases hm with hm | hm
        · exact ihc hc ds hm
        · exact ihcs h ds hm
      | node _ _ _ _ => simp [hc] at h

theorem setFirstSlot_append_of_not_mem (T : TypeId) (i : Nat) (v : Value)
    (l r : List (TypeId × List Value)) (h : ∀ ds, (T, ds) ∉ l) :
    setFirstSlot T i v (l ++ r) = l ++ setFirstSlot T i v r := by
  induction l with
  | nil => rfl
  | cons a l ih =>
    obtain ⟨t, ds⟩ := a
    have ht : t ≠ T := by
      intro he
      exact h ds (by simp [he])
    simp only [List.cons_append, setFirstSlot, ht, if_false, List.append_eq]
    rw [ih (fun ds1 hm => h ds1 (List.mem_cons_of_mem _ hm))]

theorem setFirstSlot_append_of_mem (T : TypeId) (i : Nat) (v : Value)
    (l r : List (TypeId × List Value)) (h : ∃ ds, (T, ds) ∈ l) :
    setFirstSlot T i v (l ++ r) = setFirstSlot T i v l ++ r := by
  induction l with
  | nil =>
    obtain ⟨ds, h⟩ := h
    cases h
  | cons a l ih =>
    obtain ⟨t, ds⟩ := a
    by_cases ht : t = T
    · simp [setFirstSlot, ht]
    · simp only [List.cons_append, setFirstSlot, ht, if_false, List.append_eq]
      obtain ⟨ds1, h1⟩ := h
      simp only [List.mem_cons, Prod.mk.injEq] at h1
      rcases h1 with h1 | h1
      · exact absurd h1.1.symm ht
      · rw [ih ⟨ds1, h1⟩]

theorem mem_nodes_of_cache (T : TypeId) (t : PropertyCache) :
    ∀ cls ds bs o, t.cache T = .ok (.node cls ds bs o) → (T, ds) ∈ t.nodes := by
  refine PropertyCache.rec
    (motive_1 := fun t => ∀ cls ds bs o, t.cache T = .ok (.node cls ds bs o) →
      (T, ds) ∈ t.nodes)
    (motive_2 := fun cs => ∀ cls ds bs o, getCacheFromBases cs T = .ok (.node cls ds bs o) →
      (T, ds) ∈ nodesOfBases cs)
    ?_ ?_ ?_ ?_ t
  · intro cls ds bs o h
    simp [PropertyCache.cache] at h
  · intro cls0 ds0 bs0 o0 ih cls ds bs o h
    simp only [PropertyCache.cache] at h
    simp only [PropertyCache.nodes, List.mem_cons, Prod.mk.injEq]
    by_cases hid : cls0.id = T
    · simp only [hid, if_true, Except.ok.injEq, PropertyCache.node.injEq] at h
      exact Or.inl ⟨hid.symm, h.2.1.symm⟩
    · simp only [hid, if_false] at h
      exact Or.inr (ih cls ds bs o h)
  · intro cls ds bs o h
    simp [getCacheFromBases] at h
  · intro c cs ihc ihcs cls ds bs o h
    simp only [getCacheFromBases] at h
    simp only [nodesOfBases, List.mem_append]
    cases hc : c.cache T with
    | error e => simp [hc] at h
    | ok r =>
      cases r with
      | null =>
        simp only [hc] at h
        exact Or.inr (ihcs cls ds bs o h)
      | node cls1 ds1 bs1 o1 =>
        simp only [hc, Except.ok.injEq, PropertyCache.node.injEq] at h
        obtain ⟨h1, h2, h3, h4⟩ := h
        subst h1 h2 h3 h4
        exact Or.inl (ihc _ _ _ _ hc)

/-- Reading back through `cache(T)` after the write-back returns the written node. -/
theorem cache_replace (T : TypeId) (n : PropertyCache) (hn : n.isA T = true)
    (t : PropertyCache) :
    ∀ cls ds bs o, t.cache T = .ok (.node cls ds bs o) → (t.replace T n).cache T = .ok n := by
  have hnn : n.cache T = .ok n := by
    cases n with
    | null => simp [PropertyCache.isA] at hn
    | node c d b o =>
      simp only [PropertyCache.isA, beq_iff_eq] at hn
      simp [PropertyCache.cache, hn]
  refine PropertyCache.rec
    (motive_1 := fun t => ∀ cls ds bs o, t.cache T = .ok (.node cls ds bs o) →
      (t.replace T n).cache T = .ok n)
    (motive_2 := fun cs => ∀ cls ds bs o, getCacheFromBases cs T = .ok (.node cls ds bs o) →
      getCacheFromBases (replaceInBases cs T n) T = .ok n)
    ?_ ?_ ?_ ?_ t
  · intro cls ds bs o h
    simp [PropertyCache.cache] at h
  · intro cls0 ds0 bs0 o0 ih cls ds bs o h
    simp only [PropertyCache.cache] at h
    simp only [PropertyCache.replace]
    by_cases hid : cls0.id = T
    · simp only [hid, if_true]
      exact hnn
    · simp only [hid, if_false] at h ⊢
      simp only [PropertyCache.cache, hid, if_false]
      exact ih cls ds bs o h
  · intro cls ds bs o h
    simp [getCacheFromBases] at h
  · intro c cs ihc ihcs cls ds bs o h
    simp only [getCacheFromBases] at h
    simp only [replaceInBases]
    cases hc : c.cache T with
    | error e => simp [hc] at h
    | ok r =>
      cases r with
      | null =>
        simp only [hc] at h
        simp only [getCacheFromBases, hc]
        exact ihcs cls ds bs o h
      | node cls1 ds1 bs1 o1 =>
        simp only [getCacheFromBases, ihc _ _ _ _ hc]
        cases n with
        | null => simp [PropertyCache.isA] at hn
        | node _ _ _ _ => rfl

/-- The write-back of a node that differs from the found one in slot `i` only changes
that slot of the first node of type `T` and nothing else. -/
theorem nodes_replace (T : TypeId) (i : Nat) (v : Value) (t : PropertyCache) :
    ∀ cls ds bs o, t.cache T = .ok (.node cls ds bs o) →
      (t.replace T (.node cls (ds.set i v) bs o)).nodes = setFirstSlot T i v t.nodes := by
  refine PropertyCache.rec
    (motive_1 := fun t => ∀ cls ds bs o, t.cache T = .ok (.node cls ds bs o) →
      (t.replace T (.node cls (ds.set i v) bs o)).nodes = setFirstSlot T i v t.nodes)
    (motive_2 := fun cs => ∀ cls ds bs o, getCacheFromBases cs T = .ok (.node cls ds bs o) →
      nodesOfBases (replaceInBases cs T (.node cls (ds.set i v) bs o)) =
        setFirstSlot T i v (nodesOfBases cs))
    ?_ ?_ ?_ ?_ t
  · intro cls ds bs o h
    simp [PropertyCache.cache] at h
  · intro cls0 ds0 bs0 o0 ih cls ds bs o h
    simp only [PropertyCache.cache] at h
    simp only [PropertyCache.replace, PropertyCache.nodes, setFirstSlot]
    by_cases hid : cls0.id = T
    · simp only [hid, if_true, Except.ok.injEq, PropertyCache.node.injEq] at h ⊢
      obtain ⟨h1, h2, h3, h4⟩ := h
      subst h1 h2 h3 h4
      simp [PropertyCache.nodes, hid]
    · simp only [hid, if_false] at h ⊢
      simp only [PropertyCache.nodes, ih cls ds bs o h]
  · intro cls ds bs o h
    simp [getCacheFromBases] at h
  · intro c cs ihc ihcs cls ds bs o h
    simp only [getCacheFromBases] at h
    simp only [replaceInBases]
    cases hc : c.cache T with
    | error e => simp [hc] at h
    | ok r =>
      cases r with
      | null =>
        simp only [hc] at h
        simp only [nodesOfBases, ihcs cls ds bs o h]
        rw [setFirstSlot_append_of_not_mem T i v _ _ (not_mem_nodes_of_cache_null T c hc)]
      | node cls1 ds1 bs1 o1 =>
        simp only [hc, Except.ok.injEq, PropertyCache.node.injEq] at h
        obtain ⟨h1, h2, h3, h4⟩ := h
        subst h1 h2 h3 h4
        simp only [nodesOfBases, ihc _ _ _ _ hc]
        rw [setFirstSlot_append_of_mem T i v _ _ ⟨_, mem_nodes_of_cache T c _ _ _ _ hc⟩]

theorem list_set_of_getElem? {α : Type} (l : List α) (i : Nat) (a : α) (h : l[i]? = some a) :
    l.set i a = l := by
  induction l generalizing i with
  | nil => rfl
  | cons x l ih =>
    cases i with
    | zero =>
      simp only [List.getElem?_cons_zero, Option.some.injEq] at h
      simp [h]
    | succ i =>
      simp only [List.getElem?_cons_succ] at h
      simp [ih i h]

theorem cache_id (T : TypeId) (t : PropertyCache) :
    ∀ cls ds bs o, t.cache T = .ok (.node cls ds bs o) → cls.id = T := by
  refine PropertyCache.rec
    (motive_1 := fun t => ∀ cls ds bs o, t.cache T = .ok (.node cls ds bs o) → cls.id = T)
    (motive_2 := fun cs => ∀ cls ds bs o, getCacheFromBases cs T = .ok (.node cls ds bs o) →
      cls.id = T)
    ?_ ?_ ?_ ?_ t
  · intro cls ds bs o h
    simp [PropertyCache.cache] at h
  · intro cls0 ds0 bs0 o0 ih cls ds bs o h
    simp only [PropertyCache.cache] at h
    by_cases hid : cls0.id = T
    · simp only [hid, if_true, Except.ok.injEq, PropertyCache.node.injEq] at h
      exact h.1 ▸ hid
    · simp only [hid, if_false] at h
      exact ih cls ds bs o h
  · intro cls ds bs o h
    simp [getCacheFromBases] at h
  · intro c cs ihc ihcs cls ds bs o h
    simp only [getCacheFromBases] at h
    cases hc : c.cache T with
    | error e => simp [hc] at h
    | ok r =>
      cases r with
      | null =>
        simp only [hc] at h
        exact ihcs cls ds bs o h
      | node cls1 ds1 bs1 o1 =>
        simp only [hc, Except.ok.injEq, PropertyCache.node.injEq] at h
        exact h.1 ▸ ihc _ _ _ _ hc

theorem State.store_same (s : State) (b : Nat) (blk : ObjectWrapperPrivate)
    (h : s.heap[b]? = some (some blk)) : s.store (some b) blk = s := by
  cases s with
  | mk heap m =>
    simp only [State.store, State.mk.injEq, and_true]
    exact list_set_of_getElem? heap b (some blk) h

theorem release_acquire (blk : ObjectWrapperPrivate) (h : blk.semaphore ≠ 0) :
    ∃ blkA, blk.acquire = .ok blkA ∧ blkA.release = blk ∧ blkA.m_cache = blk.m_cache ∧
      blkA.connections = blk.connections := by
  refine ⟨{ blk with semaphore := blk.semaphore - 1 }, by simp [ObjectWrapperPrivate.acquire, h],
    ?_, rfl, rfl⟩
  cases blk with
  | mk c cs sem =>
    simp only [ObjectWrapperPrivate.release, ObjectWrapperPrivate.mk.injEq, true_and]
    simp only at h
    omega

/-- The generated getter on an existing block whose semaphore is available and whose
tree has a node of the declaring class: it returns, leaves the state as it is, and
yields the wrapped live value when caching is disabled and the phase-2 wrapped slot
otherwise. -/
theorem getter_ok {L : Type} (E : Env L) (live : L) (cls : WrapperClass) (i F : Nat)
    (b : Nat) (s : State) (blk : ObjectWrapperPrivate) (c : WrapperClass) (ds : List Value)
    (bs : List PropertyCache) (o : Ptr) (x : Value)
    (hblk : s.heap[b]? = some (some blk)) (hsem : blk.semaphore ≠ 0)
    (hnode : blk.m_cache.cache cls.id = .ok (.node c ds bs o)) (ho : o ≠ 0)
    (hx : ds[i]? = some x) :
    getter E live cls i F (some b) s =
      .ok (if cls.cachingDisabled then wrap F (E.fetch live o cls.id i) else wrapPhase2 F x, s) := by
  obtain ⟨blkA, hA, hrel, hcA, _⟩ := release_acquire blk hsem
  have hderef : s.deref (some b) = .ok blk := by simp [State.deref, hblk]
  unfold getter
  simp only [Q_ASSERT, Option.isSome_some, Bool.not_true, Bool.and_false, Bool.false_eq_true,
    if_false, hderef, hA, hrel, State.store_same s b blk hblk]
  by_cases hcd : cls.cachingDisabled
  · simp [hcd, ObjectWrapperPrivate.object, ObjectWrapperPrivate.cache, hcA, hnode, Q_ASSERT,
      PropertyCache.isNull, PropertyCache.m_object, fetchLive, ho]
  · simp [hcd, ObjectWrapperPrivate.getSlot, ObjectWrapperPrivate.cache, hcA, hnode, Q_ASSERT,
      PropertyCache.isNull, hx]

theorem State.store_store (s : State) (b : Nat) (x y : ObjectWrapperPrivate) :
    (s.store (some b) x).store (some b) y = s.store (some b) y := by
  simp [State.store, List.set_set]

theorem releaseSemaphore_store (s : State) (b : Nat) (x : ObjectWrapperPrivate)
    (hb : b < s.heap.length) :
    releaseSemaphore (some b) (s.store (some b) x) = .ok (s.store (some b) x.release) := by
  simp [releaseSemaphore, State.deref, State.heap_store_self s b x hb, State.store_store]

theorem listenersFrom_nil (c : Connection) (heap : List (Option ObjectWrapperPrivate))
    (h : ∀ blk, some blk ∈ heap → c ∉ blk.connections) :
    ∀ k, listenersFrom c heap k = [] := by
  induction heap with
  | nil => intro k; rfl
  | cons x rest ih =>
    intro k
    have hrest := ih (fun blk hm => h blk (List.mem_cons_of_mem _ hm)) (k + 1)
    cases x with
    | none => simpa [listenersFrom] using hrest
    | some blk =>
      have hc : blk.connections.count c = 0 :=
        List.count_eq_zero_of_not_mem (h blk (List.mem_cons_self _ _))
      simp [listenersFrom, hc, hrest]

theorem mem_listenersFrom (c : Connection) (heap : List (Option ObjectWrapperPrivate)) :
    ∀ (k j : Nat) (blk : ObjectWrapperPrivate), heap[j]? = some (some blk) →
      c ∈ blk.connections → k + j ∈ listenersFrom c heap k := by
  induction heap with
  | nil =>
    intro k j blk h
    simp at h
  | cons x rest ih =>
    intro k j blk h hc
    cases j with
    | zero =>
      simp only [List.getElem?_cons_zero, Option.some.injEq] at h
      subst h
      simp only [listenersFrom, Nat.add_zero, List.mem_append, List.mem_replicate, ne_eq,
        and_true]
      exact Or.inl (Nat.ne_of_gt (List.count_pos_iff.2 hc))
    | succ j =>
      simp only [List.getElem?_cons_succ] at h
      have hm := ih (k + 1) j blk h hc
      have he : k + (j + 1) = k + 1 + j := by omega
      rw [he]
      cases x with
      | none => simpa [listenersFrom] using hm
      | some blk0 =>
        simp only [listenersFrom, List.mem_append]
        exact Or.inr hm

theorem State.NoListener.store {s : State} {c : Connection} (h : s.NoListener c) {b : Nat}
    {blk x : ObjectWrapperPrivate} (hblk : s.heap[b]? = some (some blk))
    (hx : x.connections = blk.connections) : (s.store (some b) x).NoListener c := by
  intro b1 blk1 h1
  simp only [State.store, List.getElem?_set] at h1
  by_cases hb : b = b1
  · subst hb
    have hlt := State.Alive.lt ⟨blk, hblk⟩
    simp only [hlt, if_true, Option.some.injEq] at h1
    rw [← h1, hx]
    exact h b blk hblk
  · simp only [hb, if_false] at h1
    exact h b1 blk1 h1

theorem listenersFrom_of_noListener {s : State} {c : Connection} (h : s.NoListener c) :
    listenersFrom c s.heap 0 = [] := by
  refine listenersFrom_nil c s.heap (fun blk hm => ?_) 0
  obtain ⟨b, hb⟩ := List.getElem?_of_mem hm
  exact h b blk hb

/-- The write emits no notify signal, or no block is connected to it: the emission
runs no functor. -/
theorem emitNotifySignal_quiet {L : Type} (E : Env L) (live live1 : L) (cls : WrapperClass)
    (i F : Nat) (o : Ptr) (v : Value) (s : State)
    (h : E.emitsNotify live o cls.id i v = false ∨ s.NoListener ⟨cls.id, i, o⟩) :
    emitNotifySignal E live live1 cls i F o v s = .ok s := by
  unfold emitNotifySignal
  rcases h with h | h
  · simp [h]
  · rw [listenersFrom_of_noListener h]
    simp [runFunctors]

/-- The notify functor of a block whose semaphore is taken waits. -/
theorem notifyFunctor_blocked {L : Type} (E : Env L) (live : L) (cls : WrapperClass)
    (i F b : Nat) (s : State) (blk : ObjectWrapperPrivate)
    (hblk : s.heap[b]? = some (some blk)) (hsem : blk.semaphore = 0) :
    notifyFunctor E live cls i F b s = .error .blocked := by
  have hlock : s.lock b = some b := State.lock_of_alive ⟨blk, hblk⟩
  have hderef : s.deref (some b) = .ok blk := by simp [State.deref, hblk]
  simp [notifyFunctor, hlock, hderef, ObjectWrapperPrivate.acquire, hsem]

/-- The notify functor of a block changes no other block. -/
theorem notifyFunctor_frame {L : Type} (E : Env L) (live : L) (cls : WrapperClass)
    (i F w : Nat) (s s1 : State) (h : notifyFunctor E live cls i F w s = .ok s1) :
    ∀ b, b ≠ w → s1.heap[b]? = s.heap[b]? := by
  intro b hb
  unfold notifyFunctor at h
  cases hd : s.deref (s.lock w) with
  | error e => simp [hd] at h
  | ok blk0 =>
    simp only [hd] at h
    cases ha : blk0.acquire with
    | error e => simp [ha] at h
    | ok blk =>
      simp only [ha] at h
      cases ho : blk.object E cls.id with
      | error e => simp [ho] at h
      | ok o =>
        simp only [ho] at h
        cases hf : fetchLive E live cls i o with
        | error e => simp [hf] at h
        | ok v =>
          simp only [hf] at h
          cases hs : blk.setSlot E cls.id i (wrapPhase1 F v) with
          | error e => simp [hs] at h
          | ok blk1 =>
            simp only [hs, Except.ok.injEq] at h
            rw [← h]
            rcases State.lock_eq s w with hl | hl
            · rw [hl]
              rfl
            · rw [hl]
              simp [State.store, List.getElem?_set, Ne.symm hb]

/-- The emission of a notify signal to which a block whose semaphore is taken is
connected does not return. -/
theorem runFunctors_blocked {L : Type} (E : Env L) (live : L) (cls : WrapperClass)
    (i F b : Nat) (blk : ObjectWrapperPrivate) (hsem : blk.semaphore = 0) :
    ∀ (l : List Nat) (s : State), b ∈ l → s.heap[b]? = some (some blk) →
      ∃ e, runFunctors E live cls i F l s = .error e := by
  intro l
  induction l with
  | nil =>
    intro s hm
    cases hm
  | cons w rest ih =>
    intro s hm hblk
    simp only [runFunctors]
    cases hn : notifyFunctor E live cls i F w s with
    | error e => exact ⟨e, rfl⟩
    | ok s1 =>
      have hwb : b ≠ w := by
        intro hbw
        subst hbw
        rw [notifyFunctor_blocked E live cls i F b s blk hblk hsem] at hn
        cases hn
      have hm1 : b ∈ rest := by
        rcases List.mem_cons.1 hm with h | h
        · exact absurd h hwb
        · exact h
      exact ih s1 hm1 ((notifyFunctor_frame E live cls i F w s s1 hn b hwb).trans hblk)

/-- The generated setter on an existing block whose semaphore is available and whose
tree has a node of the declaring class with slot `i`, where the write emits no notify
signal or no block is connected to it: it returns; the live state is the result of one
`write_<prop>` with the unwrapped value; with caching disabled the state is unchanged,
otherwise the block differs from the old one in its tree only, which is the write-back
of the found node with slot `i` set to the new value. -/
theorem setter_ok {L : Type} (E : Env L) (live : L) (cls : WrapperClass) (i F : Nat)
    (b : Nat) (s : State) (blk : ObjectWrapperPrivate) (c : WrapperClass) (ds : List Value)
    (bs : List PropertyCache) (o : Ptr) (v : Value)
    (hblk : s.heap[b]? = some (some blk)) (hsem : blk.semaphore ≠ 0)
    (hnode : blk.m_cache.cache cls.id = .ok (.node c ds bs o)) (ho : o ≠ 0)
    (hi : i < ds.length)
    (hquiet : E.emitsNotify live o cls.id i (unwrap v) = false ∨
      s.NoListener ⟨cls.id, i, o⟩) :
    setter E live cls i F (some b) v s =
      .ok (if cls.cachingDisabled then s
        else s.store (some b)
          { blk with m_cache := blk.m_cache.replace cls.id (.node c (ds.set i v) bs o) },
        E.write live o cls.id i (unwrap v)) := by
  obtain ⟨blkA, hA, hrel, hcA, hconn⟩ := release_acquire blk hsem
  have hderef : s.deref (some b) = .ok blk := by simp [State.deref, hblk]
  have hcid : c.id = cls.id := cache_id cls.id blk.m_cache c ds bs o hnode
  have hb : b < s.heap.length := State.Alive.lt ⟨blk, hblk⟩
  have hq : ∀ x : ObjectWrapperPrivate, x.connections = blk.connections →
      emitNotifySignal E live (E.write live o cls.id i (unwrap v)) cls i F o (unwrap v)
        (s.store (some b) x) = .ok (s.store (some b) x) := by
    intro x hx
    refine emitNotifySignal_quiet E live _ cls i F o (unwrap v) _ ?_
    rcases hquiet with h | h
    · exact Or.inl h
    · exact Or.inr (h.store hblk hx)
  unfold setter
  simp only [Q_ASSERT, Option.isSome_some, Bool.not_true, Bool.and_false, Bool.false_eq_true,
    if_false, hderef, hA]
  by_cases hcd : cls.cachingDisabled
  · have hobj : blkA.object E cls.id = .ok o := by
      simp [ObjectWrapperPrivate.object, ObjectWrapperPrivate.cache, hcA, hnode, Q_ASSERT,
        PropertyCache.isNull, PropertyCache.m_object]
    simp only [hcd, if_true, hobj, writeLive, ho, if_false, hq blkA hconn,
      releaseSemaphore_store s b blkA hb, hrel, State.store_same s b blk hblk]
  · have hrd := cache_replace cls.id (.node c (ds.set i v) bs o)
      (by simp [PropertyCache.isA, hcid]) blk.m_cache c ds bs o hnode
    have hset : blkA.setSlot E cls.id i v = .ok
        { blkA with m_cache := blk.m_cache.replace cls.id (.node c (ds.set i v) bs o) } := by
      simp [ObjectWrapperPrivate.setSlot, ObjectWrapperPrivate.cache, hcA, hnode, Q_ASSERT,
        PropertyCache.isNull, hi]
    have hobj : ({ blkA with
        m_cache := blk.m_cache.replace cls.id (.node c (ds.set i v) bs o) } :
        ObjectWrapperPrivate).object E cls.id = .ok o := by
      simp [ObjectWrapperPrivate.object, ObjectWrapperPrivate.cache, hrd, Q_ASSERT,
        PropertyCache.isNull, PropertyCache.m_object]
    have hrel2 : ({ blkA with
        m_cache := blk.m_cache.replace cls.id (.node c (ds.set i v) bs o) } :
        ObjectWrapperPrivate).release =
        { blk with m_cache := blk.m_cache.replace cls.id (.node c (ds.set i v) bs o) } := by
      rw [← hrel]
      rfl
    simp only [hcd, Bool.false_eq_true, if_false, hset, hobj, writeLive, ho,
      hq { blkA with m_cache := blk.m_cache.replace cls.id (.node c (ds.set i v) bs o) } hconn,
      releaseSemaphore_store s b
        { blkA with m_cache := blk.m_cache.replace cls.id (.node c (ds.set i v) bs o) } hb,
      hrel2]

/-- The generated setter on an existing block that is connected to the notify signal
of the property, called with a value whose write emits that signal: the functor of
the block runs inside `write_<prop>`, waits for the semaphore that the setter holds,
and the setter does not return. -/
theorem setter_blocked {L : Type} (E : Env L) (live : L) (cls : WrapperClass) (i F : Nat)
    (b : Nat) (s : State) (blk : ObjectWrapperPrivate) (c : WrapperClass) (ds : List Value)
    (bs : List PropertyCache) (o : Ptr) (v : Value)
    (hblk : s.heap[b]? = some (some blk)) (hsem : blk.semaphore = 1)
    (hnode : blk.m_cache.cache cls.id = .ok (.node c ds bs o)) (ho : o ≠ 0)
    (hi : i < ds.length) (hemit : E.emitsNotify live o cls.id i (unwrap v) = true)
    (hconn : ⟨cls.id, i, o⟩ ∈ blk.connections) :
    ∃ e, setter E live cls i F (some b) v s = .error e := by
  have hsem0 : blk.semaphore ≠ 0 := by rw [hsem]; decide
  obtain ⟨blkA, hA, hrel, hcA, hcn⟩ := release_acquire blk hsem0
  have hA0 : blkA.semaphore = 0 := by
    simp only [ObjectWrapperPrivate.acquire, hsem0, if_false, Except.ok.injEq] at hA
    rw [← hA]
    simp [hsem]
  have hderef : s.deref (some b) = .ok blk := by simp [State.deref, hblk]
  have hcid : c.id = cls.id := cache_id cls.id blk.m_cache c ds bs o hnode
  have hb : b < s.heap.length := State.Alive.lt ⟨blk, hblk⟩
  have hq : ∀ x : ObjectWrapperPrivate, x.connections = blk.connections → x.semaphore = 0 →
      ∃ e, emitNotifySignal E live (E.write live o cls.id i (unwrap v)) cls i F o (unwrap v)
        (s.store (some b) x) = .error e := by
    intro x hx hx0
    unfold emitNotifySignal
    simp only [hemit, if_true]
    have hstored := State.heap_store_self s b x hb
    have hm := mem_listenersFrom ⟨cls.id, i, o⟩ (s.store (some b) x).heap 0 b x hstored
      (hx ▸ hconn)
    rw [Nat.zero_add] at hm
    exact runFunctors_blocked E _ cls i F b x hx0 _ _ hm hstored
  unfold setter
  simp only [Q_ASSERT, Option.isSome_some, Bool.not_true, Bool.and_false, Bool.false_eq_true,
    if_false, hderef, hA]
  by_cases hcd : cls.cachingDisabled
  · have hobj : blkA.object E cls.id = .ok o := by
      simp [ObjectWrapperPrivate.object, ObjectWrapperPrivate.cache, hcA, hnode, Q_ASSERT,
        PropertyCache.isNull, PropertyCache.m_object]
    obtain ⟨e, he⟩ := hq blkA hcn hA0
    exact ⟨e, by simp only [hcd, if_true, hobj, writeLive, ho, if_false, he]⟩
  · have hrd := cache_replace cls.id (.node c (ds.set i v) bs o)
      (by simp [PropertyCache.isA, hcid]) blk.m_cache c ds bs o hnode
    have hset : blkA.setSlot E cls.id i v = .ok
        { blkA with m_cache := blk.m_cache.replace cls.id (.node c (ds.set i v) bs o) } := by
      simp [ObjectWrapperPrivate.setSlot, ObjectWrapperPrivate.cache, hcA, hnode, Q_ASSERT,
        PropertyCache.isNull, hi]
    have hobj : ({ blkA with
        m_cache := blk.m_cache.replace cls.id (.node c (ds.set i v) bs o) } :
        ObjectWrapperPrivate).object E cls.id = .ok o := by
      simp [ObjectWrapperPrivate.object, ObjectWrapperPrivate.cache, hrd, Q_ASSERT,
        PropertyCache.isNull, PropertyCache.m_object]
    obtain ⟨e, he⟩ := hq { blkA with
      m_cache := blk.m_cache.replace cls.id (.node c (ds.set i v) bs o) } hcn hA0
    exact ⟨e, by simp only [hcd, Bool.false_eq_true, if_false, hset, hobj, writeLive, ho, he]⟩

theorem State.alive_of_lock {s : State} {w b : Nat} (h : s.lock w = some b) :
    w = b ∧ s.Alive b := by
  unfold State.lock at h
  split at h
  · next blk hh =>
    simp only [Option.some.injEq] at h
    subst h
    exact ⟨rfl, blk, hh⟩
  · cases h

/-- A non-empty handle returned by `handleForObject` refers to a block that exists
and is registered for the object on return. -/
theorem handleForObject_returned_registered {L : Type} (E : Env L) (hE : E.KeepsAddress)
    (live : L) (W : ObjectWrapper) (obj : Ptr) (s : State) (h : ObjectHandle) (s1 : State)
    (hrun : handleForObject E live W obj s = .ok (h, s1)) (b : Nat) (hb : h.d = some b) :
    s1.m_objectToWrapperPrivateMap obj = some b ∧ s1.Alive b := by
  unfold handleForObject at hrun
  by_cases h0 : obj = 0
  · simp only [h0, if_true, Except.ok.injEq, Prod.mk.injEq] at hrun
    rw [← hrun.1] at hb
    cases hb
  · simp only [h0, if_false] at hrun
    cases hm : s.m_objectToWrapperPrivateMap obj with
    | none =>
      simp only [hm] at hrun
      cases hc : create E live W obj s with
      | error e => simp [hc] at hrun
      | ok res =>
        obtain ⟨d, s2⟩ := res
        simp only [hc, Except.ok.injEq, Prod.mk.injEq] at hrun
        obtain ⟨hh, hs⟩ := hrun
        subst hs hh
        exact (create_post E hE live W obj s d s2 hc).2.2 b hb
    | some w =>
      simp only [hm] at hrun
      cases hd : s.deref (s.lock w) with
      | error e => simp [hd] at hrun
      | ok blk =>
        simp only [hd] at hrun
        have key : ∀ s2 : State, s2.m_objectToWrapperPrivateMap = s.m_objectToWrapperPrivateMap →
            (∀ b, s.Alive b → s2.Alive b) → h = ⟨s.lock w⟩ →
            s2.m_objectToWrapperPrivateMap obj = some b ∧ s2.Alive b := by
          intro s2 hmap hal hh
          rw [hh] at hb
          obtain ⟨hwb, halive⟩ := State.alive_of_lock hb
          rw [hmap, hm, hwb]
          exact ⟨rfl, hal b halive⟩
        cases hcpl : blk.isComplete W.cls.id with
        | error e => simp [hcpl] at hrun
        | ok c =>
          cases c with
          | true =>
            simp only [hcpl, Except.ok.injEq, Prod.mk.injEq] at hrun
            obtain ⟨hh, hs⟩ := hrun
            subst hs
            exact key s rfl (fun _ h => h) hh.symm
          | false =>
            simp only [hcpl] at hrun
            cases he : blk.expandCache E live W.cls obj with
            | error e => simp [he] at hrun
            | ok blk1 =>
              simp only [he] at hrun
              by_cases hcd : W.cls.cachingDisabled
              · simp only [hcd, Bool.not_true, Bool.false_eq_true, if_false, Except.ok.injEq,
                  Prod.mk.injEq] at hrun
                obtain ⟨hh, hs⟩ := hrun
                subst hs
                exact key _ (State.store_map _ _ _) (fun _ h => State.store_alive _ _ h) hh.symm
              · simp only [hcd, Bool.not_false, if_true] at hrun
                cases hu : blk1.updateCache E live W.cls.id with
                | error e => simp [hu] at hrun
                | ok blk2 =>
                  simp only [hu, Except.ok.injEq, Prod.mk.injEq] at hrun
                  obtain ⟨hh, hs⟩ := hrun
                  subst hs
                  exact key _ (State.store_map _ _ _) (fun _ h => State.store_alive _ _ h)
                    hh.symm

/-- A non-empty view returned by `viewForObject` refers to a block that exists and
is registered for the object. -/
theorem viewForObject_returned_registered {L : Type} (E : Env L) (C : WrapperClass)
    (obj : Ptr) (s : State) (v : ObjectView) (hrun : viewForObject E C obj s = .ok v)
    (b : Nat) (hb : v.d = some b) :
    s.m_objectToWrapperPrivateMap obj = some b ∧ s.Alive b := by
  unfold viewForObject at hrun
  by_cases h0 : obj = 0
  · simp only [h0, if_true, Except.ok.injEq] at hrun
    rw [← hrun] at hb
    cases hb
  · simp only [h0, if_false] at hrun
    cases hm : s.m_objectToWrapperPrivateMap obj with
    | none =>
      simp only [hm, Except.ok.injEq] at hrun
      rw [← hrun] at hb
      cases hb
    | some w =>
      simp only [hm] at hrun
      cases hd : s.deref (s.lock w) with
      | error e => simp [hd] at hrun
      | ok blk =>
        simp only [hd] at hrun
        cases hcpl : blk.isComplete C.id with
        | error e => simp [hcpl] at hrun
        | ok c =>
          simp only [hcpl] at hrun
          cases ha : Q_ASSERT E.assertsEnabled c with
          | error e => simp [ha] at hrun
          | ok u =>
            simp only [ha] at hrun
            cases c with
            | false =>
              simp only [Bool.not_false, if_true, Except.ok.injEq] at hrun
              rw [← hrun] at hb
              cases hb
            | true =>
              simp only [Bool.not_true, Bool.false_eq_true, if_false, Except.ok.injEq] at hrun
              rw [← hrun] at hb
              obtain ⟨hwb, halive⟩ := State.alive_of_lock hb
              exact ⟨hwb ▸ rfl, halive⟩

/-- Results of a run of registry calls for an object registered with an existing
block are empty or refer to that block. -/
theorem runCalls_registered {L : Type} (E : Env L) (hE : E.KeepsAddress)
    (calls : List (Call L)) :
    ∀ (s : State) (o : Ptr) (b : Nat),
      s.m_objectToWrapperPrivateMap o = some b → s.Alive b →
      ∀ r ∈ runCalls E calls s, r.1 = o → r.2 = none ∨ r.2 = some b := by
  induction calls with
  | nil =>
    intro s o b _ _ r hr
    simp [runCalls] at hr
  | cons c rest ih =>
    intro s o b hreg hb r hr
    cases c with
    | handleFor live W obj =>
      simp only [runCalls] at hr
      cases hrun : handleForObject E live W obj s with
      | error e => simp [hrun] at hr
      | ok res =>
        obtain ⟨h, s1⟩ := res
        simp only [hrun, List.mem_cons] at hr
        obtain ⟨hreg1, hb1, hh⟩ := handleForObject_keeps E hE live W obj s h s1 hrun o b hreg hb
        rcases hr with hr | hr
        · subst hr
          exact hh
        · exact ih s1 o b hreg1 hb1 r hr
    | viewFor C obj =>
      simp only [runCalls] at hr
      cases hrun : viewForObject E C obj s with
      | error e => simp [hrun] at hr
      | ok v =>
        simp only [hrun, List.mem_cons] at hr
        rcases hr with hr | hr
        · subst hr
          intro he
          have he1 : obj = o := he
          exact viewForObject_registered E C obj s v hrun b (he1 ▸ hreg) hb
        · exact ih s o b hreg hb r hr

/-- Any two non-empty results that a run of registry calls returns for one object
refer to the same control block. -/
theorem runCalls_unique {L : Type} (E : Env L) (hE : E.KeepsAddress)
    (calls : List (Call L)) :
    ∀ (s : State) (o : Ptr), ∀ r1 ∈ runCalls E calls s, ∀ r2 ∈ runCalls E calls s,
      r1.1 = o → r2.1 = o → r1.2 ≠ none → r2.2 ≠ none → r1.2 = r2.2 := by
  induction calls with
  | nil =>
    intro s o r1 hr1
    simp [runCalls] at hr1
  | cons c rest ih =>
    intro s o r1 hr1 r2 hr2 h1 h2 hn1 hn2
    -- the state after the first call, and what a non-empty first result implies for it
    have step : ∃ r0 s1, runCalls E (c :: rest) s = r0 :: runCalls E rest s1 ∧
        (∀ b, r0.2 = some b → s1.m_objectToWrapperPrivateMap r0.1 = some b ∧ s1.Alive b) := by
      cases c with
      | handleFor live W obj =>
        simp only [runCalls] at hr1 ⊢
        cases hrun : handleForObject E live W obj s with
        | error e => simp [hrun] at hr1
        | ok res =>
          obtain ⟨h, s1⟩ := res
          exact ⟨(obj, h.d), s1, rfl,
            handleForObject_returned_registered E hE live W obj s h s1 hrun⟩
      | viewFor C obj =>
        simp only [runCalls] at hr1 ⊢
        cases hrun : viewForObject E C obj s with
        | error e => simp [hrun] at hr1
        | ok v =>
          exact ⟨(obj, v.d), s, rfl, viewForObject_returned_registered E C obj s v hrun⟩
    obtain ⟨r0, s1, hrunEq, hpost⟩ := step
    rw [hrunEq] at hr1 hr2
    have tail : ∀ r ∈ runCalls E rest s1, r.1 = o → r.2 ≠ none → r0.1 = o → r0.2 ≠ none →
        r.2 = r0.2 := by
      intro r hr hro hrn h0o h0n
      obtain ⟨b, hb⟩ := Option.ne_none_iff_exists'.1 h0n
      obtain ⟨hreg, hal⟩ := hpost b hb
      rw [h0o] at hreg
      rcases runCalls_registered E hE rest s1 o b hreg hal r hr hro with hh | hh
      · exact absurd hh hrn
      · rw [hh, hb]
    rcases List.mem_cons.1 hr1 with e1 | e1 <;> rcases List.mem_cons.1 hr2 with e2 | e2
    · rw [e1, e2]
    · subst e1
      exact (tail r2 e2 h2 hn2 h1 hn1).symm
    · subst e2
      exact tail r1 e1 h1 hn1 h2 hn2
    · exact ih s1 o r1 e1 r2 e2 h1 h2 hn1 hn2

theorem WrapperObject.construct_d (d : Option Nat) (C : WrapperClass) :
    (WrapperObject.construct C d).d = d := by
  refine WrapperClass.rec
    (motive_1 := fun C => (WrapperObject.construct C d).d = d)
    (motive_2 := fun bs => ∀ b ∈ bs.head?, (WrapperObject.construct b d).d = d)
    ?_ ?_ ?_ C
  · intro i q p c ps bs ih
    cases bs with
    | nil => rfl
    | cons b bs =>
      simp only [WrapperObject.construct, WrapperObject.d, WrapperObject.dOfFirst]
      exact ih b (by simp)
  · intro b hb
    simp at hb
  · intro b bs ihb _ b1 hb1
    simp only [List.head?_cons, Option.mem_def, Option.some.injEq] at hb1
    exact hb1 ▸ ihb

theorem WrapperObject.staticCast_construct (d : Option Nat) (U : TypeId) (C : WrapperClass) :
    (∀ w, WrapperObject.staticCast C (WrapperObject.construct C d) U = some w →
      ∃ X, w = WrapperObject.construct X d) ∧
    ((∃ X ∈ C.hierarchy, X.id = U) →
      ∃ w, WrapperObject.staticCast C (WrapperObject.construct C d) U = some w) := by
  refine WrapperClass.rec
    (motive_1 := fun C =>
      (∀ w, WrapperObject.staticCast C (WrapperObject.construct C d) U = some w →
        ∃ X, w = WrapperObject.construct X d) ∧
      ((∃ X ∈ C.hierarchy, X.id = U) →
        ∃ w, WrapperObject.staticCast C (WrapperObject.construct C d) U = some w))
    (motive_2 := fun bs =>
      (∀ w, WrapperObject.staticCastBases bs (WrapperObject.constructBases bs d) U = some w →
        ∃ X, w = WrapperObject.construct X d) ∧
      ((∃ X ∈ hierarchyOfBases bs, X.id = U) →
        ∃ w, WrapperObject.staticCastBases bs (WrapperObject.constructBases bs d) U = some w))
    ?_ ?_ ?_ C
  · intro i q p c ps bs ih
    by_cases hi : i = U
    · have hs : WrapperObject.staticCast (.mk i q p c ps bs)
          (WrapperObject.construct (.mk i q p c ps bs) d) U =
          some (WrapperObject.construct (.mk i q p c ps bs) d) := by
        simp only [WrapperObject.staticCast, hi, if_true]
      refine ⟨fun w hw => ⟨.mk i q p c ps bs, ?_⟩, fun _ => ⟨_, hs⟩⟩
      rw [hs] at hw
      exact (Option.some.inj hw).symm
    · cases bs with
      | nil =>
        refine ⟨fun w hw => ?_, fun hX => ?_⟩
        · simp [WrapperObject.staticCast, WrapperObject.construct, hi] at hw
        · obtain ⟨X, hX, hXU⟩ := hX
          simp only [WrapperClass.hierarchy, hierarchyOfBases, List.mem_singleton] at hX
          subst hX
          exact absurd hXU hi
      | cons b bs =>
        have hc : WrapperObject.construct (.mk i q p c ps (b :: bs)) d =
            .derived (WrapperObject.constructBases (b :: bs) d) := rfl
        refine ⟨fun w hw => ?_, fun hX => ?_⟩
        · rw [hc] at hw
          simp only [WrapperObject.staticCast, hi, if_false] at hw
          exact ih.1 w hw
        · obtain ⟨X, hX, hXU⟩ := hX
          simp only [WrapperClass.hierarchy, List.mem_cons] at hX
          rcases hX with hX | hX
          · subst hX
            exact absurd hXU hi
          · obtain ⟨w, hw⟩ := ih.2 ⟨X, hX, hXU⟩
            exact ⟨w, by rw [hc]; simp only [WrapperObject.staticCast, hi, if_false, hw]⟩
  · exact ⟨fun w hw => by simp [WrapperObject.staticCastBases] at hw,
      fun hX => by simp [hierarchyOfBases] at hX⟩
  · intro b bs ihb ihbs
    refine ⟨fun w hw => ?_, fun hX => ?_⟩
    · simp only [WrapperObject.constructBases, WrapperObject.staticCastBases] at hw
      cases hb : WrapperObject.staticCast b (WrapperObject.construct b d) U with
      | some r =>
        rw [hb] at hw
        simp only [Option.some.injEq] at hw
        exact ihb.1 w (hw ▸ hb)
      | none =>
        rw [hb] at hw
        exact ihbs.1 w hw
    · simp only [WrapperObject.constructBases, WrapperObject.staticCastBases]
      cases hb : WrapperObject.staticCast b (WrapperObject.construct b d) U with
      | some r => exact ⟨r, rfl⟩
      | none =>
        obtain ⟨X, hX, hXU⟩ := hX
        simp only [hierarchyOfBases, List.mem_append] at hX
        rcases hX with hX | hX
        · obtain ⟨w, hw⟩ := ihb.2 ⟨X, hX, hXU⟩
          rw [hb] at hw
          cases hw
        · exact ihbs.2 ⟨X, hX, hXU⟩

theorem subclassFactoryLoop_nonpolymorphic {L : Type} (E : Env L) (live : L)
    (B : WrapperClass) (hB : B.polymorphic = false) (o : Ptr) (s : State)
    (fs : List ObjectWrapper) : subclassFactoryLoop E live B fs o s = .ok (none, s) := by
  refine subclassFactoryLoop_none E live B o s fs (fun G _ => ?_)
  simp [createFromBase, downcast, hB]

theorem isComplete_false_of_not_mem {d : ObjectWrapperPrivate} {o : Ptr} {C : WrapperClass}
    {T : TypeId} (h : d.m_cache.IsCacheOf o C) (hT : ∀ X ∈ C.hierarchy, X.id ≠ T) :
    d.isComplete T = .ok false := by
  obtain ⟨r, hr, hcase⟩ := cache_of_isCacheOf o T d.m_cache C h
  have hnull : r = .null := by
    by_contra hne
    have hmem := mem_nodeIds_of_cache T d.m_cache r hr hne
    rw [nodeIds_of_isCacheOf o d.m_cache C h, List.mem_map] at hmem
    obtain ⟨X, hX, hXT⟩ := hmem
    exact hT X hX hXT
  subst hnull
  simp [ObjectWrapperPrivate.isComplete, hr, PropertyCache.isNull]

theorem createOwn_block {L : Type} (E : Env L) (live : L) (C : WrapperClass) {o : Ptr}
    (ho : o ≠ 0) (s : State) :
    ∃ s1 blk, createOwn E live C o s = .ok (some s.heap.length, s1) ∧
      s1.heap[s.heap.length]? = some (some blk) ∧ blk.m_cache.IsCacheOf o C ∧
      blk.semaphore = 1 ∧
      (C.cachingDisabled = false → blk.m_cache.Fresh E live) := by
  have hmk := makeCache_isCacheOf o C
  obtain ⟨d1, hd1, hc1, hs1⟩ := connect_of_found E live ho C ⟨makeCache C o, [], 1⟩
    (fun X hX => found_of_mem_hierarchy hmk hX)
  have hc1 : d1.m_cache = makeCache C o := hc1
  have hs1 : d1.semaphore = 1 := hs1
  unfold createOwn
  simp only [hd1, State.alloc]
  by_cases hcd : C.cachingDisabled
  · simp only [hcd, Bool.not_true, Bool.false_eq_true, if_false]
    refine ⟨_, d1, rfl, by simp [State.insert], hc1 ▸ hmk, hs1, fun h => by cases h⟩
  · simp only [hcd, Bool.not_false, if_true]
    obtain ⟨t1, ht1, hC1, hF1⟩ := updateCache_root E live ho (hc1 ▸ hmk : d1.m_cache.IsCacheOf o C)
    simp only [ht1]
    refine ⟨_, { d1 with m_cache := t1 }, rfl, ?_, hC1, hs1, fun _ => hF1⟩
    simp [State.insert, State.store]

theorem fromBaseclassCache_firstBase (dbg : Bool) (o : Ptr) (t : PropertyCache)
    (R : WrapperClass) (ht : t.IsCacheOf o R) (C : WrapperClass) :
    Expandable t C → ∀ t1, fromBaseclassCache dbg C o t = .ok t1 →
      ∃ k : Nat, PropertyCache.firstBase^[k] t1 = t := by
  refine WrapperClass.rec
    (motive_1 := fun C => Expandable t C → ∀ t1, fromBaseclassCache dbg C o t = .ok t1 →
      ∃ k : Nat, PropertyCache.firstBase^[k] t1 = t)
    (motive_2 := fun bs => ∀ b ∈ bs.head?, Expandable t b →
      ∀ t1, fromBaseclassCache dbg b o t = .ok t1 →
        ∃ k : Nat, PropertyCache.firstBase^[k] t1 = t)
    ?_ ?_ ?_ C
  · intro i q p c ps bs ih hE t1 h1
    cases bs with
    | nil =>
      simp only [Expandable] at hE
      have hA := isA_of_isCacheOf (isCacheOf_of_cls ht hE)
      simp only [WrapperClass.id] at hA
      simp only [fromBaseclassCache, Q_ASSERT, hA, Bool.not_true, Bool.and_false,
        Bool.false_eq_true, if_false, Except.ok.injEq] at h1
      exact ⟨0, h1 ▸ rfl⟩
    | cons b bs =>
      simp only [Expandable] at hE
      rcases hE with hE | ⟨hnull, hE⟩
      · have hA := isA_of_isCacheOf (isCacheOf_of_cls ht hE)
        simp only [WrapperClass.id] at hA
        simp only [fromBaseclassCache, hA, if_true, Except.ok.injEq] at h1
        exact ⟨0, h1 ▸ rfl⟩
      · obtain ⟨tb, htb, hCb, _⟩ := fromBaseclassCache_of_expandable dbg o t R ht b hE
        obtain ⟨k, hk⟩ := ih b (by simp) hE tb htb
        have hA := not_isA_of_cache_null hnull
        have hcast : dynamic_pointer_cast b.id tb = tb := by
          simp [dynamic_pointer_cast, isA_of_isCacheOf hCb]
        simp only [fromBaseclassCache, hA, Bool.false_eq_true, if_false, htb,
          moveAndCreateBaseclassCaches, hcast, Except.ok.injEq] at h1
        refine ⟨k + 1, ?_⟩
        rw [Function.iterate_succ_apply, ← h1]
        exact hk
  · intro b hb
    simp at hb
  · intro b bs ihb _ b1 hb1
    simp only [List.head?_cons, Option.mem_def, Option.some.injEq] at hb1
    exact hb1 ▸ ihb

theorem firstOfList_isA (type : TypeId) (l : List PropertyCache)
    (h : firstOfList type l ≠ .null) : (firstOfList type l).isA type = true := by
  unfold firstOfList at h ⊢
  cases hf : l.find? (fun n => n.isA type) with
  | none => rw [hf] at h; exact absurd rfl h
  | some n =>
    have hn := List.find?_some hf
    exact hn

theorem firstOfList_append (type : TypeId) (l r : List PropertyCache) :
    firstOfList type (l ++ r) =
      if (firstOfList type l).isNull then firstOfList type r else firstOfList type l := by
  unfold firstOfList
  rw [List.find?_append]
  cases hf : l.find? (fun n => n.isA type) with
  | none => simp [PropertyCache.isNull]
  | some n =>
    have hn := List.find?_some hf
    cases n with
    | null => simp [PropertyCache.isA] at hn
    | node _ _ _ _ => simp [PropertyCache.isNull]

theorem cache_eq_firstOfType (type : TypeId) (t : PropertyCache) :
    t.hasNoNull = true → t.cache type = .ok (t.firstOfType type) := by
  refine PropertyCache.rec
    (motive_1 := fun t => t.hasNoNull = true → t.cache type = .ok (t.firstOfType type))
    (motive_2 := fun bs => basesHaveNoNull bs = true →
      getCacheFromBases bs type = .ok (firstOfList type (subtreesOfBases bs)))
    ?_ ?_ ?_ ?_ t
  · intro h
    simp [PropertyCache.hasNoNull] at h
  · intro cls ds bs o ih h
    simp only [PropertyCache.hasNoNull] at h
    by_cases hc : cls.id = type
    · simp [PropertyCache.cache, hc, PropertyCache.firstOfType, PropertyCache.subtrees,
        firstOfList, PropertyCache.isA]
    · simp only [PropertyCache.cache, hc, if_false, ih h, PropertyCache.firstOfType,
        PropertyCache.subtrees]
      simp [firstOfList, PropertyCache.isA, hc]
  · intro _
    simp [getCacheFromBases, subtreesOfBases, firstOfList]
  · intro c cs ihc ihcs h
    simp only [basesHaveNoNull, Bool.and_eq_true] at h
    have hcc := ihc h.1
    simp only [PropertyCache.firstOfType] at hcc
    simp only [getCacheFromBases, hcc, subtreesOfBases, firstOfList_append]
    cases hr : firstOfList type c.subtrees with
    | null => simp [PropertyCache.isNull, ihcs h.2]
    | node _ _ _ _ => simp [PropertyCache.isNull]

theorem mem_nodeIds_iff_subtrees (type : TypeId) (t : PropertyCache) :
    type ∈ t.nodeIds ↔ ∃ n ∈ t.subtrees, n.isA type = true := by
  refine PropertyCache.rec
    (motive_1 := fun t => type ∈ t.nodeIds ↔ ∃ n ∈ t.subtrees, n.isA type = true)
    (motive_2 := fun bs =>
      type ∈ nodeIdsOfBases bs ↔ ∃ n ∈ subtreesOfBases bs, n.isA type = true)
    ?_ ?_ ?_ ?_ t
  · simp [PropertyCache.nodeIds, PropertyCache.subtrees]
  · intro cls ds bs o ih
    simp only [PropertyCache.nodeIds, PropertyCache.subtrees, List.mem_cons, ih,
      exists_eq_or_imp, PropertyCache.isA, beq_iff_eq]
    constructor
    · rintro (h | h)
      · exact Or.inl h.symm
      · exact Or.inr h
    · rintro (h | h)
      · exact Or.inl h.symm
      · exact Or.inr h
  · simp [nodeIdsOfBases, subtreesOfBases]
  · intro c cs ihc ihcs
    simp only [nodeIdsOfBases, subtreesOfBases, List.mem_append, ihc, ihcs]
    constructor
    · rintro (⟨n, hn, hA⟩ | ⟨n, hn, hA⟩)
      · exact ⟨n, Or.inl hn, hA⟩
      · exact ⟨n, Or.inr hn, hA⟩
    · rintro ⟨n, hn | hn, hA⟩
      · exact Or.inl ⟨n, hn, hA⟩
      · exact Or.inr ⟨n, hn, hA⟩

theorem firstOfList_ne_null_iff (type : TypeId) (l : List PropertyCache) :
    firstOfList type l ≠ .null ↔ ∃ n ∈ l, n.isA type = true := by
  unfold firstOfList
  cases hf : l.find? (fun n => n.isA type) with
  | none =>
    simp only [ne_eq, not_true_eq_false, false_iff, not_exists, not_and]
    intro n hn
    exact (List.find?_eq_none.1 hf) n hn
  | some n =>
    have hn := List.find?_some hf
    have hmem := List.mem_of_find?_eq_some hf
    constructor
    · intro _
      exact ⟨n, hmem, hn⟩
    · intro _ h
      subst h
      simp [PropertyCache.isA] at hn

theorem firstOfList_bases (type : TypeId) (bs : List PropertyCache) :
    firstOfList type (subtreesOfBases bs) =
      firstNonNull (bs.map (fun c => c.firstOfType type)) := by
  induction bs with
  | nil => rfl
  | cons c cs ih =>
    simp only [subtreesOfBases, firstOfList_append, List.map_cons, firstNonNull,
      List.find?_cons]
    cases hr : firstOfList type c.subtrees with
    | null =>
      simp only [PropertyCache.firstOfType, hr, PropertyCache.isNull, if_true, ih, firstNonNull,
        Bool.not_true]
    | node _ _ _ _ =>
      simp only [PropertyCache.firstOfType, hr, PropertyCache.isNull, Bool.false_eq_true,
        if_false, Bool.not_false]

theorem fresh_subtrees {L : Type} (E : Env L) (live : L) (t : PropertyCache) :
    t.Fresh E live → ∀ m ∈ t.subtrees, ∀ cls ds bs o, m = .node cls ds bs o →
      ds = liveData E live cls o 255 := by
  refine PropertyCache.rec
    (motive_1 := fun t => t.Fresh E live → ∀ m ∈ t.subtrees, ∀ cls ds bs o,
      m = .node cls ds bs o → ds = liveData E live cls o 255)
    (motive_2 := fun bs => FreshBases E live bs → ∀ m ∈ subtreesOfBases bs, ∀ cls ds bs1 o,
      m = .node cls ds bs1 o → ds = liveData E live cls o 255)
    ?_ ?_ ?_ ?_ t
  · intro _ m hm
    simp [PropertyCache.subtrees] at hm
  · intro cls ds bs o ih hF m hm cls1 ds1 bs1 o1 he
    simp only [PropertyCache.Fresh] at hF
    simp only [PropertyCache.subtrees, List.mem_cons] at hm
    rcases hm with hm | hm
    · rw [hm] at he
      cases he
      exact hF.1
    · exact ih hF.2 m hm cls1 ds1 bs1 o1 he
  · intro _ m hm
    simp [subtreesOfBases] at hm
  · intro c cs ihc ihcs hF m hm
    simp only [FreshBases] at hF
    simp only [subtreesOfBases, List.mem_append] at hm
    rcases hm with hm | hm
    · exact ihc hF.1 m hm
    · exact ihcs hF.2 m hm

theorem hierarchy_eq (C : WrapperClass) : C.hierarchy = C :: hierarchyOfBases C.bases := by
  cases C
  rfl

theorem isCacheOf_subtrees (o : Ptr) (t : PropertyCache) :
    ∀ C, t.IsCacheOf o C → ∀ m ∈ t.subtrees, ∃ X ∈ C.hierarchy, m.IsCacheOf o X := by
  refine PropertyCache.rec
    (motive_1 := fun t => ∀ C, t.IsCacheOf o C →
      ∀ m ∈ t.subtrees, ∃ X ∈ C.hierarchy, m.IsCacheOf o X)
    (motive_2 := fun bs => ∀ Bs, AreCachesOf o bs Bs →
      ∀ m ∈ subtreesOfBases bs, ∃ X ∈ hierarchyOfBases Bs, m.IsCacheOf o X)
    ?_ ?_ ?_ ?_ t
  · intro C _ m hm
    simp [PropertyCache.subtrees] at hm
  · intro cls ds bs o1 ih C hC m hm
    simp only [PropertyCache.subtrees, List.mem_cons] at hm
    rcases hm with hm | hm
    · exact ⟨C, self_mem_hierarchy C, hm ▸ hC⟩
    · simp only [PropertyCache.IsCacheOf] at hC
      obtain ⟨X, hX, hmX⟩ := ih C.bases hC.2.2 m hm
      exact ⟨X, by rw [hierarchy_eq]; exact List.mem_cons_of_mem _ hX, hmX⟩
  · intro Bs _ m hm
    simp [subtreesOfBases] at hm
  · intro c cs ihc ihcs Bs hBs m hm
    cases Bs with
    | nil => simp [AreCachesOf] at hBs
    | cons B Bs =>
      simp only [AreCachesOf] at hBs
      simp only [subtreesOfBases, List.mem_append] at hm
      simp only [hierarchyOfBases, List.mem_append]
      rcases hm with hm | hm
      · obtain ⟨X, hX, hmX⟩ := ihc B hBs.1 m hm
        exact ⟨X, Or.inl hX, hmX⟩
      · obtain ⟨X, hX, hmX⟩ := ihcs Bs hBs.2 m hm
        exact ⟨X, Or.inr hX, hmX⟩

theorem tupleSize_eq (declared : List Nat) (j : Nat)
    (h : ∀ c, c ∈ declared ↔ 1 ≤ c ∧ c ≤ j) : ∀ k, tupleSize declared k = min k j := by
  intro k
  induction k with
  | zero => simp [tupleSize]
  | succ k ih =>
    simp only [tupleSize, h, ih]
    by_cases hk : k + 1 ≤ j
    · simp [hk, Nat.min_eq_left hk, Nat.min_eq_left (Nat.le_of_succ_le hk)]
    · have hjk : j ≤ k := Nat.le_of_lt_succ (Nat.lt_of_not_le hk)
      simp [hk, Nat.min_eq_right hjk, Nat.min_eq_right (Nat.le_succ_of_le hjk)]

theorem W_COUNTER_eq (ps : List PropDecl) :
    ∀ (declared : List Nat) (j : Nat), (∀ c, c ∈ declared ↔ 1 ≤ c ∧ c ≤ j) →
      j + ps.length ≤ 255 → W_COUNTER ps declared = List.range' (j + 1) ps.length := by
  induction ps with
  | nil => intro _ _ _ _; rfl
  | cons p ps ih =>
    intro declared j h hlen
    simp only [List.length_cons] at hlen
    have hc : DEFINE_COUNTER declared = j + 1 := by
      simp only [DEFINE_COUNTER, tupleSize_eq declared j h]
      rw [Nat.min_eq_right (by omega)]
    simp only [W_COUNTER, hc, List.length_cons, List.range'_succ]
    congr 1
    refine ih ((j + 1) :: declared) (j + 1) ?_ (by omega)
    intro c
    simp only [List.mem_cons, h]
    omega

theorem metadata_eq (cls : WrapperClass) (k : Nat) :
    __metadata cls k =
      ((cls.props.take k).map (fun p => MetaObjectCall.addProperty p.name)).reverse := by
  induction k with
  | zero => simp [__metadata]
  | succ k ih =>
    simp only [__metadata, ih]
    cases hp : cls.props[k]? with
    | none =>
      have hk : cls.props.length ≤ k := by
        rcases Nat.lt_or_ge k cls.props.length with hlt | hge
        · rw [List.getElem?_eq_getElem hlt] at hp
          cases hp
        · exact hge
      simp only [List.take_of_length_le hk, List.take_of_length_le (Nat.le_succ_of_le hk)]
    | some p =>
      have hk : k < cls.props.length := by
        rcases Nat.lt_or_ge k cls.props.length with hlt | hge
        · exact hlt
        · rw [List.getElem?_eq_none hge] at hp
          cases hp
      have hp1 : cls.props[k] = p := by
        rw [List.getElem?_eq_getElem hk] at hp
        exact Option.some.inj hp
      rw [List.take_succ, hp]
      simp [hp1]

theorem appendBaseclassMetaObjects_eq (bs : List WrapperClass) :
    appendBaseclassMetaObjects bs = bs.map (fun b => MetaObjectCall.addBaseClass b.id) := by
  induction bs with
  | nil => rfl
  | cons b bs ih => simp [appendBaseclassMetaObjects, ih]

theorem makeCache_hasNoNull (C : WrapperClass) : ∀ o, (makeCache C o).hasNoNull = true := by
  refine WrapperClass.rec
    (motive_1 := fun C => ∀ o, (makeCache C o).hasNoNull = true)
    (motive_2 := fun bs => ∀ o, basesHaveNoNull (makeCaches bs o) = true)
    ?_ ?_ ?_ C
  · intro i q p c ps bs ih o
    simp only [makeCache, PropertyCache.hasNoNull]
    exact ih o
  · intro o
    rfl
  · intro b bs ihb ihbs o
    simp only [makeCaches, basesHaveNoNull, ihb o, ihbs o, Bool.and_self]

theorem subtrees_ne_null (t : PropertyCache) : ∀ m ∈ t.subtrees, m ≠ .null := by
  refine PropertyCache.rec
    (motive_1 := fun t => ∀ m ∈ t.subtrees, m ≠ .null)
    (motive_2 := fun bs => ∀ m ∈ subtreesOfBases bs, m ≠ .null)
    ?_ ?_ ?_ ?_ t
  · intro m hm
    simp [PropertyCache.subtrees] at hm
  · intro cls ds bs o ih m hm
    simp only [PropertyCache.subtrees, List.mem_cons] at hm
    rcases hm with hm | hm
    · rw [hm]
      intro h
      cases h
    · exact ih m hm
  · intro m hm
    simp [subtreesOfBases] at hm
  · intro c cs ihc ihcs m hm
    simp only [subtreesOfBases, List.mem_append] at hm
    rcases hm with hm | hm
    · exact ihc m hm
    · exact ihcs m hm

theorem nodeIds_eq_map_subtrees (t : PropertyCache) :
    t.nodeIds = t.subtrees.map PropertyCache.typeId := by
  refine PropertyCache.rec
    (motive_1 := fun t => t.nodeIds = t.subtrees.map PropertyCache.typeId)
    (motive_2 := fun bs => nodeIdsOfBases bs = (subtreesOfBases bs).map PropertyCache.typeId)
    ?_ ?_ ?_ ?_ t
  · rfl
  · intro cls ds bs o ih
    simp only [PropertyCache.nodeIds, PropertyCache.subtrees, List.map_cons,
      PropertyCache.typeId, ih]
  · rfl
  · intro c cs ihc ihcs
    simp only [nodeIdsOfBases, subtreesOfBases, List.map_append, ihc, ihcs]

theorem isA_iff_typeId {n : PropertyCache} (hn : n ≠ .null) (T : TypeId) :
    n.isA T = true ↔ n.typeId = T := by
  cases n with
  | null => exact absurd rfl hn
  | node cls ds bs o => simp [PropertyCache.isA, PropertyCache.typeId]

theorem firstOfList_of_nodup (l : List PropertyCache) :
    (l.map PropertyCache.typeId).Nodup → (∀ x ∈ l, x ≠ .null) →
      ∀ m ∈ l, firstOfList m.typeId l = m := by
  induction l with
  | nil => intro _ _ m hm; cases hm
  | cons a l ih =>
    intro hnd hnn m hm
    simp only [List.map_cons, List.nodup_cons] at hnd
    have ha : a ≠ .null := hnn a (List.mem_cons_self a l)
    have hfirst : ∀ T, firstOfList T (a :: l) = if a.isA T then a else firstOfList T l := by
      intro T
      simp only [firstOfList, List.find?_cons]
      cases a.isA T <;> rfl
    rw [hfirst]
    simp only [List.mem_cons] at hm
    rcases hm with hm | hm
    · rw [hm, (isA_iff_typeId ha a.typeId).2 rfl]
      rfl
    · have hne : a.isA m.typeId = false := by
        cases h : a.isA m.typeId with
        | false => rfl
        | true =>
          have := (isA_iff_typeId ha m.typeId).1 h
          exact absurd (this ▸ List.mem_map_of_mem PropertyCache.typeId hm) hnd.1
      rw [hne]
      exact ih hnd.2 (fun x hx => hnn x (List.mem_cons_of_mem a hx)) m hm

theorem connectToUpdates_eq {L : Type} (E : Env L) (live : L) {d : ObjectWrapperPrivate}
    {o : Ptr} (ho : o ≠ 0) (cls : WrapperClass) (k : Nat) (p : PropDecl)
    (h : d.m_cache.Found o cls.id) :
    d.connectToUpdates E live cls k p =
      .ok (if p.flags &&& QProp = 0 ∨ E.hasNotifySignal live o p.name = false then d
        else { d with connections := d.connections ++ [⟨cls.id, k, o⟩] }) := by
  obtain ⟨r, C, hr, hC, _⟩ := h
  obtain ⟨ds, bs, rfl, _⟩ := isCacheOf_node hC
  unfold ObjectWrapperPrivate.connectToUpdates
  by_cases hq : p.flags &&& QProp = 0
  · simp only [hq, if_true, true_or]
  · simp only [hq, if_false, ObjectWrapperPrivate.cache, hr, Q_ASSERT, PropertyCache.isNull,
      Bool.not_false, Bool.not_true, Bool.and_false, ho, false_or]
    by_cases hn : E.hasNotifySignal live o p.name
    · simp [hn, ho]
    · simp [hn, ho]

theorem connectProps_eq {L : Type} (E : Env L) (live : L) {o : Ptr} (ho : o ≠ 0)
    (cls : WrapperClass) (k : Nat) :
    ∀ d : ObjectWrapperPrivate, d.m_cache.Found o cls.id →
      connectProps E live cls k d =
        .ok { d with connections := d.connections ++ propConnections E live cls o k } := by
  induction k with
  | zero =>
    intro d _
    cases d
    simp [connectProps, propConnections]
  | succ k ih =>
    intro d h
    cases d with
    | mk m cs sem =>
      simp only [connectProps, propConnections]
      cases hp : cls.props[k]? with
      | none => exact ih _ h
      | some p =>
        by_cases hk : p.kind = .custom
        · simp only [hk, if_true, true_or]
          exact ih _ h
        · simp only [hk, if_false, false_or]
          rw [connectToUpdates_eq E live ho cls k p h]
          by_cases hc : p.flags &&& QProp = 0 ∨ E.hasNotifySignal live o p.name = false
          · simp only [hc, if_true]
            exact ih _ h
          · simp only [hc, if_false]
            have h1 := ih ⟨m, cs ++ [⟨cls.id, k, o⟩], sem⟩ h
            rw [h1]
            simp

theorem connect_eq {L : Type} (E : Env L) (live : L) {o : Ptr} (ho : o ≠ 0)
    (C : WrapperClass) :
    ∀ d : ObjectWrapperPrivate, (∀ X ∈ C.hierarchy, d.m_cache.Found o X.id) →
      __connectToUpdates E live C d =
        .ok { d with connections := d.connections ++ subscriptionsOf E live o C } := by
  refine WrapperClass.rec
    (motive_1 := fun C => ∀ d : ObjectWrapperPrivate,
      (∀ X ∈ C.hierarchy, d.m_cache.Found o X.id) →
      __connectToUpdates E live C d =
        .ok { d with connections := d.connections ++ subscriptionsOf E live o C })
    (motive_2 := fun bs => ∀ d : ObjectWrapperPrivate,
      (∀ X ∈ hierarchyOfBases bs, d.m_cache.Found o X.id) →
      connectBases E live bs d =
        .ok { d with connections := d.connections ++ subscriptionsOfBases E live o bs })
    ?_ ?_ ?_ C
  · intro i q p c ps bs ih d h
    simp only [WrapperClass.hierarchy, List.mem_cons, forall_eq_or_imp] at h
    simp only [__connectToUpdates, connectProps_eq E live ho (.mk i q p c ps bs) 255 d h.1]
    have h1 := ih { d with connections :=
      d.connections ++ propConnections E live (.mk i q p c ps bs) o 255 }
      (fun X hX => h.2 X hX)
    rw [h1]
    simp [subscriptionsOf]
  · intro d _
    cases d
    simp [connectBases, subscriptionsOfBases]
  · intro b bs ihb ihbs d h
    simp only [hierarchyOfBases, List.mem_append] at h
    simp only [connectBases, ihb d (fun X hX => h X (Or.inl hX))]
    have h1 := ihbs { d with connections := d.connections ++ subscriptionsOf E live o b }
      (fun X hX => h X (Or.inr hX))
    rw [h1]
    simp [subscriptionsOfBases]

theorem subscriptionsOf_subset {L : Type} (E : Env L) (live : L) (o : Ptr) (C : WrapperClass) :
    ∀ X ∈ C.hierarchy, subscriptionsOf E live o X ⊆ subscriptionsOf E live o C := by
  refine WrapperClass.rec
    (motive_1 := fun C => ∀ X ∈ C.hierarchy,
      subscriptionsOf E live o X ⊆ subscriptionsOf E live o C)
    (motive_2 := fun bs => ∀ X ∈ hierarchyOfBases bs,
      subscriptionsOf E live o X ⊆ subscriptionsOfBases E live o bs)
    ?_ ?_ ?_ C
  · intro i q p c ps bs ih X hX
    simp only [WrapperClass.hierarchy, List.mem_cons] at hX
    rcases hX with hX | hX
    · subst hX
      exact fun _ h => h
    · intro x hx
      simp only [subscriptionsOf, List.mem_append]
      exact Or.inr (ih X hX hx)
  · intro X hX
    simp [hierarchyOfBases] at hX
  · intro b bs ihb ihbs X hX
    simp only [hierarchyOfBases, List.mem_append] at hX
    intro x hx
    simp only [subscriptionsOfBases, List.mem_append]
    rcases hX with hX | hX
    · exact Or.inl (ihb X hX hx)
    · exact Or.inr (ihbs X hX hx)

theorem expandable_mem_hierarchy {o : Ptr} {t : PropertyCache} {R : WrapperClass}
    (ht : t.IsCacheOf o R) (C : WrapperClass) : Expandable t C → R ∈ C.hierarchy := by
  have hcls : t.cls? = some R := by
    obtain ⟨ds, bs, rfl, _⟩ := isCacheOf_node ht
    rfl
  refine WrapperClass.rec
    (motive_1 := fun C => Expandable t C → R ∈ C.hierarchy)
    (motive_2 := fun bs => ∀ b ∈ bs.head?, Expandable t b → R ∈ b.hierarchy)
    ?_ ?_ ?_ C
  · intro i q p c ps bs ih hE
    cases bs with
    | nil =>
      simp only [Expandable, hcls, Option.some.injEq] at hE
      exact hE ▸ self_mem_hierarchy R
    | cons b bs =>
      simp only [Expandable, hcls, Option.some.injEq] at hE
      rcases hE with hE | ⟨_, hE⟩
      · exact hE ▸ self_mem_hierarchy R
      · have hb := ih b (by simp) hE
        simp only [WrapperClass.hierarchy, hierarchyOfBases, List.mem_cons, List.mem_append]
        exact Or.inr (Or.inl hb)
  · intro b hb
    simp at hb
  · intro b bs ihb _ b1 hb1
    simp only [List.head?_cons, Option.mem_def, Option.some.injEq] at hb1
    exact hb1 ▸ ihb

theorem fromBaseclassCache_root (dbg : Bool) {o : Ptr} {t : PropertyCache} {T : WrapperClass}
    (ht : t.IsCacheOf o T) (obj : Ptr) : fromBaseclassCache dbg T obj t = .ok t := by
  have hA := isA_of_isCacheOf ht
  cases T with
  | mk i q p c ps bs =>
    simp only [WrapperClass.id] at hA
    cases bs with
    | nil => simp [fromBaseclassCache, Q_ASSERT, hA]
    | cons b bs => simp [fromBaseclassCache, hA]

theorem fromBaseclassCache_asserts (o : Ptr) (t : PropertyCache) (T : WrapperClass) :
    (∀ X ∈ T.hierarchy, t.isA X.id = false) →
      fromBaseclassCache true T o t = .error .assertion := by
  refine WrapperClass.rec
    (motive_1 := fun T => (∀ X ∈ T.hierarchy, t.isA X.id = false) →
      fromBaseclassCache true T o t = .error .assertion)
    (motive_2 := fun bs => ∀ b ∈ bs.head?, (∀ X ∈ b.hierarchy, t.isA X.id = false) →
      fromBaseclassCache true b o t = .error .assertion)
    ?_ ?_ ?_ T
  · intro i q p c ps bs ih h
    have hi : t.isA i = false := h _ (self_mem_hierarchy _)
    cases bs with
    | nil => simp [fromBaseclassCache, Q_ASSERT, hi]
    | cons b bs =>
      have hb := ih b (by simp) (fun X hX => h X (by
        simp only [WrapperClass.hierarchy, hierarchyOfBases, List.mem_cons, List.mem_append]
        exact Or.inr (Or.inl hX)))
      simp [fromBaseclassCache, hi, hb]
  · intro b hb
    simp at hb
  · intro b bs ihb _ b1 hb1
    simp only [List.head?_cons, Option.mem_def, Option.some.injEq] at hb1
    exact hb1 ▸ ihb

theorem replace_replace (T : TypeId) (n n1 : PropertyCache) (hn : n.isA T = true)
    (t : PropertyCache) :
    ∀ cls ds bs o, t.cache T = .ok (.node cls ds bs o) →
      (t.replace T n).replace T n1 = t.replace T n1 := by
  have hnr : n.replace T n1 = n1 := by
    cases n with
    | null => simp [PropertyCache.isA] at hn
    | node c d b o =>
      simp only [PropertyCache.isA, beq_iff_eq] at hn
      simp [PropertyCache.replace, hn]
  refine PropertyCache.rec
    (motive_1 := fun t => ∀ cls ds bs o, t.cache T = .ok (.node cls ds bs o) →
      (t.replace T n).replace T n1 = t.replace T n1)
    (motive_2 := fun cs => ∀ cls ds bs o, getCacheFromBases cs T = .ok (.node cls ds bs o) →
      replaceInBases (replaceInBases cs T n) T n1 = replaceInBases cs T n1)
    ?_ ?_ ?_ ?_ t
  · intro cls ds bs o h
    simp [PropertyCache.cache] at h
  · intro cls0 ds0 bs0 o0 ih cls ds bs o h
    simp only [PropertyCache.cache] at h
    by_cases hid : cls0.id = T
    · simp only [PropertyCache.replace, hid, if_true]
      exact hnr
    · simp only [hid, if_false] at h
      simp only [PropertyCache.replace, hid, if_false]
      rw [ih cls ds bs o h]
  · intro cls ds bs o h
    simp [getCacheFromBases] at h
  · intro c cs ihc ihcs cls ds bs o h
    simp only [getCacheFromBases] at h
    cases hc : c.cache T with
    | error e => simp [hc] at h
    | ok r =>
      cases r with
      | null =>
        simp only [hc] at h
        simp only [replaceInBases, hc]
        rw [ihcs cls ds bs o h]
      | node cls1 ds1 bs1 o1 =>
        have hrc := cache_replace T n hn c cls1 ds1 bs1 o1 hc
        cases n with
        | null => simp [PropertyCache.isA] at hn
        | node nc nd nb no =>
          simp only [replaceInBases, hc, hrc]
          rw [ihc cls1 ds1 bs1 o1 hc]

theorem notifyFunctor_ok {L : Type} (E : Env L) (live : L) (cls : WrapperClass) (i F : Nat)
    (b : Nat) (s : State) (blk : ObjectWrapperPrivate) (c : WrapperClass) (ds : List Value)
    (bs : List PropertyCache) (o : Ptr)
    (hblk : s.heap[b]? = some (some blk)) (hsem : blk.semaphore ≠ 0)
    (hnode : blk.m_cache.cache cls.id = .ok (.node c ds bs o)) (ho : o ≠ 0)
    (hi : i < ds.length) :
    notifyFunctor E live cls i F b s =
      .ok (s.store (some b) { blk with m_cache := (blk.m_cache.replace cls.id
        (.node c (ds.set i (wrapPhase1 F (E.fetch live o cls.id i))) bs o)) }) := by
  obtain ⟨blkA, hA, hrel, hcA, hconn⟩ := release_acquire blk hsem
  have hlock : s.lock b = some b := State.lock_of_alive ⟨blk, hblk⟩
  have hderef : s.deref (some b) = .ok blk := by simp [State.deref, hblk]
  have hobj : blkA.object E cls.id = .ok o := by
    simp [ObjectWrapperPrivate.object, ObjectWrapperPrivate.cache, hcA, hnode, Q_ASSERT,
      PropertyCache.isNull, PropertyCache.m_object]
  have hset : blkA.setSlot E cls.id i (wrapPhase1 F (E.fetch live o cls.id i)) = .ok
      { blkA with m_cache := (blk.m_cache.replace cls.id
        (.node c (ds.set i (wrapPhase1 F (E.fetch live o cls.id i))) bs o)) } := by
    simp [ObjectWrapperPrivate.setSlot, ObjectWrapperPrivate.cache, hcA, hnode, Q_ASSERT,
      PropertyCache.isNull, hi]
  have hrel2 : ({ blkA with m_cache := (blk.m_cache.replace cls.id
        (.node c (ds.set i (wrapPhase1 F (E.fetch live o cls.id i))) bs o)) } :
        ObjectWrapperPrivate).release =
      { blk with m_cache := (blk.m_cache.replace cls.id
        (.node c (ds.set i (wrapPhase1 F (E.fetch live o cls.id i))) bs o)) } := by
    rw [← hrel]
    rfl
  simp only [notifyFunctor, hlock, hderef, hA, hobj, fetchLive, ho, if_false, hset, hrel2]

theorem refresh_property_ok {L : Type} (E : Env L) (live : L) (cls : WrapperClass) (i F : Nat)
    (b : Nat) (s : State) (blk : ObjectWrapperPrivate) (c : WrapperClass) (ds : List Value)
    (bs : List PropertyCache) (o : Ptr)
    (hblk : s.heap[b]? = some (some blk)) (hsem : blk.semaphore ≠ 0)
    (hnode : blk.m_cache.cache cls.id = .ok (.node c ds bs o)) (ho : o ≠ 0)
    (hi : i < ds.length) :
    refresh_property E live cls i F (some b) s =
      if cls.cachingDisabled then .ok s else notifyFunctor E live cls i F b s := by
  rw [notifyFunctor_ok E live cls i F b s blk c ds bs o hblk hsem hnode ho hi]
  obtain ⟨blkA, hA, hrel, hcA, hconn⟩ := release_acquire blk hsem
  have hderef : s.deref (some b) = .ok blk := by simp [State.deref, hblk]
  have hobj : blkA.object E cls.id = .ok o := by
    simp [ObjectWrapperPrivate.object, ObjectWrapperPrivate.cache, hcA, hnode, Q_ASSERT,
      PropertyCache.isNull, PropertyCache.m_object]
  have hset : blkA.setSlot E cls.id i (wrapPhase1 F (E.fetch live o cls.id i)) = .ok
      { blkA with m_cache := (blk.m_cache.replace cls.id
        (.node c (ds.set i (wrapPhase1 F (E.fetch live o cls.id i))) bs o)) } := by
    simp [ObjectWrapperPrivate.setSlot, ObjectWrapperPrivate.cache, hcA, hnode, Q_ASSERT,
      PropertyCache.isNull, hi]
  have hrel2 : ({ blkA with m_cache := (blk.m_cache.replace cls.id
        (.node c (ds.set i (wrapPhase1 F (E.fetch live o cls.id i))) bs o)) } :
        ObjectWrapperPrivate).release =
      { blk with m_cache := (blk.m_cache.replace cls.id
        (.node c (ds.set i (wrapPhase1 F (E.fetch live o cls.id i))) bs o)) } := by
    rw [← hrel]
    rfl
  unfold refresh_property
  simp only [Q_ASSERT, Option.isSome_some, Bool.not_true, Bool.and_false, Bool.false_eq_true,
    if_false]
  by_cases hcd : cls.cachingDisabled
  · simp only [hcd, if_true]
  · simp only [hcd, Bool.false_eq_true, if_false, hderef, hA, hobj, fetchLive, ho, hset, hrel2]

theorem cache_mem_subtrees (T : TypeId) (t : PropertyCache) :
    ∀ r, t.cache T = .ok r → r ≠ .null → r ∈ t.subtrees := by
  refine PropertyCache.rec
    (motive_1 := fun t => ∀ r, t.cache T = .ok r → r ≠ .null → r ∈ t.subtrees)
    (motive_2 := fun cs => ∀ r, getCacheFromBases cs T = .ok r → r ≠ .null →
      r ∈ subtreesOfBases cs)
    ?_ ?_ ?_ ?_ t
  · intro r h
    simp [PropertyCache.cache] at h
  · intro cls ds bs o ih r h hne
    simp only [PropertyCache.cache] at h
    simp only [PropertyCache.subtrees, List.mem_cons]
    by_cases hid : cls.id = T
    · simp only [hid, if_true, Except.ok.injEq] at h
      exact Or.inl h.symm
    · simp only [hid, if_false] at h
      exact Or.inr (ih r h hne)
  · intro r h hne
    simp only [getCacheFromBases, Except.ok.injEq] at h
    exact absurd h.symm hne
  · intro c cs ihc ihcs r h hne
    simp only [getCacheFromBases] at h
    simp only [subtreesOfBases, List.mem_append]
    cases hc : c.cache T with
    | error e => simp [hc] at h
    | ok r1 =>
      cases r1 with
      | null =>
        simp only [hc] at h
        exact Or.inr (ihcs r h hne)
      | node cls1 ds1 bs1 o1 =>
        simp only [hc, Except.ok.injEq] at h
        exact Or.inl (h ▸ ihc _ hc (by intro h1; cases h1))

theorem cache_class_of_nodup {o : Ptr} {t : PropertyCache} {C cls : WrapperClass}
    (ht : t.IsCacheOf o C) (hnd : (C.hierarchy.map WrapperClass.id).Nodup)
    (hcls : cls ∈ C.hierarchy) : ∃ ds bs, t.cache cls.id = .ok (.node cls ds bs o) := by
  obtain ⟨r, X, hr, hX, hid⟩ := found_of_mem_hierarchy ht hcls
  obtain ⟨ds, bs, hnode, _⟩ := isCacheOf_node hX
  have hmem := cache_mem_subtrees cls.id t r hr (by rw [hnode]; intro h; cases h)
  obtain ⟨Y, hY, hrY⟩ := isCacheOf_subtrees o t C ht r hmem
  obtain ⟨_, _, hnodeY, _⟩ := isCacheOf_node hrY
  have hXY : X = Y := by
    rw [hnode] at hnodeY
    cases hnodeY
    rfl
  have hXc : X = cls := List.inj_on_of_nodup_map hnd (hXY ▸ hY) hcls hid
  exact ⟨ds, bs, by rw [hr, hnode, hXc]⟩

theorem wrapPhase2_wrapPhase1_eq_wrap (F : Nat) (v : Value) :
    wrapPhase2 F (wrapPhase1 F v) = wrap F v := by
  unfold wrapPhase1 wrapPhase2
  by_cases h : F &&& ForeignPointerBit = 0
  · simp only [h, ne_eq, not_true_eq_false, if_false, if_true]
  · simp only [h, ne_eq, not_false_eq_true, if_true, if_false]

theorem connectToUpdates_keeps_cache {L : Type} (E : Env L) (live : L)
    (d d1 : ObjectWrapperPrivate) (cls : WrapperClass) (k : Nat) (p : PropDecl)
    (h : d.connectToUpdates E live cls k p = .ok d1) : d1.m_cache = d.m_cache := by
  unfold ObjectWrapperPrivate.connectToUpdates at h
  by_cases hq : p.flags &&& QProp = 0
  · simp only [hq, if_true, Except.ok.injEq] at h
    rw [← h]
  · simp only [hq, if_false] at h
    cases hc : d.cache E cls.id with
    | error e => simp [hc] at h
    | ok r =>
      cases r with
      | null => simp [hc] at h
      | node c ds bs object =>
        simp only [hc] at h
        by_cases ho : object = 0
        · simp [ho] at h
        · simp only [ho, if_false] at h
          by_cases hn : E.hasNotifySignal live object p.name
          · simp only [hn, Bool.not_true, Bool.false_eq_true, if_false, Except.ok.injEq] at h
            rw [← h]
          · simp only [hn, Bool.not_false, if_true, Except.ok.injEq] at h
            rw [← h]

theorem connectProps_keeps_cache {L : Type} (E : Env L) (live : L) (cls : WrapperClass)
    (k : Nat) : ∀ d d1 : ObjectWrapperPrivate, connectProps E live cls k d = .ok d1 →
      d1.m_cache = d.m_cache := by
  induction k with
  | zero =>
    intro d d1 h
    simp only [connectProps, Except.ok.injEq] at h
    rw [← h]
  | succ k ih =>
    intro d d1 h
    simp only [connectProps] at h
    cases hp : cls.props[k]? with
    | none =>
      simp only [hp] at h
      exact ih d d1 h
    | some p =>
      simp only [hp] at h
      by_cases hk : p.kind = .custom
      · simp only [hk, if_true] at h
        exact ih d d1 h
      · simp only [hk, if_false] at h
        cases hc : d.connectToUpdates E live cls k p with
        | error e => simp [hc] at h
        | ok d0 =>
          simp only [hc] at h
          rw [ih d0 d1 h, connectToUpdates_keeps_cache E live d d0 cls k p hc]

theorem connect_keeps_cache {L : Type} (E : Env L) (live : L) (C : WrapperClass) :
    ∀ d d1 : ObjectWrapperPrivate, __connectToUpdates E live C d = .ok d1 →
      d1.m_cache = d.m_cache := by
  refine WrapperClass.rec
    (motive_1 := fun C => ∀ d d1 : ObjectWrapperPrivate,
      __connectToUpdates E live C d = .ok d1 → d1.m_cache = d.m_cache)
    (motive_2 := fun bs => ∀ d d1 : ObjectWrapperPrivate,
      connectBases E live bs d = .ok d1 → d1.m_cache = d.m_cache)
    ?_ ?_ ?_ C
  · intro i q p c ps bs ih d d1 h
    simp only [__connectToUpdates] at h
    cases hc : connectProps E live (.mk i q p c ps bs) 255 d with
    | error e => simp [hc] at h
    | ok d0 =>
      simp only [hc] at h
      rw [ih d0 d1 h, connectProps_keeps_cache E live _ 255 d d0 hc]
  · intro d d1 h
    simp only [connectBases, Except.ok.injEq] at h
    rw [← h]
  · intro b bs ihb ihbs d d1 h
    simp only [connectBases] at h
    cases hc : __connectToUpdates E live b d with
    | error e => simp [hc] at h
    | ok d0 =>
      simp only [hc] at h
      rw [ihbs d0 d1 h, ihb d d0 hc]

theorem update_keeps_root {L : Type} (E : Env L) (live : L) (d : ObjectWrapperPrivate)
    (cls : WrapperClass) (ds : List Value) (bs : List PropertyCache) (o : Ptr)
    (t1 : PropertyCache) (h : (PropertyCache.node cls ds bs o).update E live d = .ok t1) :
    ∃ ds1 bs1, t1 = .node cls ds1 bs1 o := by
  simp only [PropertyCache.update] at h
  cases hd : __data E live d cls 255 with
  | error e => simp [hd] at h
  | ok ds1 =>
    simp only [hd] at h
    cases hb : updateBases E live d bs with
    | error e => simp [hb] at h
    | ok bs1 =>
      simp only [hb, Except.ok.injEq] at h
      exact ⟨ds1, bs1, h.symm⟩

theorem updateCache_keeps_root {L : Type} (E : Env L) (live : L)
    (d d1 : ObjectWrapperPrivate) (T : TypeId) (cls : WrapperClass) (ds : List Value)
    (bs : List PropertyCache) (o : Ptr) (hroot : d.m_cache = .node cls ds bs o)
    (h : d.updateCache E live T = .ok d1) :
    ∃ cls1 ds1 bs1, d1.m_cache = .node cls1 ds1 bs1 o := by
  simp only [ObjectWrapperPrivate.updateCache] at h
  cases hc : d.cache E T with
  | error e => simp [hc] at h
  | ok c =>
    simp only [hc] at h
    cases hu : c.update E live d with
    | error e => simp [hu] at h
    | ok c1 =>
      simp only [hu, Except.ok.injEq] at h
      rw [← h]
      simp only [hroot, PropertyCache.replace]
      by_cases hid : cls.id = T
      · simp only [hid, if_true]
        have hcn : c = .node cls ds bs o := by
          simp only [ObjectWrapperPrivate.cache, hroot, PropertyCache.cache, hid, if_true,
            Q_ASSERT, PropertyCache.isNull, Bool.not_false, Bool.not_true, Bool.and_false,
            Bool.false_eq_true, if_false, Except.ok.injEq] at hc
          exact hc.symm
        rw [hcn] at hu
        obtain ⟨ds1, bs1, h1⟩ := update_keeps_root E live d cls ds bs o c1 hu
        exact ⟨cls, ds1, bs1, h1⟩
      · simp only [hid, if_false]
        exact ⟨cls, ds, _, rfl⟩

theorem fromBaseclassCache_keeps_object (dbg : Bool) (T : WrapperClass) (obj : Ptr)
    (cls : WrapperClass) (ds : List Value) (bs : List PropertyCache) (t1 : PropertyCache)
    (h : fromBaseclassCache dbg T obj (.node cls ds bs obj) = .ok t1) :
    ∃ cls1 ds1 bs1, t1 = .node cls1 ds1 bs1 obj := by
  cases T with
  | mk i q p c ps Bs =>
    cases Bs with
    | nil =>
      simp only [fromBaseclassCache] at h
      cases ha : Q_ASSERT dbg ((PropertyCache.node cls ds bs obj).isA i) with
      | error e => simp [ha] at h
      | ok u =>
        simp only [ha, Except.ok.injEq] at h
        exact ⟨cls, ds, bs, h.symm⟩
    | cons B Bs =>
      simp only [fromBaseclassCache] at h
      by_cases hA : (PropertyCache.node cls ds bs obj).isA i
      · simp only [hA, if_true, Except.ok.injEq] at h
        exact ⟨cls, ds, bs, h.symm⟩
      · simp only [hA, Bool.false_eq_true, if_false] at h
        cases hr : fromBaseclassCache dbg B obj (.node cls ds bs obj) with
        | error e => simp [hr] at h
        | ok direct =>
          simp only [hr, Except.ok.injEq] at h
          exact ⟨_, _, _, h.symm⟩

theorem expandCache_keeps_object {L : Type} (E : Env L) (live : L)
    (blk blk1 : ObjectWrapperPrivate) (T : WrapperClass) (obj : Ptr) (cls : WrapperClass)
    (ds : List Value) (bs : List PropertyCache) (hroot : blk.m_cache = .node cls ds bs obj)
    (h : blk.expandCache E live T obj = .ok blk1) :
    ∃ cls1 ds1 bs1, blk1.m_cache = .node cls1 ds1 bs1 obj := by
  simp only [ObjectWrapperPrivate.expandCache, hroot] at h
  cases hf : fromBaseclassCache E.assertsEnabled T obj (.node cls ds bs obj) with
  | error e => simp [hf] at h
  | ok t1 =>
    simp only [hf] at h
    rw [connect_keeps_cache E live T _ blk1 h]
    exact fromBaseclassCache_keeps_object E.assertsEnabled T obj cls ds bs t1 hf

theorem registryInvariant_store {s : State} (hinv : s.RegistryInvariant) {w : Nat}
    {blk blk1 : ObjectWrapperPrivate} (hblk : s.heap[w]? = some (some blk))
    (hsame : ∀ cls ds bs k, blk.m_cache = .node cls ds bs k →
      ∃ cls1 ds1 bs1, blk1.m_cache = .node cls1 ds1 bs1 k) :
    (s.store (some w) blk1).RegistryInvariant := by
  intro k b hk
  rw [State.store_map] at hk
  obtain ⟨blk0, cls, ds, bs, hb, hroot⟩ := hinv k b hk
  by_cases hbw : b = w
  · subst hbw
    rw [hblk] at hb
    cases hb
    obtain ⟨cls1, ds1, bs1, h1⟩ := hsame cls ds bs k hroot
    exact ⟨blk1, cls1, ds1, bs1, State.heap_store_self s b blk1 (State.Alive.lt ⟨_, hblk⟩), h1⟩
  · refine ⟨blk0, cls, ds, bs, ?_, hroot⟩
    simp only [State.store, List.getElem?_set, Ne.symm hbw, if_false, hb]

theorem createOwn_root {L : Type} (E : Env L) (live : L) (C : WrapperClass) (o : Ptr)
    (s : State) (r : Option Nat) (s1 : State) (h : createOwn E live C o s = .ok (r, s1)) :
    ∃ blk cls ds bs, s1.heap[s.heap.length]? = some (some blk) ∧
      blk.m_cache = .node cls ds bs o := by
  unfold createOwn at h
  have hmk : ∃ ds bs, makeCache C o = .node C ds bs o := by
    cases C
    exact ⟨_, _, rfl⟩
  obtain ⟨ds, bs, hmk⟩ := hmk
  cases hc : __connectToUpdates E live C ⟨makeCache C o, [], 1⟩ with
  | error e => simp [hc] at h
  | ok blk =>
    have hroot : blk.m_cache = .node C ds bs o := by
      rw [connect_keeps_cache E live C _ blk hc]
      exact hmk
    simp only [hc, State.alloc] at h
    by_cases hcd : C.cachingDisabled
    · simp only [hcd, Bool.not_true, Bool.false_eq_true, if_false, Except.ok.injEq,
        Prod.mk.injEq] at h
      obtain ⟨_, hs⟩ := h
      subst hs
      exact ⟨blk, C, ds, bs, by simp [State.insert], hroot⟩
    · simp only [hcd, Bool.not_false, if_true] at h
      cases hu : blk.updateCache E live C.id with
      | error e => simp [hu] at h
      | ok blk1 =>
        simp only [hu, Except.ok.injEq, Prod.mk.injEq] at h
        obtain ⟨_, hs⟩ := h
        subst hs
        obtain ⟨cls1, ds1, bs1, h1⟩ :=
          updateCache_keeps_root E live blk blk1 C.id C ds bs o hroot hu
        exact ⟨blk1, cls1, ds1, bs1, by simp [State.insert, State.store], h1⟩

theorem create_registers {L : Type} (E : Env L) (live : L) (W : ObjectWrapper) :
    ∀ o s r s1, create E live W o s = .ok (r, s1) → CreatedAt E live o s r s1 := by
  refine ObjectWrapper.rec
    (motive_1 := fun W => ∀ o s r s1, create E live W o s = .ok (r, s1) →
      CreatedAt E live o s r s1)
    (motive_2 := fun fs => ∀ B o s r s1,
      subclassFactoryLoop E live B fs o s = .ok (r, s1) → CreatedAt E live o s r s1)
    ?_ ?_ ?_ W
  · intro C fs ih o s r s1 h
    simp only [create] at h
    by_cases hv : checkValidObject E live C o
    · simp only [hv, Bool.not_true, Bool.false_eq_true, if_false] at h
      cases ha : Q_ASSERT E.assertsEnabled (checkCorrectThread E live C o) with
      | error e => simp [ha] at h
      | ok u =>
        simp only [ha] at h
        cases hl : subclassFactoryLoop E live C fs o s with
        | error e => simp [hl] at h
        | ok res =>
          obtain ⟨r0, s0⟩ := res
          have h0 := ih C o s r0 s0 hl
          cases r0 with
          | some p =>
            simp only [hl, Except.ok.injEq, Prod.mk.injEq] at h
            obtain ⟨hr, hs⟩ := h
            subst hr hs
            exact h0
          | none =>
            simp only [hl] at h
            have hs0 : s0 = s := h0.1 rfl
            subst hs0
            obtain ⟨hext, hr, hm, _⟩ := createOwn_extends E live C o s0 r s1 h
            obtain ⟨blk, cls, ds, bs, hb, hroot⟩ := createOwn_root E live C o s0 r s1 h
            refine ⟨?_, ?_⟩
            · intro hn
              rw [hr] at hn
              cases hn
            · intro d hd
              rw [hr] at hd
              cases hd
              exact ⟨o, CastImage.self, hext, hm, blk, cls, ds, bs, hb, hroot⟩
    · simp only [hv, Bool.not_false, if_true, Except.ok.injEq, Prod.mk.injEq] at h
      obtain ⟨hr, hs⟩ := h
      subst hr hs
      exact ⟨fun _ => rfl, fun d hd => by cases hd⟩
  · intro B o s r s1 h
    simp only [subclassFactoryLoop, Except.ok.injEq, Prod.mk.injEq] at h
    obtain ⟨hr, hs⟩ := h
    subst hr hs
    exact ⟨fun _ => rfl, fun d hd => by cases hd⟩
  · intro F rest ihF ihrest B o s r s1 h
    cases F with
    | mk D fs =>
      simp only [subclassFactoryLoop] at h
      rcases downcast_cases E live D B o with hz | ⟨_, hne, hq⟩
      · simp only [hz, bne_self_eq_false, Bool.false_eq_true, if_false] at h
        exact ihrest B o s r s1 h
      · have hne1 : (E.dynamicCast live o D.id != 0) = true := by simpa using hne
        simp only [hq, hne1, if_true] at h
        cases hc : create E live (.mk D fs) (E.dynamicCast live o D.id) s with
        | error e => simp [hc] at h
        | ok res =>
          obtain ⟨r0, s0⟩ := res
          have h0 := ihF (E.dynamicCast live o D.id) s r0 s0 hc
          cases r0 with
          | some d0 =>
            simp only [hc, Except.ok.injEq, Prod.mk.injEq] at h
            obtain ⟨hr, hs⟩ := h
            subst hr hs
            refine ⟨fun hn => Option.noConfusion hn, fun d hd => ?_⟩
            obtain ⟨k, hk, hrest⟩ := h0.2 d hd
            exact ⟨k, castImage_trans (CastImage.cast D.id CastImage.self hne) hk, hrest⟩
          | none =>
            simp only [hc] at h
            have hs0 : s0 = s := h0.1 rfl
            subst hs0
            exact ihrest B o s0 r s1 h

theorem registryInvariant_create {L : Type} (E : Env L) (live : L) (W : ObjectWrapper)
    (o : Ptr) (s : State) (r : Option Nat) (s1 : State) (hinv : s.RegistryInvariant)
    (h : create E live W o s = .ok (r, s1)) : s1.RegistryInvariant := by
  obtain ⟨hnone, hsome⟩ := create_registers E live W o s r s1 h
  cases r with
  | none =>
    rw [hnone rfl]
    exact hinv
  | some d =>
    obtain ⟨k0, _, hext, hreg, blk, cls, ds, bs, hb, hroot⟩ := hsome d rfl
    intro k w hk
    by_cases hko : k = k0
    · subst hko
      rw [hreg] at hk
      cases hk
      exact ⟨blk, cls, ds, bs, hb, hroot⟩
    · rw [hext.1 k hko] at hk
      obtain ⟨blk1, cls1, ds1, bs1, hb1, hroot1⟩ := hinv k w hk
      refine ⟨blk1, cls1, ds1, bs1, ?_, hroot1⟩
      rw [hext.2.1 w (State.Alive.lt ⟨blk1, hb1⟩)]
      exact hb1

theorem registryInvariant_handleForObject {L : Type} (E : Env L) (live : L)
    (W : ObjectWrapper) (obj : Ptr) (s : State) (h : ObjectHandle) (s1 : State)
    (hinv : s.RegistryInvariant) (hrun : handleForObject E live W obj s = .ok (h, s1)) :
    s1.RegistryInvariant := by
  unfold GammaRay.handleForObject at hrun
  by_cases ho : obj = 0
  · simp only [ho, if_true, Except.ok.injEq, Prod.mk.injEq] at hrun
    rw [← hrun.2]
    exact hinv
  · simp only [ho, if_false] at hrun
    cases hm : s.m_objectToWrapperPrivateMap obj with
    | none =>
      simp only [hm] at hrun
      cases hc : GammaRay.create E live W obj s with
      | error e => simp [hc] at hrun
      | ok res =>
        obtain ⟨d, s2⟩ := res
        simp only [hc, Except.ok.injEq, Prod.mk.injEq] at hrun
        rw [← hrun.2]
        exact registryInvariant_create E live W obj s d s2 hinv hc
    | some w =>
      obtain ⟨blk, cls, ds, bs, hb, hroot⟩ := hinv obj w hm
      have hlock : s.lock w = some w := State.lock_of_alive ⟨blk, hb⟩
      have hderef : s.deref (some w) = .ok blk := by simp [State.deref, hb]
      simp only [hm, hlock, hderef] at hrun
      cases hcomp : blk.isComplete W.cls.id with
      | error e => simp [hcomp] at hrun
      | ok c =>
        cases c with
        | true =>
          simp only [hcomp, Except.ok.injEq, Prod.mk.injEq] at hrun
          rw [← hrun.2]
          exact hinv
        | false =>
          simp only [hcomp] at hrun
          cases hexp : blk.expandCache E live W.cls obj with
          | error e => simp [hexp] at hrun
          | ok blk1 =>
            simp only [hexp] at hrun
            obtain ⟨cls1, ds1, bs1, h1⟩ :=
              expandCache_keeps_object E live blk blk1 W.cls obj cls ds bs hroot hexp
            by_cases hcd : W.cls.cachingDisabled
            · simp only [hcd, Bool.not_true, Bool.false_eq_true, if_false, Except.ok.injEq,
                Prod.mk.injEq] at hrun
              rw [← hrun.2]
              refine registryInvariant_store hinv hb (fun cls0 ds0 bs0 k hk => ?_)
              rw [hroot] at hk
              cases hk
              exact ⟨cls1, ds1, bs1, h1⟩
            · simp only [hcd, Bool.not_false, if_true] at hrun
              cases hu : blk1.updateCache E live W.cls.id with
              | error e => simp [hu] at hrun
              | ok blk2 =>
                simp only [hu, Except.ok.injEq, Prod.mk.injEq] at hrun
                rw [← hrun.2]
                refine registryInvariant_store hinv hb (fun cls0 ds0 bs0 k hk => ?_)
                rw [hroot] at hk
                cases hk
                exact updateCache_keeps_root E live blk1 blk2 W.cls.id cls1 ds1 bs1 obj h1 hu

theorem registryInvariant_destroy {s : State} (hinv : s.RegistryInvariant) {d : Nat}
    {disconnected : List Connection} {s1 : State}
    (h : s.destroy d = .ok (disconnected, s1)) : s1.RegistryInvariant := by
  unfold State.destroy at h
  cases hd : s.heap[d]? with
  | none => simp [hd] at h
  | some ob =>
    cases ob with
    | none => simp [hd] at h
    | some blk =>
      simp only [hd] at h
      cases hroot : blk.m_cache with
      | null => simp [hroot] at h
      | node cls ds bs object =>
        simp only [hroot, Except.ok.injEq, Prod.mk.injEq] at h
        rw [← h.2]
        intro k w hk
        simp only at hk
        by_cases hko : k = object
        · simp [hko] at hk
        · simp only [hko, if_false] at hk
          obtain ⟨blk0, cls0, ds0, bs0, hb, hroot0⟩ := hinv k w hk
          have hwd : w ≠ d := by
            intro hwd
            subst hwd
            rw [hd] at hb
            cases hb
            rw [hroot] at hroot0
            cases hroot0
            exact hko rfl
          refine ⟨blk0, cls0, ds0, bs0, ?_, hroot0⟩
          simp only [List.getElem?_set, Ne.symm hwd, if_false, hb]

/-- The function `callVoid` tests the validity of the object once, when it is called:
for an invalid object it invokes nothing and queues nothing, for a valid object of the
calling thread it invokes the method at once, for a valid object of another thread it
queues one functor that captures the pointer. -/
theorem callVoid_tests_validity_when_called {L : Type} (E : Env L) (live : L) (object : Ptr) :
    (E.isValidObject live object = false →
      ObjectWrapperPrivate.callVoid E live object = ⟨[], []⟩) ∧
    (E.isValidObject live object = true → E.inObjectThread live object = true →
      ObjectWrapperPrivate.callVoid E live object = ⟨[object], []⟩) ∧
    (E.isValidObject live object = true → E.inObjectThread live object = false →
      ObjectWrapperPrivate.callVoid E live object = ⟨[], [object]⟩) := by
  refine ⟨fun hv => ?_, fun hv ht => ?_, fun hv ht => ?_⟩
  · simp [ObjectWrapperPrivate.callVoid, hv]
  · simp [ObjectWrapperPrivate.callVoid, hv, ht]
  · simp [ObjectWrapperPrivate.callVoid, hv, ht]

/-! # Claims -/

/-- C1 (counterexample). The `Shape` base class subobject of a circle lies at
address 8, the `Circle` object at address 4. From the empty registry
`handleForObject<Shape>` is called twice with the pointer 8, the first handle being
kept: the factory of `Circle` casts 8 to 4 and `create<Circle>` registers its block
under 4, so the second call finds no entry for 8 and creates a second block. The two
handles refer to the blocks 0 and 1 and do not compare equal. -/
theorem second_call_for_base_at_offset_creates_second_block :
    runCalls exOffsetEnv [.handleFor 5 exShapeW 8, .handleFor 5 exShapeW 8] State.empty =
      [(8, some 0), (8, some 1)] ∧
    ObjectHandle.eq ⟨some 0⟩ ⟨some 1⟩ = false ∧
    (match handleForObject exOffsetEnv 5 exShapeW 8 State.empty with
      | .ok (_, s1) =>
        some (s1.m_objectToWrapperPrivateMap 8, s1.m_objectToWrapperPrivateMap 4,
          s1.heap.length)
      | .error _ => none) = some (none, some 0, 1) :=
  ⟨rfl, rfl, rfl⟩

/-- C1 (amended). Uniqueness where `dynamic_cast` keeps addresses. In any sequence of
`handleForObject` / `viewForObject` calls (for any objects and classes, with the live
objects in any state at each call, no control block being destroyed in between),
started in any state, all non-empty handles and views returned for one object `o`
refer to one and the same control block, so that any two of the handles compare
equal; and if at the start `o` is registered with an existing block `b` (a strong
handle to `o` is held), that block is `b`. -/
theorem uniqueness_of_control_block {L : Type} (E : Env L) (hE : E.KeepsAddress)
    (calls : List (Call L)) (s : State) (o : Ptr) :
    (∀ r1 ∈ runCalls E calls s, ∀ r2 ∈ runCalls E calls s, r1.1 = o → r2.1 = o →
      r1.2 ≠ none → r2.2 ≠ none → r1.2 = r2.2 ∧ ObjectHandle.eq ⟨r1.2⟩ ⟨r2.2⟩ = true) ∧
    (∀ b, s.m_objectToWrapperPrivateMap o = some b → s.Alive b →
      ∀ r ∈ runCalls E calls s, r.1 = o → r.2 = none ∨ r.2 = some b) := by
  refine ⟨?_, fun b hreg hb => runCalls_registered E hE calls s o b hreg hb⟩
  intro r1 hr1 r2 hr2 h1 h2 hn1 hn2
  have he := runCalls_unique E hE calls s o r1 hr1 r2 hr2 h1 h2 hn1 hn2
  refine ⟨he, ?_⟩
  rw [he]
  simp [ObjectHandle.eq]

/-- Witness for C1: object 7 is registered with block 0, and is asked for three
times, as `Base`, through a view, and as `Derived`. -/
theorem uniqueness_of_control_block_witness :
    (exEnv true).KeepsAddress ∧
    (exBaseState.m_objectToWrapperPrivateMap 7 = some 0 ∧ exBaseState.Alive 0) ∧
    runCalls (exEnv true)
      [.handleFor 5 exBaseW 7, .viewFor exBase 7, .handleFor 6 exDerivedW 7] exBaseState =
      [(7, some 0), (7, some 0), (7, some 0)] ∧
    ∀ r ∈ runCalls (exEnv true)
        [.handleFor 5 exBaseW 7, .viewFor exBase 7, .handleFor 6 exDerivedW 7] exBaseState,
      r.1 = 7 → r.2 = none ∨ r.2 = some 0 :=
  ⟨fun _ _ _ => Or.inr rfl, ⟨rfl, ⟨exBaseBlock, rfl⟩⟩, rfl,
    (uniqueness_of_control_block (exEnv true) (fun _ _ _ => Or.inr rfl)
      [.handleFor 5 exBaseW 7, .viewFor exBase 7, .handleFor 6 exDerivedW 7] exBaseState 7).2
      0 rfl ⟨exBaseBlock, rfl⟩⟩

/-- C3 (counterexample). A handle for object 7 as `Base` is created while `x` is 5,
so slot 0 of the `Base` node holds 5. The live value changes to 6, and
`handleForObject<Derived>` expands the block: afterwards slot 0 of the `Base` node
holds 6, so the `Base` property was fetched again and the slot did not keep its value. -/
theorem expansion_refetches_base_slot :
    (match handleForObject (exEnv true) 5 exBaseW 7 State.empty with
      | .ok (_, s) =>
        (match handleForObject (exEnv true) 6 exDerivedW 7 s with
          | .ok (_, s1) =>
            some (slotOfBlock0 (exEnv true) s exBase.id 0,
              slotOfBlock0 (exEnv true) s1 exBase.id 0)
          | .error _ => none)
      | .error _ => none) = some (.ok (.int 5), .ok (.int 6)) := rfl

/-- C3 (amended). When `handleForObject<Class>(o)` expands a registered block (complete
cache tree rooted on the chain of first bases of `Class`, not complete for `Class`),
the expansion step `expandCache` keeps every existing node: each lookup that found a
node before returns the same node with the same slot values. Unless caching is
disabled for `Class`, the call then runs `update` on the node of `Class`, which
recurses into all base nodes, so that on return every slot of every node of the tree,
those of the old base nodes included, holds the phase-1 wrapped value fetched from the
live object in this call. With caching disabled for `Class` the block is left as the
expansion step produced it. -/
theorem handleForObject_expansion_slots {L : Type} (E : Env L) (live : L)
    (W : ObjectWrapper) (o : Ptr) (b : Nat) (s : State) (blk : ObjectWrapperPrivate)
    (R : WrapperClass) (ho : o ≠ 0) (hreg : s.m_objectToWrapperPrivateMap o = some b)
    (hblk : s.heap[b]? = some (some blk)) (hR : blk.m_cache.IsCacheOf o R)
    (hexp : Expandable blk.m_cache W.cls) (hinc : blk.isComplete W.cls.id = .ok false) :
    ∃ blkE blk1, blk.expandCache E live W.cls o = .ok blkE ∧
      (∀ T r, blk.m_cache.cache T = .ok r → r ≠ .null → blkE.m_cache.cache T = .ok r) ∧
      handleForObject E live W o s = .ok (⟨some b⟩, s.store (some b) blk1) ∧
      (W.cls.cachingDisabled = true → blk1 = blkE) ∧
      (W.cls.cachingDisabled = false →
        ∀ T cls ds bs o1, blk1.m_cache.cache T = .ok (.node cls ds bs o1) →
          ∀ i p, cls.props[i]? = some p → i < 255 →
            ds[i]? = some (wrapPhase1 p.flags (E.fetch live o cls.id i))) := by
  obtain ⟨blkE, blk1, hE, _, hmono, hrun, hC1, hdis, hfresh⟩ :=
    handleForObject_expand E live W o b s blk R ho hreg hblk hR hexp hinc
  refine ⟨blkE, blk1, hE, hmono, hrun, hdis, ?_⟩
  intro hcd T cls ds bs o1 hc i p hp hi
  have hF := fresh_of_cache E live T blk1.m_cache (hfresh hcd) _ hc
  simp only [PropertyCache.Fresh] at hF
  obtain ⟨r, hr, hrr⟩ := cache_of_isCacheOf o T blk1.m_cache W.cls hC1
  rw [hc] at hr
  cases hr
  rcases hrr with hrr | ⟨C1, hC1', _⟩
  · cases hrr
  · simp only [PropertyCache.IsCacheOf] at hC1'
    rw [hF.1, hC1'.2.1]
    exact liveData_getElem? E live cls o i p hp 255 hi

/-- Witness for C3: the block of object 7 created for `Base` while `x` was 5 is
expanded to `Derived` while `x` is 6. -/
theorem handleForObject_expansion_slots_witness :
    (7 ≠ 0 ∧ exBaseState.m_objectToWrapperPrivateMap 7 = some 0 ∧
      exBaseState.heap[0]? = some (some exBaseBlock) ∧
      exBaseBlock.m_cache.IsCacheOf 7 exBase ∧ Expandable exBaseBlock.m_cache exDerivedW.cls ∧
      exBaseBlock.isComplete exDerivedW.cls.id = .ok false) ∧
    ∃ blkE blk1, exBaseBlock.expandCache (exEnv true) 6 exDerivedW.cls 7 = .ok blkE ∧
      (∀ T r, exBaseBlock.m_cache.cache T = .ok r → r ≠ .null →
        blkE.m_cache.cache T = .ok r) ∧
      handleForObject (exEnv true) 6 exDerivedW 7 exBaseState =
        .ok (⟨some 0⟩, exBaseState.store (some 0) blk1) ∧
      (exDerivedW.cls.cachingDisabled = true → blk1 = blkE) ∧
      (exDerivedW.cls.cachingDisabled = false →
        ∀ T cls ds bs o1, blk1.m_cache.cache T = .ok (.node cls ds bs o1) →
          ∀ i p, cls.props[i]? = some p → i < 255 →
            ds[i]? = some (wrapPhase1 p.flags ((exEnv true).fetch 6 7 cls.id i))) :=
  ⟨⟨by decide, rfl, rfl,
      by simp [exBaseBlock, exBase, PropertyCache.IsCacheOf, AreCachesOf, WrapperClass.bases],
      Or.inr ⟨rfl, rfl⟩, rfl⟩,
    handleForObject_expansion_slots (exEnv true) 6 exDerivedW 7 0 exBaseState exBaseBlock
      exBase (by decide) rfl rfl
      (by simp [exBaseBlock, exBase, PropertyCache.IsCacheOf, AreCachesOf, WrapperClass.bases])
      (Or.inr ⟨rfl, rfl⟩) rfl⟩

/-- C4 (counterexample). From the empty registry, `handleForObject<Base>` for object 7
registers a block that is complete for `Base` only (the factory of `Derived` fails, as
`Base` is not polymorphic); with assertions compiled in, `viewForObject<Derived>` for
that object then stops in `Q_ASSERT` instead of returning an empty view. -/
theorem viewForObject_incomplete_asserts :
    (match handleForObject (exEnv true) 5 exBaseW 7 State.empty with
      | .ok (_, s) => viewForObject (exEnv true) exDerived 7 s
      | .error e => .error e) = .error .assertion := rfl

/-- C4 (amended). `viewForObject<Class>(o)` never changes the registry (it returns only
a view) and returns: the empty view if `o` is null or not registered; a view of the
registered block if that block is complete for `Class`; and if the block is registered
but not complete for `Class`, the empty view when assertions are compiled out, while
with assertions compiled in the call stops in `Q_ASSERT`. A non-empty view is
returned only for a registered block that is complete for `Class`. -/
theorem viewForObject_result {L : Type} (E : Env L) (C : WrapperClass) (s : State) :
    viewForObject E C 0 s = .ok ⟨none⟩ ∧
    (∀ o, s.m_objectToWrapperPrivateMap o = none → viewForObject E C o s = .ok ⟨none⟩) ∧
    (∀ o b blk c, o ≠ 0 → s.m_objectToWrapperPrivateMap o = some b →
      s.heap[b]? = some (some blk) → blk.isComplete C.id = .ok c →
      viewForObject E C o s =
        if c then .ok ⟨some b⟩
        else if E.assertsEnabled then .error .assertion else .ok ⟨none⟩) ∧
    (∀ o v, viewForObject E C o s = .ok v → v.d ≠ none →
      ∃ b blk, o ≠ 0 ∧ s.m_objectToWrapperPrivateMap o = some b ∧ v.d = some b ∧
        s.heap[b]? = some (some blk) ∧ blk.isComplete C.id = .ok true) := by
  refine ⟨by simp [viewForObject], ?_, ?_, ?_⟩
  · intro o hreg
    unfold viewForObject
    by_cases h0 : o = 0
    · simp [h0]
    · simp [h0, hreg]
  · intro o b blk c h0 hreg hblk hc
    have hlock : s.lock b = some b := State.lock_of_alive ⟨blk, hblk⟩
    have hderef : s.deref (some b) = .ok blk := by simp [State.deref, hblk]
    unfold viewForObject
    simp only [h0, if_false, hreg, hlock, hderef, hc]
    cases c <;> cases hdbg : E.assertsEnabled <;> simp [Q_ASSERT, hdbg]
  · intro o v hrun hv
    unfold viewForObject at hrun
    by_cases h0 : o = 0
    · simp only [h0, if_true, Except.ok.injEq] at hrun
      exact absurd (hrun ▸ rfl) hv
    · simp only [h0, if_false] at hrun
      cases hm : s.m_objectToWrapperPrivateMap o with
      | none =>
        simp only [hm, Except.ok.injEq] at hrun
        exact absurd (hrun ▸ rfl) hv
      | some w =>
        simp only [hm] at hrun
        cases hd : s.deref (s.lock w) with
        | error e => simp [hd] at hrun
        | ok blk =>
          simp only [hd] at hrun
          cases hcpl : blk.isComplete C.id with
          | error e => simp [hcpl] at hrun
          | ok c =>
            simp only [hcpl] at hrun
            cases ha : Q_ASSERT E.assertsEnabled c with
            | error e => simp [ha] at hrun
            | ok u =>
              simp only [ha] at hrun
              cases c with
              | false =>
                simp only [Bool.not_false, if_true, Except.ok.injEq] at hrun
                exact absurd (hrun ▸ rfl) hv
              | true =>
                simp only [Bool.not_true, Bool.false_eq_true, if_false, Except.ok.injEq] at hrun
                rcases State.lock_eq s w with hl | hl
                · rw [hl] at hd
                  simp [State.deref] at hd
                · rw [hl] at hd hrun
                  refine ⟨w, blk, h0, rfl, hrun ▸ rfl, ?_, hcpl⟩
                  simp only [State.deref] at hd
                  split at hd
                  · next blk0 hh =>
                    simp only [Except.ok.injEq] at hd
                    exact hd ▸ hh
                  · cases hd

/-- Witness for C4: the registered, incomplete case with assertions compiled out,
and one input for each of the other cases. -/
theorem viewForObject_result_witness :
    exBaseState.m_objectToWrapperPrivateMap 3 = none ∧
    (7 ≠ 0 ∧ exBaseState.m_objectToWrapperPrivateMap 7 = some 0 ∧
      exBaseState.heap[0]? = some (some exBaseBlock) ∧
      exBaseBlock.isComplete exDerived.id = .ok false) ∧
    viewForObject (exEnv false) exDerived 3 exBaseState = .ok ⟨none⟩ ∧
    viewForObject (exEnv false) exDerived 7 exBaseState =
      (if false then .ok ⟨some 0⟩
        else if (exEnv false).assertsEnabled then .error .assertion else .ok ⟨none⟩) ∧
    (∃ b blk, 7 ≠ 0 ∧ exBaseState.m_objectToWrapperPrivateMap 7 = some b ∧
      (⟨some 0⟩ : ObjectView).d = some b ∧ exBaseState.heap[b]? = some (some blk) ∧
      blk.isComplete exBase.id = .ok true) :=
  ⟨rfl, ⟨by decide, rfl, rfl, rfl⟩,
    (viewForObject_result (exEnv false) exDerived exBaseState).2.1 3 rfl,
    (viewForObject_result (exEnv false) exDerived exBaseState).2.2.1 7 0 exBaseBlock false
      (by decide) rfl rfl rfl,
    (viewForObject_result (exEnv false) exBase exBaseState).2.2.2 7 ⟨some 0⟩ rfl (by simp)⟩

/-- C5 (counterexample). A `QObject` at 7 gets a handle while it is valid; after it
has become invalid, `handleForObject` for it does not return an empty handle but one
that refers to the registered block 0 and whose `object()` is 7. -/
theorem handleForObject_invalid_registered :
    checkValidObject exQEnv false exQ 7 = false ∧
    (match handleForObject exQEnv true exQW 7 State.empty with
      | .ok (_, s) =>
        (match handleForObject exQEnv false exQW 7 s with
          | .ok (h, s1) => some (h.d, h.object exQEnv exQ s1)
          | .error _ => none)
      | .error _ => none) = some (some 0, .ok 7) := ⟨rfl, rfl⟩

/-- C5 (amended). `handleForObject(o)` returns an empty handle and leaves the state
as it is if `o` is null, or if `o` fails the validity check and is not registered; the
empty handle has a null `object()` and, the probe never reporting null as valid, is
not valid. For an object that is registered with a block complete for `Class` the
call returns a handle to that block without consulting the validity check. -/
theorem handleForObject_null_or_invalid {L : Type} (E : Env L) (live : L) (W : ObjectWrapper)
    (s : State) :
    handleForObject E live W 0 s = .ok (⟨none⟩, s) ∧
    (∀ o, checkValidObject E live W.cls o = false → s.m_objectToWrapperPrivateMap o = none →
      handleForObject E live W o s = .ok (⟨none⟩, s)) ∧
    ObjectHandle.object E W.cls s ⟨none⟩ = .ok 0 ∧
    (E.isValidObject live 0 = false → ObjectHandle.isValid E live W.cls s ⟨none⟩ = .ok false) ∧
    (∀ o b blk, o ≠ 0 → s.m_objectToWrapperPrivateMap o = some b →
      s.heap[b]? = some (some blk) → blk.isComplete W.cls.id = .ok true →
      handleForObject E live W o s = .ok (⟨some b⟩, s)) := by
  refine ⟨by simp [handleForObject], ?_, rfl, ?_, ?_⟩
  · intro o hv hreg
    unfold handleForObject
    by_cases h0 : o = 0
    · simp [h0]
    · cases W with
      | mk C fs =>
        simp only [ObjectWrapper.cls] at hv
        simp [h0, hreg, create, hv]
  · intro hp
    simp [ObjectHandle.isValid, ObjectHandle.object, hp]
  · intro o b blk h0 hreg hblk hc
    have hlock : s.lock b = some b := State.lock_of_alive ⟨blk, hblk⟩
    have hderef : s.deref (some b) = .ok blk := by simp [State.deref, hblk]
    unfold handleForObject
    simp [h0, hreg, hlock, hderef, hc]

/-- Witness for C5: the invalid unregistered object 9 of a `QObject` class, and the
registered object 7. -/
theorem handleForObject_null_or_invalid_witness :
    (checkValidObject exQEnv true exQ 9 = false ∧
      State.empty.m_objectToWrapperPrivateMap 9 = none) ∧
    exQEnv.isValidObject true 0 = false ∧
    handleForObject exQEnv true exQW 9 State.empty = .ok (⟨none⟩, State.empty) ∧
    ObjectHandle.isValid exQEnv true exQ State.empty ⟨none⟩ = .ok false ∧
    handleForObject (exEnv true) 5 exBaseW 7 exBaseState = .ok (⟨some 0⟩, exBaseState) :=
  ⟨⟨rfl, rfl⟩, rfl,
    (handleForObject_null_or_invalid exQEnv true exQW State.empty).2.1 9 rfl rfl,
    (handleForObject_null_or_invalid exQEnv true exQW State.empty).2.2.2.1 rfl,
    (handleForObject_null_or_invalid (exEnv true) 5 exBaseW exBaseState).2.2.2.2 7 0
      exBaseBlock (by decide) rfl rfl rfl⟩

/-- C6. Dynamic-type discovery in `create<Class>(object)` for a valid, non-null object
(the thread assertion passing for it at every address it is cast to): every factory
call returns; if a factory returns a
control block while all factories registered before it returned null, that block is
the result of `create`, whatever factories follow, and it is complete for the class
of that factory and for `Class`; if every factory returns null, the result is the
block that the rest of `create` builds, rooted at `Class` and complete for it. -/
theorem create_uses_first_successful_factory {L : Type} (E : Env L) (live : L)
    (Class : WrapperClass) (factories : List ObjectWrapper) (o : Ptr) (s : State)
    (ho : o ≠ 0) (hv : checkValidObject E live Class o = true)
    (hthr : ∀ T p, CastImage E live o p →
      Q_ASSERT E.assertsEnabled (checkCorrectThread E live T p) = .ok ())
    (hfs : FactoriesOf Class factories) :
    (∀ F ∈ factories, ∃ r s1, createFromBase E live F Class o s = .ok (r, s1) ∧
      (r = none → s1 = s)) ∧
    (∀ pre F post d s1, factories = pre ++ F :: post →
      (∀ G ∈ pre, createFromBase E live G Class o s = .ok (none, s)) →
      createFromBase E live F Class o s = .ok (some d, s1) →
      create E live (.mk Class factories) o s = .ok (some d, s1) ∧
      ∃ blk, s1.heap[d]? = some (some blk) ∧ blk.isComplete F.cls.id = .ok true ∧
        blk.isComplete Class.id = .ok true) ∧
    ((∀ G ∈ factories, createFromBase E live G Class o s = .ok (none, s)) →
      ∃ s1 blk, create E live (.mk Class factories) o s = .ok (some s.heap.length, s1) ∧
        createOwn E live Class o s = .ok (some s.heap.length, s1) ∧
        s1.heap[s.heap.length]? = some (some blk) ∧ blk.m_cache.cls? = some Class ∧
        blk.isComplete Class.id = .ok true) := by
  have hq := hthr Class o CastImage.self
  refine ⟨?_, ?_, ?_⟩
  · intro F hF
    obtain ⟨hB, hFs⟩ := factoriesOf_mem hfs F hF
    unfold createFromBase
    rcases downcast_cases E live F.cls Class o with hz | ⟨_, hne, hcast⟩
    · simp only [hz, bne_self_eq_false, Bool.false_eq_true, if_false]
      exact ⟨none, s, rfl, fun _ => rfl⟩
    · have hne1 : (E.dynamicCast live o F.cls.id != 0) = true := by simpa using hne
      simp only [hcast, hne1, if_true]
      obtain ⟨r, s1, hc, _, _⟩ := create_total E live o hthr F (E.dynamicCast live o F.cls.id) s
        (CastImage.cast F.cls.id CastImage.self hne) hne hFs
      exact ⟨r, s1, hc, (create_registers E live F _ s r s1 hc).1⟩
  · intro pre F post d s1 hsplit hpre hF
    have hloop := subclassFactoryLoop_first E live Class o s F post d s1 hF pre hpre
    refine ⟨by simp [create, hv, hq, hsplit, hloop], ?_⟩
    have hFmem : F ∈ factories := by simp [hsplit]
    obtain ⟨hB, hFs⟩ := factoriesOf_mem hfs F hFmem
    unfold createFromBase at hF
    rcases downcast_cases E live F.cls Class o with hz | ⟨_, hne, hcast⟩
    · simp [hz] at hF
    · have hne1 : (E.dynamicCast live o F.cls.id != 0) = true := by simpa using hne
      simp only [hcast, hne1, if_true] at hF
      obtain ⟨r, s2, hc, _, hDisc⟩ := create_total E live o hthr F
        (E.dynamicCast live o F.cls.id) s (CastImage.cast F.cls.id CastImage.self hne) hne hFs
      rw [hF] at hc
      simp only [Except.ok.injEq, Prod.mk.injEq] at hc
      obtain ⟨hr, hs⟩ := hc
      subst hr hs
      obtain ⟨blk, R, o1, hblk, hR, hmem⟩ := hDisc d rfl
      exact ⟨blk, hblk, isComplete_of_found (found_of_mem_hierarchy hR hmem),
        isComplete_of_found (found_of_mem_hierarchy hR
          (hierarchy_subset_of_mem_hierarchy R F.cls hmem
            (hierarchy_subset_of_mem_bases hB (self_mem_hierarchy Class))))⟩
  · intro hall
    have hloop := subclassFactoryLoop_none E live Class o s factories hall
    obtain ⟨s1, blk, hco, hblk, hC, _⟩ := createOwn_ok E live Class ho s
    refine ⟨s1, blk, by simp [create, hv, hq, hloop, hco], hco, hblk, ?_,
      isComplete_of_found (found_of_mem_hierarchy hC (self_mem_hierarchy Class))⟩
    obtain ⟨ds, bs, hd, _⟩ := isCacheOf_node hC
    simp [hd, PropertyCache.cls?]

/-- Witness for C6: `Shape` with the factories of `Square` and `Circle`, the object
at 7 being a `Circle`: the factory of `Square` returns null, that of `Circle` a block. -/
theorem create_uses_first_successful_factory_witness :
    (7 ≠ 0 ∧ checkValidObject exShapeEnv 5 exShape 7 = true ∧
      (∀ T p, CastImage exShapeEnv 5 7 p →
        Q_ASSERT exShapeEnv.assertsEnabled (checkCorrectThread exShapeEnv 5 T p) = .ok ()) ∧
      FactoriesOf exShape [exSquareW, exCircleW]) ∧
    ([exSquareW, exCircleW] = [exSquareW] ++ exCircleW :: [] ∧
      (∀ G ∈ [exSquareW],
        createFromBase exShapeEnv 5 G exShape 7 State.empty = .ok (none, State.empty)) ∧
      createFromBase exShapeEnv 5 exCircleW exShape 7 State.empty =
        .ok (some 0, exCircleState)) ∧
    (create exShapeEnv 5 exShapeW 7 State.empty = .ok (some 0, exCircleState) ∧
      ∃ blk, exCircleState.heap[0]? = some (some blk) ∧
        blk.isComplete exCircleW.cls.id = .ok true ∧ blk.isComplete exShape.id = .ok true) :=
  ⟨⟨by decide, rfl,
      fun T p _ => by cases h : T.isQObject <;> simp [Q_ASSERT, checkCorrectThread, h, exShapeEnv],
      by simp [FactoriesOf, exSquareW, exCircleW, exSquare, exCircle, WrapperClass.bases]⟩,
    ⟨rfl, fun G hG => by
        rw [List.mem_singleton.1 hG]
        rfl, rfl⟩,
    (create_uses_first_successful_factory exShapeEnv 5 exShape [exSquareW, exCircleW] 7
      State.empty (by decide) rfl
      (fun T p _ => by
        cases h : T.isQObject <;> simp [Q_ASSERT, checkCorrectThread, h, exShapeEnv])
      (by simp [FactoriesOf, exSquareW, exCircleW, exSquare, exCircle, WrapperClass.bases])).2.1
      [exSquareW] exCircleW [] 0 exCircleState rfl
      (fun G hG => by
        rw [List.mem_singleton.1 hG]
        rfl) rfl⟩

/-- C7 (failing input). Handles are created for object 7 and then for object 3, so
that the block of 7 has the lower address. `operator<` on the two handles compares
the addresses of the control blocks and is true, although `object()` of the first
is 7 and of the second is 3. -/
theorem handle_less_than_by_block_address :
    (match handleForObject (exEnv true) 5 exBaseW 7 State.empty with
      | .ok (h1, s1) =>
        (match handleForObject (exEnv true) 5 exBaseW 3 s1 with
          | .ok (h2, s2) =>
            some (ObjectHandle.lt h1 h2, h1.object (exEnv true) exBase s2,
              h2.object (exEnv true) exBase s2)
          | .error _ => none)
      | .error _ => none) = some (true, .ok 7, .ok 3) := rfl

/-- C8. Hashing is by raw object: `qHash` of a handle or view is `qHash` of its
`object()`; a handle and a view with the same object hash equally; and two wrappers
that compare equal (handle with handle, view with view, handle with view) have equal
hashes. -/
theorem qHash_by_object {L : Type} (E : Env L) (T : WrapperClass) (s : State)
    (h : ObjectHandle) (v : ObjectView) (seed : Nat) :
    h.qHash E T s seed = (h.object E T s).map (fun o => E.qHashPtr o seed) ∧
    v.qHash E T s seed = (v.object E T s).map (fun o => E.qHashPtr o seed) ∧
    (h.object E T s = v.object E T s → h.qHash E T s seed = v.qHash E T s seed) ∧
    (∀ h2 : ObjectHandle, ObjectHandle.eq h h2 = true →
      h.qHash E T s seed = h2.qHash E T s seed) ∧
    (∀ v2 : ObjectView, ObjectView.eq E T s v v2 = .ok true →
      v.qHash E T s seed = v2.qHash E T s seed) ∧
    (HandleView.eq E T s h v = .ok true → h.qHash E T s seed = v.qHash E T s seed) := by
  have hh : h.qHash E T s seed = (h.object E T s).map (fun o => E.qHashPtr o seed) := by
    unfold ObjectHandle.qHash
    cases h.object E T s <;> rfl
  have hv : ∀ v : ObjectView,
      v.qHash E T s seed = (v.object E T s).map (fun o => E.qHashPtr o seed) := by
    intro v
    unfold ObjectView.qHash
    cases v.object E T s <;> rfl
  refine ⟨hh, hv v, ?_, ?_, ?_, ?_⟩
  · intro he
    rw [hh, hv, he]
  · intro h2 he
    have : h = h2 := by
      cases h with
      | mk d =>
        cases h2 with
        | mk d2 =>
          simp only [ObjectHandle.eq, ObjectHandle.d_ptr, addressOf, beq_iff_eq] at he
          cases d <;> cases d2 <;> simp_all
    rw [this]
  · intro v2 he
    rw [hv, hv]
    simp only [ObjectView.eq, ObjectView.ne, ObjectView.viaObjects] at he
    cases h1 : v.object E T s with
    | error e => simp [h1, Except.map] at he
    | ok a =>
      cases h2 : v2.object E T s with
      | error e => simp [h1, h2, Except.map] at he
      | ok b =>
        simp only [h1, h2, Except.map, Except.ok.injEq, Bool.not_eq_true', bne_eq_false_iff_eq] at he
        rw [he]
  · intro he
    rw [hh, hv]
    simp only [HandleView.eq, HandleView.ne, ObjectView.viaObjects] at he
    cases h1 : h.object E T s with
    | error e => simp [h1, Except.map] at he
    | ok a =>
      cases h2 : v.object E T s with
      | error e => simp [h1, h2, Except.map] at he
      | ok b =>
        simp only [h1, h2, Except.map, Except.ok.injEq, Bool.not_eq_true', bne_eq_false_iff_eq] at he
        rw [he]

/-- Witness for C8: the handle and the view of object 7 in the example state. -/
theorem qHash_by_object_witness :
    ObjectHandle.object (exEnv true) exBase exBaseState ⟨some 0⟩ =
      ObjectView.object (exEnv true) exBase exBaseState ⟨some 0⟩ ∧
    ObjectHandle.eq ⟨some 0⟩ ⟨some 0⟩ = true ∧
    ObjectView.eq (exEnv true) exBase exBaseState ⟨some 0⟩ ⟨some 0⟩ = .ok true ∧
    HandleView.eq (exEnv true) exBase exBaseState ⟨some 0⟩ ⟨some 0⟩ = .ok true ∧
    ObjectHandle.qHash (exEnv true) exBase exBaseState ⟨some 0⟩ 11 =
      ObjectView.qHash (exEnv true) exBase exBaseState ⟨some 0⟩ 11 ∧
    ObjectHandle.qHash (exEnv true) exBase exBaseState ⟨some 0⟩ 11 =
      ObjectHandle.qHash (exEnv true) exBase exBaseState ⟨some 0⟩ 11 ∧
    ObjectView.qHash (exEnv true) exBase exBaseState ⟨some 0⟩ 11 =
      ObjectView.qHash (exEnv true) exBase exBaseState ⟨some 0⟩ 11 :=
  ⟨rfl, rfl, rfl, rfl,
    (qHash_by_object (exEnv true) exBase exBaseState ⟨some 0⟩ ⟨some 0⟩ 11).2.2.1 rfl,
    (qHash_by_object (exEnv true) exBase exBaseState ⟨some 0⟩ ⟨some 0⟩ 11).2.2.2.1
      ⟨some 0⟩ rfl,
    (qHash_by_object (exEnv true) exBase exBaseState ⟨some 0⟩ ⟨some 0⟩ 11).2.2.2.2.1
      ⟨some 0⟩ rfl⟩

/-- C9. On an existing block whose semaphore is available and whose tree has a node
of the declaring class with slot `i` and a non-null object, the generated setter is
called with `v`. Where the write emits the notify signal of the property and the block
is connected to it (its semaphore having the one resource of `QSemaphore { 1 }`), the
functor of the block runs inside the write and waits for the semaphore that the setter
holds: the setter does not return. Where the write emits no signal or no block is
connected to it, the setter returns, and the generated getter called next returns the
phase-2 wrapped `v`, which is `v` for a value of the wrapped type, when caching is
enabled; when caching is disabled it returns the wrapped value fetched from the live
object after the write, which is `v` whenever fetching after a write gives the written
value. The getter leaves the state as it is. -/
theorem setter_getter_round_trip {L : Type} (E : Env L) (live : L) (cls : WrapperClass)
    (i F : Nat) (b : Nat) (s : State) (blk : ObjectWrapperPrivate) (c : WrapperClass)
    (ds : List Value) (bs : List PropertyCache) (o : Ptr) (v : Value)
    (hblk : s.heap[b]? = some (some blk)) (hsem : blk.semaphore ≠ 0)
    (hnode : blk.m_cache.cache cls.id = .ok (.node c ds bs o)) (ho : o ≠ 0)
    (hi : i < ds.length) :
    (E.emitsNotify live o cls.id i (unwrap v) = true → ⟨cls.id, i, o⟩ ∈ blk.connections →
      blk.semaphore = 1 → ∃ e, setter E live cls i F (some b) v s = .error e) ∧
    (E.emitsNotify live o cls.id i (unwrap v) = false ∨ s.NoListener ⟨cls.id, i, o⟩ →
      ∃ s1 live1, setter E live cls i F (some b) v s = .ok (s1, live1) ∧
        (cls.cachingDisabled = false →
          getter E live1 cls i F (some b) s1 = .ok (wrapPhase2 F v, s1) ∧
          (wrap F v = v → getter E live1 cls i F (some b) s1 = .ok (v, s1))) ∧
        (cls.cachingDisabled = true →
          getter E live1 cls i F (some b) s1 =
            .ok (wrap F (E.fetch live1 o cls.id i), s1) ∧
          (E.fetch (E.write live o cls.id i (unwrap v)) o cls.id i = unwrap v →
            wrap F (unwrap v) = v →
            getter E live1 cls i F (some b) s1 = .ok (v, s1)))) := by
  refine ⟨fun hemit hconn hsem1 =>
    setter_blocked E live cls i F b s blk c ds bs o v hblk hsem1 hnode ho hi hemit hconn,
    fun hquiet => ?_⟩
  have hset := setter_ok E live cls i F b s blk c ds bs o v hblk hsem hnode ho hi hquiet
  have hcid : c.id = cls.id := cache_id cls.id blk.m_cache c ds bs o hnode
  have hb : b < s.heap.length := State.Alive.lt ⟨blk, hblk⟩
  refine ⟨_, _, hset, ?_, ?_⟩
  · intro hcd
    simp only [hcd, Bool.false_eq_true, if_false]
    have hrd := cache_replace cls.id (.node c (ds.set i v) bs o)
      (by simp [PropertyCache.isA, hcid]) blk.m_cache c ds bs o hnode
    have hg := getter_ok E (E.write live o cls.id i (unwrap v)) cls i F b
      (s.store (some b)
        { blk with m_cache := blk.m_cache.replace cls.id (.node c (ds.set i v) bs o) })
      { blk with m_cache := blk.m_cache.replace cls.id (.node c (ds.set i v) bs o) }
      c (ds.set i v) bs o v (State.heap_store_self s b _ hb) hsem hrd ho
      (by simp [List.getElem?_set, hi])
    simp only [hcd, Bool.false_eq_true, if_false] at hg
    refine ⟨hg, fun hv => ?_⟩
    rw [hg]
    by_cases hF : F &&& ForeignPointerBit = 0
    · simp [wrapPhase2, hF]
    · simp [wrapPhase2, hF, hv]
  · intro hcd
    simp only [hcd, if_true]
    have hx : ds[i]? = some ds[i] := List.getElem?_eq_getElem hi
    have hg := getter_ok E (E.write live o cls.id i (unwrap v)) cls i F b s blk c ds bs o
      ds[i] hblk hsem hnode ho hx
    simp only [hcd, if_true] at hg
    refine ⟨hg, fun hcons hv => ?_⟩
    rw [hg, hcons, hv]

/-- Witness for C9: `setText(9)` on the wrapper of the label at 7 that shows 5, whose
block is connected to the notify signal of `text`, and `setX(9)` and then `x()` on the
wrapper of `Base`, for which nothing is connected. -/
theorem setter_getter_round_trip_witness :
    handleForObject exLabelEnv 5 exLabelW 7 State.empty = .ok (⟨some 0⟩, exLabelState) ∧
    faultOf (setter exLabelEnv 5 exLabel 0 (Getter ||| QProp) (some 0) (.int 9) exLabelState) =
      some .blocked ∧
    (∃ e, setter exLabelEnv 5 exLabel 0 (Getter ||| QProp) (some 0) (.int 9) exLabelState =
      .error e) ∧
    ∃ s1 live1, setter (exEnv true) 5 exBase 0 Getter (some 0) (.int 9) exBaseState =
        .ok (s1, live1) ∧
      (exBase.cachingDisabled = false →
        getter (exEnv true) live1 exBase 0 Getter (some 0) s1 =
          .ok (wrapPhase2 Getter (.int 9), s1) ∧
        (wrap Getter (.int 9) = .int 9 →
          getter (exEnv true) live1 exBase 0 Getter (some 0) s1 = .ok (.int 9, s1))) ∧
      (exBase.cachingDisabled = true →
        getter (exEnv true) live1 exBase 0 Getter (some 0) s1 =
          .ok (wrap Getter ((exEnv true).fetch live1 7 exBase.id 0), s1) ∧
        ((exEnv true).fetch ((exEnv true).write 5 7 exBase.id 0 (unwrap (.int 9))) 7
            exBase.id 0 = unwrap (.int 9) →
          wrap Getter (unwrap (.int 9)) = .int 9 →
          getter (exEnv true) live1 exBase 0 Getter (some 0) s1 = .ok (.int 9, s1))) :=
  ⟨rfl, rfl,
    (setter_getter_round_trip exLabelEnv 5 exLabel 0 (Getter ||| QProp) 0 exLabelState
      exLabelBlock exLabel [.int 5] [] 7 (.int 9) rfl (by decide) rfl (by decide)
      (by decide)).1 rfl (by decide) rfl,
    (setter_getter_round_trip (exEnv true) 5 exBase 0 Getter 0 exBaseState exBaseBlock exBase
      [.int 5] [] 7 (.int 9) rfl (by decide) rfl (by decide) (by decide)).2 (Or.inl rfl)⟩

/-- C12 (counterexample). `Base` is not a `QObject`. After the object at 7 is gone,
the handle and the view of its block still report valid. -/
theorem isValid_stays_true_for_non_qobject :
    exQEnv.isValidObject false 7 = false ∧
    ObjectHandle.object exQEnv exBase exBaseState ⟨some 0⟩ = .ok 7 ∧
    ObjectHandle.isValid exQEnv false exBase exBaseState ⟨some 0⟩ = .ok true ∧
    ObjectView.isValid exQEnv false exBase exBaseState ⟨some 0⟩ = .ok true :=
  ⟨rfl, rfl, rfl, rfl⟩

/-- C12 (amended). For a `QObject` class, once the probe reports the object that a
handle or view refers to as invalid, `isValid` of the handle and of the view is
false, and so is `isValid` of a view whose block is gone; for a class that is not a
`QObject`, `isValid` tests the cached pointer only and does not depend on the state
of the live objects. -/
theorem isValid_after_invalidation {L : Type} (E : Env L) (T : WrapperClass) (s : State) :
    (T.isQObject = true → ∀ (live : L) (o : Ptr), E.isValidObject live o = false →
      (∀ h : ObjectHandle, h.object E T s = .ok o → h.isValid E live T s = .ok false) ∧
      (∀ v : ObjectView, v.object E T s = .ok o → v.isValid E live T s = .ok false)) ∧
    (T.isQObject = false → ∀ (live live1 : L),
      (∀ h : ObjectHandle, h.isValid E live T s = h.isValid E live1 T s) ∧
      (∀ v : ObjectView, v.isValid E live T s = v.isValid E live1 T s)) := by
  refine ⟨fun hQ live o hinv => ⟨fun h ho => ?_, fun v ho => ?_⟩,
    fun hQ live live1 => ⟨fun h => ?_, fun v => ?_⟩⟩
  · simp only [ObjectHandle.isValid, ho, hQ, if_true, hinv]
  · simp only [ObjectView.object] at ho
    simp only [ObjectView.isValid]
    cases hl : (v.lock s).d with
    | none => rfl
    | some i =>
      rw [hl] at ho
      simp only at ho ⊢
      cases hd : s.deref (some i) with
      | error e => rw [hd] at ho; cases ho
      | ok blk =>
        rw [hd] at ho
        simp only at ho ⊢
        rw [ho]
        simp only [hQ, if_true, hinv]
  · simp only [ObjectHandle.isValid, hQ]
    rfl
  · simp only [ObjectView.isValid, hQ]
    rfl

/-- Witness for C12: a handle of the `QObject` at 7 after the object is gone. -/
theorem isValid_after_invalidation_witness :
    exQ.isQObject = true ∧ exQEnv.isValidObject false 7 = false ∧
    ObjectHandle.object exQEnv exQ ⟨[some ⟨.node exQ [] [] 7, [], 1⟩], fun _ => some 0⟩
      ⟨some 0⟩ = .ok 7 ∧
    ObjectHandle.isValid exQEnv false exQ ⟨[some ⟨.node exQ [] [] 7, [], 1⟩], fun _ => some 0⟩
      ⟨some 0⟩ = .ok false :=
  ⟨rfl, rfl, rfl,
    ((isValid_after_invalidation exQEnv exQ
      ⟨[some ⟨.node exQ [] [] 7, [], 1⟩], fun _ => some 0⟩).1 rfl false 7 rfl).1 ⟨some 0⟩ rfl⟩

/-- C13. On a view whose control block is gone, `object()` and `data()` return null,
`isValid()` returns false and `lock()` an empty handle; `refresh()` dereferences the
null pointer that `d.lock()` returned. -/
theorem view_of_missing_block {L : Type} (E : Env L) (live : L) (T : WrapperClass)
    (s : State) (v : ObjectView) (hgone : (v.lock s).d = none) :
    v.object E T s = .ok 0 ∧ v.data E T s = .ok 0 ∧ v.isValid E live T s = .ok false ∧
      v.lock s = ⟨none⟩ ∧ v.refresh E live T s = .error .nullDeref := by
  refine ⟨?_, ?_, ?_, ?_, ?_⟩
  · simp only [ObjectView.object, hgone]
  · simp only [ObjectView.data, ObjectView.object, hgone]
  · simp only [ObjectView.isValid, hgone]
  · cases hl : v.lock s with
    | mk d =>
      rw [hl] at hgone
      simp only at hgone
      rw [hgone]
  · simp only [ObjectView.refresh, hgone, State.deref]

/-- Witness for C13: a view of block 0 of `exBaseState` after the block was destroyed. -/
theorem view_of_missing_block_witness :
    (ObjectView.lock exBaseState.destroyed0 ⟨some 0⟩).d = none ∧
    ObjectView.isValid (exEnv true) 5 exBase exBaseState.destroyed0 ⟨some 0⟩ = .ok false ∧
    ObjectView.refresh (exEnv true) 5 exBase exBaseState.destroyed0 ⟨some 0⟩ =
      .error .nullDeref :=
  ⟨rfl, (view_of_missing_block (exEnv true) 5 exBase exBaseState.destroyed0 ⟨some 0⟩ rfl).2.2.1,
    (view_of_missing_block (exEnv true) 5 exBase exBaseState.destroyed0 ⟨some 0⟩ rfl).2.2.2.2⟩

/-- C14 (counterexample). A generated getter called through an empty handle fails the
assertion `Q_ASSERT(d_ptr())`, or dereferences the null pointer where assertions are
not compiled in, and `refresh()` dereferences the null pointer. -/
theorem getter_on_empty_handle_asserts :
    faultOf (getter (exEnv true) 5 exBase 0 Getter (ObjectHandle.mk none).d exBaseState) =
      some .assertion ∧
    faultOf (getter (exEnv false) 5 exBase 0 Getter (ObjectHandle.mk none).d exBaseState) =
      some .nullDeref ∧
    faultOf (ObjectHandle.refresh (exEnv true) 5 exBase exBaseState ⟨none⟩) =
      some .nullDeref :=
  ⟨rfl, rfl, rfl⟩

/-- C14 (amended). Through an empty handle (default constructed or cleared) `object()`
is null and `isValid()` is false, for a `QObject` class what the probe answers for
the null pointer; a generated getter called through it fails `Q_ASSERT(d_ptr())`
where assertions are compiled in and dereferences the null pointer otherwise. -/
theorem empty_handle_reads {L : Type} (E : Env L) (live : L) (T : WrapperClass) (s : State)
    (h : ObjectHandle) (i F : Nat) :
    h.clear = ⟨none⟩ ∧
    h.clear.object E T s = .ok 0 ∧
    h.clear.isValid E live T s = .ok (T.isQObject && E.isValidObject live 0) ∧
    faultOf (getter E live T i F h.clear.d s) =
      some (if E.assertsEnabled then .assertion else .nullDeref) := by
  refine ⟨rfl, rfl, ?_, ?_⟩
  · simp only [ObjectHandle.isValid, ObjectHandle.object, ObjectHandle.clear]
    cases T.isQObject <;> simp
  · simp only [getter, ObjectHandle.clear, Q_ASSERT, Option.isSome]
    cases E.assertsEnabled <;> simp [State.deref, faultOf]

/-- C15. For a handle `h` of type `T` and a class `U` of the hierarchy of `T`, first
or later declared bases alike, the conversions to `ObjectHandle<U>` and to
`ObjectView<U>` give wrappers with the control block pointer of `h`; where the block
of `h` is a complete cache of `T` for the object at `o`, `object()` of the converted
handle is `o`, as `object()` of `h`, and the converted view locks to `h`. -/
theorem upcast_keeps_control_block {L : Type} (E : Env L) (s : State) (T U : WrapperClass)
    (h : ObjectHandle) (hU : U ∈ T.hierarchy) :
    h.toObjectHandle T U.id = some ⟨h.d⟩ ∧ h.toObjectView T U.id = some ⟨h.d⟩ ∧
    ∀ b blk o, h.d = some b → s.heap[b]? = some (some blk) → blk.m_cache.IsCacheOf o T →
      h.object E T s = .ok o ∧ ObjectHandle.object E U s ⟨h.d⟩ = .ok o ∧
      ObjectView.lock s ⟨h.d⟩ = h := by
  obtain ⟨hsound, hcomplete⟩ := WrapperObject.staticCast_construct h.d U.id T
  obtain ⟨w, hw⟩ := hcomplete ⟨U, hU, rfl⟩
  obtain ⟨X, hX⟩ := hsound w hw
  have hd : w.d = h.d := hX ▸ WrapperObject.construct_d h.d X
  refine ⟨?_, ?_, ?_⟩
  · simp only [ObjectHandle.toObjectHandle, ObjectHandle.m_d, hw, hd]
  · simp only [ObjectHandle.toObjectView, ObjectHandle.m_d, hw, hd]
  · intro b blk o hb hblk hT
    have hderef : s.deref (some b) = .ok blk := by simp only [State.deref, hblk]
    refine ⟨?_, ?_, ?_⟩
    · simp only [ObjectHandle.object, hb, hderef]
      exact object_of_found E (found_of_mem_hierarchy hT (self_mem_hierarchy T))
    · simp only [ObjectHandle.object, hb, hderef]
      exact object_of_found E (found_of_mem_hierarchy hT hU)
    · cases h with
      | mk d =>
        simp only at hb
        subst hb
        simp only [ObjectView.lock, State.lock, hblk]

/-- Witness for C15: a handle of `D` converted to its second declared base `B2`. -/
theorem upcast_keeps_control_block_witness :
    exB2 ∈ exD.hierarchy ∧
    ObjectHandle.toObjectHandle exD exB2.id ⟨some 0⟩ = some ⟨some 0⟩ ∧
    ObjectHandle.toObjectView exD exB2.id ⟨some 0⟩ = some ⟨some 0⟩ ∧
    ObjectHandle.object (exEnv true) exD exDState ⟨some 0⟩ = .ok 7 ∧
    ObjectHandle.object (exEnv true) exB2 exDState ⟨some 0⟩ = .ok 7 ∧
    ObjectView.lock exDState ⟨some 0⟩ = ⟨some 0⟩ :=
  have hU : exB2 ∈ exD.hierarchy := by
    simp [exD, exB1, exB2, WrapperClass.hierarchy, hierarchyOfBases]
  have h := upcast_keeps_control_block (exEnv true) exDState exD exB2 ⟨some 0⟩ hU
  have h3 := h.2.2 0 _ 7 rfl rfl
    (by simp [exD, exB1, exB2, PropertyCache.IsCacheOf, AreCachesOf, WrapperClass.bases])
  ⟨hU, h.1, h.2.1, h3.1, h3.2.1, h3.2.2⟩

/-- C17 (counterexample). `Shape` is polymorphic, `Circle` is declared with
`DEFINE_OBJECT_WRAPPER_WB(Circle, Shape)`, and the object at 7 is a `Circle`. With no
block registered, `handleForObject<Shape>` for it returns a handle whose block is
complete for `Shape` and for `Circle`; the getter of `x` returns 5. -/
theorem handleForObject_polymorphic_base_is_complete_for_derived :
    (match handleForObject exShapeEnv 5 exShapeW 7 State.empty with
      | .ok (h, s) =>
        some (h.d,
          (match s.deref h.d with
            | .ok blk => some (blk.isComplete exShape.id, blk.isComplete exCircle.id)
            | .error _ => none),
          (match getter exShapeEnv 5 exShape 0 Getter h.d s with
            | .ok (v, _) => some v
            | .error _ => none))
      | .error _ => none) = some (some 0, some (.ok true, .ok true), some (.int 5)) := rfl

/-- C17 (amended). `Base` is not polymorphic, so the default `downcast` returns null
and every factory registered with `Base` declines. For a valid object `o` in the
calling thread with no registry entry, `handleForObject<Base>` creates a block that is
complete for `Base` and not complete for a class `Derived` outside the hierarchy of
`Base`; the getter of a property of `Base` then returns the wrapped value that the
live object had at creation (the value itself for a property that is no pointer to a
wrapped class). -/
theorem handleForObject_nonpolymorphic_base {L : Type} (E : Env L) (live : L)
    (Base Derived : WrapperClass) (fs : List ObjectWrapper) (o : Ptr) (s : State) (i : Nat)
    (p : PropDecl) (ho : o ≠ 0) (hreg : s.m_objectToWrapperPrivateMap o = none)
    (hpoly : Base.polymorphic = false) (hvalid : checkValidObject E live Base o = true)
    (hthread : checkCorrectThread E live Base o = true)
    (hcache : Base.cachingDisabled = false) (hD : ∀ X ∈ Base.hierarchy, X.id ≠ Derived.id)
    (hp : Base.props[i]? = some p) (hi : i < 255) :
    ∃ s1 blk, handleForObject E live (.mk Base fs) o s = .ok (⟨some s.heap.length⟩, s1) ∧
      s1.heap[s.heap.length]? = some (some blk) ∧
      blk.isComplete Base.id = .ok true ∧ blk.isComplete Derived.id = .ok false ∧
      getter E live Base i p.flags (some s.heap.length) s1 =
        .ok (wrap p.flags (E.fetch live o Base.id i), s1) := by
  obtain ⟨s1, blk, hown, hblk, hC, hsem, hfresh⟩ := createOwn_block E live Base ho s
  have hF := hfresh hcache
  obtain ⟨ds, bs, hnode, _⟩ := isCacheOf_node hC
  have hcreate : create E live (.mk Base fs) o s = .ok (some s.heap.length, s1) := by
    simp only [create, hvalid, Bool.not_true, Bool.false_eq_true, if_false, Q_ASSERT, hthread,
      Bool.and_false, subclassFactoryLoop_nonpolymorphic E live Base hpoly o s fs, hown]
  refine ⟨s1, blk, ?_, hblk, ?_, isComplete_false_of_not_mem hC hD, ?_⟩
  · simp only [handleForObject, ho, if_false, hreg, hcreate]
  · exact isComplete_of_found (found_of_mem_hierarchy hC (self_mem_hierarchy Base))
  · rw [hnode] at hF
    simp only [PropertyCache.Fresh] at hF
    have hx : ds[i]? = some (wrapPhase1 p.flags (E.fetch live o Base.id i)) := by
      rw [hF.1]
      exact liveData_getElem? E live Base o i p hp 255 hi
    have hlook : blk.m_cache.cache Base.id = .ok (.node Base ds bs o) := by
      rw [hnode]
      simp [PropertyCache.cache]
    have hg := getter_ok E live Base i p.flags s.heap.length s1 blk Base ds bs o _ hblk
      (by rw [hsem]; decide) hlook ho hx
    rw [hg]
    simp only [hcache, Bool.false_eq_true, if_false, wrapPhase2_wrapPhase1_eq_wrap]

/-- Witness for C17: the scenario on the non-polymorphic `Base` with the factory of
`Derived` registered, for the object at 7 whose `x` is 5. -/
theorem handleForObject_nonpolymorphic_base_witness :
    ∃ s1 blk, handleForObject (exEnv true) 5 exBaseW 7 State.empty = .ok (⟨some 0⟩, s1) ∧
      s1.heap[0]? = some (some blk) ∧
      blk.isComplete exBase.id = .ok true ∧ blk.isComplete exDerived.id = .ok false ∧
      getter (exEnv true) 5 exBase 0 Getter (some 0) s1 = .ok (.int 5, s1) :=
  handleForObject_nonpolymorphic_base (exEnv true) 5 exBase exDerived [exDerivedW] 7
    State.empty 0 exX (by decide) rfl rfl rfl rfl rfl
    (by simp [exBase, exDerived, WrapperClass.hierarchy, hierarchyOfBases, WrapperClass.id])
    rfl (by decide)

/-- C18. The block of the object at 7 is shared and its semaphore is taken by another
operation. The generated getter and setter, `refresh_x` and the functor of a notify
signal wait for the semaphore. `refresh()` of a handle and of a view, and
`handleForObject<Derived>` expanding the block, do not acquire it: they run `update`
and overwrite slot 0 of the `Base` node, 5 before, with the live value 9. -/
theorem update_runs_without_semaphore :
    faultOf (getter (exEnv true) 9 exBase 0 Getter (some 0) exHeldState) = some .blocked ∧
    faultOf (setter (exEnv true) 9 exBase 0 Getter (some 0) (.int 3) exHeldState) =
      some .blocked ∧
    faultOf (refresh_property (exEnv true) 9 exBase 0 Getter (some 0) exHeldState) =
      some .blocked ∧
    faultOf (notifyFunctor (exEnv true) 9 exBase 0 Getter 0 exHeldState) = some .blocked ∧
    slotOfBlock0 (exEnv true) exHeldState exBase.id 0 = .ok (.int 5) ∧
    (match ObjectHandle.refresh (exEnv true) 9 exBase exHeldState ⟨some 0⟩ with
      | .ok s1 => slotOfBlock0 (exEnv true) s1 exBase.id 0
      | .error e => .error e) = .ok (.int 9) ∧
    (match ObjectView.refresh (exEnv true) 9 exBase exHeldState ⟨some 0⟩ with
      | .ok s1 => slotOfBlock0 (exEnv true) s1 exBase.id 0
      | .error e => .error e) = .ok (.int 9) ∧
    (match handleForObject (exEnv true) 9 exDerivedW 7 exHeldState with
      | .ok (_, s1) => slotOfBlock0 (exEnv true) s1 exBase.id 0
      | .error e => .error e) = .ok (.int 9) :=
  ⟨rfl, rfl, rfl, rfl, rfl, rfl, rfl, rfl⟩

/-- C19 (counterexample). `D` declares the bases `B1` and `B2`; the existing tree is
rooted at `B2`, the later declared base, and its slot holds "hi". With assertions
`fromBaseclassCache` for `D` stops in `Q_ASSERT`. Without them it returns a tree with a
null first base cache and a new `B2` node with the initial value: the given tree is no
sub-tree of it, and the lookup of `B2` dereferences the null pointer. -/
theorem fromBaseclassCache_later_base_root :
    exB2 ∈ exD.bases ∧
    faultOf (fromBaseclassCache true exD 7 (.node exB2 [.str "hi"] [] 7)) = some .assertion ∧
    (match fromBaseclassCache false exD 7 (.node exB2 [.str "hi"] [] 7) with
      | .ok t1 => some (t1.nodes, t1.firstBase.isNull, faultOf (t1.cache exB2.id))
      | .error _ => none) =
      some ([(23, []), (22, [.str ""])], true, some .nullDeref) :=
  ⟨by simp [exD, WrapperClass.bases], rfl, rfl⟩

/-- C19 (amended). For a class `C` and an existing complete tree `t` whose root class
is reached from `C` along the chain of first declared bases, `t` having no node of
the classes passed on the way, `fromBaseclassCache` returns a complete tree rooted at
`C` in which `t` is the first base cache, or the first base cache of that one, and so
on; every lookup that found a node in `t` returns the identical node, slots included,
in the result, and the lookup of `C` returns the root. -/
theorem fromBaseclassCache_keeps_subtree (dbg : Bool) (o : Ptr) (t : PropertyCache)
    (R : WrapperClass) (ht : t.IsCacheOf o R) (C : WrapperClass) (hexp : Expandable t C) :
    ∃ t1, fromBaseclassCache dbg C o t = .ok t1 ∧ t1.IsCacheOf o C ∧
      (∃ k : Nat, PropertyCache.firstBase^[k] t1 = t) ∧
      (∀ T r, t.cache T = .ok r → r ≠ .null → t1.cache T = .ok r) ∧
      t1.cache C.id = .ok t1 := by
  obtain ⟨t1, h1, hC, hmono⟩ := fromBaseclassCache_of_expandable dbg o t R ht C hexp
  refine ⟨t1, h1, hC, fromBaseclassCache_firstBase dbg o t R ht C hexp t1 h1, hmono, ?_⟩
  obtain ⟨ds, bs, hnode, _⟩ := isCacheOf_node hC
  rw [hnode]
  simp [PropertyCache.cache]

/-- Witness for C19: the tree rooted at `Base` with `x` = 5 expanded to `Derived`. -/
theorem fromBaseclassCache_keeps_subtree_witness :
    ∃ t1, fromBaseclassCache true exDerived 7 (.node exBase [.int 5] [] 7) = .ok t1 ∧
      t1.IsCacheOf 7 exDerived ∧
      (∃ k : Nat, PropertyCache.firstBase^[k] t1 = .node exBase [.int 5] [] 7) ∧
      (∀ T r, (PropertyCache.node exBase [.int 5] [] 7).cache T = .ok r → r ≠ .null →
        t1.cache T = .ok r) ∧
      t1.cache exDerived.id = .ok t1 :=
  fromBaseclassCache_keeps_subtree true 7 (.node exBase [.int 5] [] 7) exBase
    (by simp [exBase, PropertyCache.IsCacheOf, AreCachesOf, WrapperClass.bases])
    exDerived (Or.inr ⟨rfl, rfl⟩)

/-- C20. On a tree without null pointers `cache(type)` returns the first node of the
requested type met depth first in declaration order, null if there is none: the node
itself if it has the type, else the first non-null result of the lookups in the base
caches in declaration order. So it returns a node exactly if the tree has a node of
that type, and a node it returns has the requested type. -/
theorem cache_lookup_by_type (t : PropertyCache) (type : TypeId) (ht : t.hasNoNull = true) :
    t.cache type = .ok (t.firstOfType type) ∧
    (t.isA type = true → t.firstOfType type = t) ∧
    (t.isA type = false →
      t.firstOfType type = firstNonNull (t.m_baseCaches.map (fun c => c.firstOfType type))) ∧
    (t.firstOfType type ≠ .null ↔ type ∈ t.nodeIds) ∧
    (t.firstOfType type ≠ .null → (t.firstOfType type).isA type = true) := by
  refine ⟨cache_eq_firstOfType type t ht, ?_, ?_, ?_, ?_⟩
  · intro hA
    cases t with
    | null => simp [PropertyCache.isA] at hA
    | node cls ds bs o =>
      simp only [PropertyCache.firstOfType, PropertyCache.subtrees, firstOfList,
        List.find?_cons, hA]
  · intro hA
    cases t with
    | null => simp [PropertyCache.hasNoNull] at ht
    | node cls ds bs o =>
      simp only [PropertyCache.m_baseCaches, ← firstOfList_bases]
      simp only [PropertyCache.firstOfType, PropertyCache.subtrees, firstOfList,
        List.find?_cons, hA]
  · rw [mem_nodeIds_iff_subtrees]
    exact firstOfList_ne_null_iff type t.subtrees
  · exact firstOfList_isA type t.subtrees

/-- Witness for C20: lookups in the tree of `D` with the base caches of `B1` and
`B2`. -/
theorem cache_lookup_by_type_witness :
    (PropertyCache.node exD [] [.node exB1 [.int 5] [] 7, .node exB2 [.str "hi"] [] 7]
      7).cache exB2.id = .ok (.node exB2 [.str "hi"] [] 7) ∧
    (PropertyCache.node exD [] [.node exB1 [.int 5] [] 7, .node exB2 [.str "hi"] [] 7]
      7).cache 99 = .ok .null :=
  ⟨(cache_lookup_by_type
      (.node exD [] [.node exB1 [.int 5] [] 7, .node exB2 [.str "hi"] [] 7] 7) exB2.id rfl).1,
    (cache_lookup_by_type
      (.node exD [] [.node exB1 [.int 5] [] 7, .node exB2 [.str "hi"] [] 7] 7) 99 rfl).1⟩

/-- C21. The block `d` holds a complete cache tree, of a class `C`, for the non-null
object at `o`, and `n` is a complete cache of a class `C1` of the hierarchy of `C`.
Then `update(d)` on `n` returns a tree of the same shape (one base cache per declared
base of each class, in declaration order), and in every node of it the data storage
has one slot per declared property, slot `i` holding the phase-1-wrapped value
fetched live for property `i` of the class of the node. -/
theorem update_refreshes_subtree {L : Type} (E : Env L) (live : L) (d : ObjectWrapperPrivate)
    (o : Ptr) (C C1 : WrapperClass) (n : PropertyCache) (ho : o ≠ 0)
    (hd : d.m_cache.IsCacheOf o C) (hC1 : C1 ∈ C.hierarchy) (hn : n.IsCacheOf o C1) :
    ∃ n1, n.update E live d = .ok n1 ∧ n1.IsCacheOf o C1 ∧
      ∀ m ∈ n1.subtrees, ∃ cls ds bs, m = .node cls ds bs o ∧ cls ∈ C1.hierarchy ∧
        ds.length = min 255 cls.props.length ∧
        ∀ i p, i < 255 → cls.props[i]? = some p →
          ds[i]? = some (wrapPhase1 p.flags (E.fetch live o cls.id i)) := by
  have hobj : ∀ T ∈ n.nodeIds, d.object E T = .ok o := by
    intro T hT
    rw [nodeIds_of_isCacheOf o n C1 hn, List.mem_map] at hT
    obtain ⟨X, hX, hXT⟩ := hT
    rw [← hXT]
    exact object_of_found E
      (found_of_mem_hierarchy hd (hierarchy_subset_of_mem_hierarchy C C1 hC1 hX))
  obtain ⟨n1, h1, hC, hF⟩ := update_of_isCacheOf E live d o ho n C1 hn hobj
  refine ⟨n1, h1, hC, fun m hm => ?_⟩
  obtain ⟨X, hX, hmX⟩ := isCacheOf_subtrees o n1 C1 hC m hm
  obtain ⟨ds, bs, hnode, _⟩ := isCacheOf_node hmX
  have hds := fresh_subtrees E live n1 hF m hm X ds bs o hnode
  refine ⟨X, ds, bs, hnode, hX, ?_, fun i p hi hp => ?_⟩
  · rw [hds, liveData_length]
  · rw [hds]
    exact liveData_getElem? E live X o i p hp 255 hi

/-- Witness for C21: `update` on the tree of `Derived` for the object at 7 while `x`
is 5. -/
theorem update_refreshes_subtree_witness :
    ∃ n1, (makeCache exDerived 7).update (exEnv true) 5 ⟨makeCache exDerived 7, [], 1⟩ =
        .ok n1 ∧ n1.IsCacheOf 7 exDerived ∧
      ∀ m ∈ n1.subtrees, ∃ cls ds bs, m = .node cls ds bs 7 ∧ cls ∈ exDerived.hierarchy ∧
        ds.length = min 255 cls.props.length ∧
        ∀ i p, i < 255 → cls.props[i]? = some p →
          ds[i]? = some (wrapPhase1 p.flags ((exEnv true).fetch 5 7 cls.id i)) :=
  update_refreshes_subtree (exEnv true) 5 ⟨makeCache exDerived 7, [], 1⟩ 7 exDerived exDerived
    (makeCache exDerived 7) (by decide) (makeCache_isCacheOf 7 exDerived)
    (self_mem_hierarchy exDerived) (makeCache_isCacheOf 7 exDerived)

/-- C22. For a wrapper with at most 255 property lines: the counter of the line at
position `i` is `i + 1`, so the storage index that its getter, setter and refresh
address, the counter minus one, is `i`, whatever the base classes declare; the data
storage of a new node and the tuple that `__data` builds for counter 255 have one
slot per line; and the tuple for counter `k + 1` is the tuple for counter `k` with the
value of the property at position `k` appended. -/
theorem storage_index_is_declaration_index {L : Type} (E : Env L) (live : L)
    (cls : WrapperClass) (hn : cls.props.length ≤ 255) :
    (∀ i, i < cls.props.length → (W_COUNTER cls.props [])[i]? = some (i + 1)) ∧
    (∀ i, i < cls.props.length → storageIndexOfLine cls i = i) ∧
    (W_COUNTER cls.props []).length = cls.props.length ∧
    (∀ o, (makeCache cls o).dataStorage.length = cls.props.length) ∧
    (∀ d t, __data E live d cls 255 = .ok t → t.length = cls.props.length) ∧
    (∀ d k p t v, cls.props[k]? = some p → __data E live d cls k = .ok t →
      stateExpr E live d cls k p = .ok v → __data E live d cls (k + 1) = .ok (t ++ [v])) := by
  have hW : W_COUNTER cls.props [] = List.range' 1 cls.props.length :=
    W_COUNTER_eq cls.props [] 0 (fun c => by simp; omega) (by omega)
  have hc : ∀ i, i < cls.props.length → (W_COUNTER cls.props [])[i]? = some (i + 1) := by
    intro i hi
    rw [hW, List.getElem?_range' _ _ hi]
    simp [Nat.add_comm]
  refine ⟨hc, fun i hi => ?_, ?_, fun o => ?_, fun d t ht => ?_,
    fun d k p t v hp ht hv => ?_⟩
  · simp [storageIndexOfLine, hc i hi]
  · rw [hW, List.length_range']
  · cases cls
    simp [makeCache, PropertyCache.dataStorage, WrapperClass.props]
  · have hlen : ∀ k t, __data E live d cls k = .ok t → t.length = min k cls.props.length := by
      intro k
      induction k with
      | zero =>
        intro t ht
        simp only [__data, Except.ok.injEq] at ht
        simp [← ht]
      | succ k ih =>
        intro t ht
        simp only [__data] at ht
        cases hp : cls.props[k]? with
        | none =>
          rw [hp] at ht
          have hk : cls.props.length ≤ k := by
            rcases Nat.lt_or_ge k cls.props.length with hlt | hge
            · rw [List.getElem?_eq_getElem hlt] at hp
              cases hp
            · exact hge
          rw [ih t ht]
          omega
        | some p =>
          simp only [hp] at ht
          have hk : k < cls.props.length := by
            rcases Nat.lt_or_ge k cls.props.length with hlt | hge
            · exact hlt
            · rw [List.getElem?_eq_none hge] at hp
              cases hp
          cases hk1 : __data E live d cls k with
          | error e => simp only [hk1] at ht; cases ht
          | ok t0 =>
            cases hs : stateExpr E live d cls k p with
            | error e => simp only [hk1, hs] at ht; cases ht
            | ok v =>
              simp only [hk1, hs, Except.ok.injEq] at ht
              rw [← ht, List.length_append, ih t0 hk1]
              simp
              omega
    rw [hlen 255 t ht]
    omega
  · simp only [__data, hp, ht, hv]

/-- Witness for C22: the wrapper of `Derived`, whose one property has counter 1 and
storage index 0 although `Base` declares a property too. -/
theorem storage_index_is_declaration_index_witness :
    exDerived.props.length ≤ 255 ∧
    (W_COUNTER exDerived.props [])[0]? = some 1 ∧
    (makeCache exDerived 7).dataStorage.length = 1 :=
  ⟨by decide,
    (storage_index_is_declaration_index (exEnv true) 5 exDerived (by decide)).1 0 (by decide),
    (storage_index_is_declaration_index (exEnv true) 5 exDerived (by decide)).2.2.2.1 7⟩

/-- C30. For a wrapper with at most 255 property lines, `createStaticMetaObject` sets
the class name, then adds the properties in the reverse of their declaration order,
each once, and then adds the meta objects of the base classes in declaration order. -/
theorem createStaticMetaObject_order (cls : WrapperClass) (hn : cls.props.length ≤ 255) :
    createStaticMetaObject cls =
      .setClassName ::
        ((cls.props.reverse.map (fun p => MetaObjectCall.addProperty p.name)) ++
          cls.bases.map (fun b => MetaObjectCall.addBaseClass b.id)) := by
  simp only [createStaticMetaObject, metadata_eq, appendBaseclassMetaObjects_eq,
    List.take_of_length_le hn, List.map_reverse]

/-- Witness for C30: a wrapper of `D` with the properties `x` and `y` and the bases
`B1` and `B2`. -/
theorem createStaticMetaObject_order_witness :
    createStaticMetaObject (.mk 23 false false false [exX, exY] [exB1, exB2]) =
      [.setClassName, .addProperty "y", .addProperty "x", .addBaseClass 21,
        .addBaseClass 22] :=
  createStaticMetaObject_order (.mk 23 false false false [exX, exY] [exB1, exB2])
    (by decide)

/-- C23 (counterexample). In the diamond `Diamond : Left, Right` with `Left : A` and
`Right : A`, the tree that the constructor builds has two nodes of type `A`, one below
each declared base. A write to slot 0 of the node that the lookup of `A` returns
changes the first of them only: the second is a node of the tree that no lookup
returns. -/
theorem diamond_has_two_nodes_of_the_common_base :
    (makeCache exDiamond 7).nodeIds = [33, 31, 30, 32, 30] ∧
    (match ObjectWrapperPrivate.setSlot (exEnv true) ⟨makeCache exDiamond 7, [], 1⟩ 30 0
        (.int 9) with
      | .ok d1 => some d1.m_cache.nodes
      | .error _ => none) =
      some [(33, []), (31, []), (30, [.int 9]), (32, []), (30, [.int 0])] :=
  ⟨rfl, rfl⟩

/-- C23 (amended). For a class `C` in whose hierarchy no type is reached along two
paths, the tree that the constructor builds has exactly one node per type of the
hierarchy, in depth-first declaration order, and each node of the tree is the one
that the lookup of its type returns. -/
theorem makeCache_one_node_per_type (C : WrapperClass) (o : Ptr)
    (hnd : (C.hierarchy.map WrapperClass.id).Nodup) :
    (makeCache C o).nodeIds = C.hierarchy.map WrapperClass.id ∧
    (makeCache C o).nodeIds.Nodup ∧
    ∀ m ∈ (makeCache C o).subtrees, (makeCache C o).cache m.typeId = .ok m := by
  have hids := nodeIds_of_isCacheOf o (makeCache C o) C (makeCache_isCacheOf o C)
  refine ⟨hids, hids ▸ hnd, fun m hm => ?_⟩
  rw [cache_eq_firstOfType m.typeId (makeCache C o) (makeCache_hasNoNull C o)]
  simp only [PropertyCache.firstOfType]
  rw [firstOfList_of_nodup (makeCache C o).subtrees
    (by rw [← nodeIds_eq_map_subtrees, hids]; exact hnd)
    (subtrees_ne_null (makeCache C o)) m hm]

/-- Witness for C23: the tree of `D` with the bases `B1` and `B2`. -/
theorem makeCache_one_node_per_type_witness :
    (exD.hierarchy.map WrapperClass.id).Nodup ∧
    (makeCache exD 7).nodeIds = [23, 21, 22] ∧
    ∀ m ∈ (makeCache exD 7).subtrees, (makeCache exD 7).cache m.typeId = .ok m :=
  have hnd : (exD.hierarchy.map WrapperClass.id).Nodup := by decide
  ⟨hnd, (makeCache_one_node_per_type exD 7 hnd).1, (makeCache_one_node_per_type exD 7 hnd).2.2⟩

/-- C27 (counterexample). `Base` is not polymorphic and is the declared base of
`Derived`: the downcast of the object at 7 to `Derived` returns null, and the factory
`createFromBase<Derived, Base>` returns no block. -/
theorem downcast_of_non_polymorphic_base_fails :
    exBase ∈ exDerived.bases ∧ exBase.polymorphic = false ∧
    downcast (exEnv true) 5 exDerived exBase 7 = 0 ∧
    (match createFromBase (exEnv true) 5 exDerivedW exBase 7 State.empty with
      | .ok (r, _) => some r
      | .error _ => none) = some none :=
  ⟨by simp [exDerived, WrapperClass.bases], rfl, rfl, rfl⟩

/-- C27 (amended). The default `downcast` from a base class that is not polymorphic
returns null for every object, and the factory `createFromBase` then returns no block
and leaves the state as it is. From a polymorphic base class it is the runtime type
check `dynamic_cast`: the pointer to the object of the derived class where the check
succeeds, with which the factory then calls `create`, null where it fails or the
pointer is null, and on null the factory returns no block. It always returns a
pointer. -/
theorem downcast_result {L : Type} (E : Env L) (live : L) (W : ObjectWrapper)
    (B : WrapperClass) (b : Ptr) (s : State) :
    (B.polymorphic = false →
      downcast E live W.cls B b = 0 ∧ createFromBase E live W B b s = .ok (none, s)) ∧
    (B.polymorphic = true → b ≠ 0 → E.dynamicCast live b W.cls.id ≠ 0 →
      downcast E live W.cls B b = E.dynamicCast live b W.cls.id ∧
      createFromBase E live W B b s = create E live W (E.dynamicCast live b W.cls.id) s) ∧
    (B.polymorphic = true → E.dynamicCast live b W.cls.id = 0 →
      downcast E live W.cls B b = 0 ∧ createFromBase E live W B b s = .ok (none, s)) := by
  refine ⟨fun hp => ?_, fun hp hb hc => ?_, fun hp hc => ?_⟩
  · simp [createFromBase, downcast, hp]
  · simp [createFromBase, downcast, hp, hb, hc]
  · simp [createFromBase, downcast, hp, hc]

/-- Witness for C27: the square factory of `Shape` declines the circle at 7. -/
theorem downcast_result_witness :
    exShape.polymorphic = true ∧ exShapeEnv.dynamicCast 5 7 exSquareW.cls.id = 0 ∧
    downcast exShapeEnv 5 exSquareW.cls exShape 7 = 0 ∧
    createFromBase exShapeEnv 5 exSquareW exShape 7 State.empty = .ok (none, State.empty) :=
  ⟨rfl, rfl, (downcast_result exShapeEnv 5 exSquareW exShape 7 State.empty).2.2 rfl rfl⟩

/-- C24 (counterexample). The block of the window at 7 is complete for `Window`, the
root of its tree, and holds one connection: `expandCache<Window>` on it returns a
block with two connections. The block of the circle at 7 is complete for `Shape`, an
inner node of its tree: `expandCache<Shape>` on it stops in `Q_ASSERT`. -/
theorem expandCache_on_complete_block :
    (match ObjectWrapperPrivate.expandCache exWindowEnv 5
        ⟨.node exWindow [.int 5] [] 7, [⟨6, 0, 7⟩], 1⟩ exWindow 7 with
      | .ok d1 => some d1.connections
      | .error _ => none) = some [⟨6, 0, 7⟩, ⟨6, 0, 7⟩] ∧
    ObjectWrapperPrivate.isComplete
      ⟨.node exCircle [.str "hi"] [.node exShape [.int 5] [] 7] 7, [], 1⟩ exShape.id =
      .ok true ∧
    faultOf (ObjectWrapperPrivate.expandCache exShapeEnv 5
      ⟨.node exCircle [.str "hi"] [.node exShape [.int 5] [] 7] 7, [], 1⟩ exShape 7) =
      some .assertion :=
  ⟨rfl, rfl, rfl⟩

/-- C24 (amended). `handleForObject<T>` calls `expandCache` only for a block that is
not complete for `T`: for a registered block that is complete it returns a handle of
that block and leaves the state as it is. `expandCache<T>` itself, on a block whose
tree is a complete cache rooted at `T`, leaves the tree as it is and runs
`__connectToUpdates` again, which appends a connection for every notifying property
of `T` and of its bases; on a block whose root is of no class of the hierarchy of `T`
it stops in `Q_ASSERT` where assertions are compiled in. -/
theorem expandCache_only_when_incomplete {L : Type} (E : Env L) (live : L) (T : WrapperClass)
    (blk : ObjectWrapperPrivate) (o : Ptr) :
    (∀ (fs : List ObjectWrapper) (s : State) (b : Nat), o ≠ 0 →
      s.m_objectToWrapperPrivateMap o = some b → s.heap[b]? = some (some blk) →
      blk.isComplete T.id = .ok true →
      handleForObject E live (.mk T fs) o s = .ok (⟨some b⟩, s)) ∧
    (o ≠ 0 → blk.m_cache.IsCacheOf o T →
      blk.expandCache E live T o =
        .ok { blk with connections := blk.connections ++ subscriptionsOf E live o T }) ∧
    (E.assertsEnabled = true → (∀ X ∈ T.hierarchy, blk.m_cache.isA X.id = false) →
      blk.expandCache E live T o = .error .assertion) := by
  refine ⟨fun fs s b ho hreg hblk hc => ?_, fun ho hT => ?_, fun ha hX => ?_⟩
  · simp only [handleForObject, ho, if_false, hreg, State.lock, hblk, State.deref,
      ObjectWrapper.cls, hc]
  · simp only [ObjectWrapperPrivate.expandCache, fromBaseclassCache_root E.assertsEnabled hT o]
    have h := connect_eq E live ho T { blk with m_cache := blk.m_cache }
      (fun X hX => found_of_mem_hierarchy hT hX)
    exact h
  · simp only [ObjectWrapperPrivate.expandCache, ha, fromBaseclassCache_asserts o blk.m_cache T hX]

/-- Witness for C24: `expandCache<Window>` on the block of the window at 7. -/
theorem expandCache_only_when_incomplete_witness :
    ObjectWrapperPrivate.expandCache exWindowEnv 5
        ⟨.node exWindow [.int 5] [] 7, [⟨6, 0, 7⟩], 1⟩ exWindow 7 =
      .ok ⟨.node exWindow [.int 5] [] 7,
        [⟨6, 0, 7⟩] ++ subscriptionsOf exWindowEnv 5 7 exWindow, 1⟩ :=
  (expandCache_only_when_incomplete exWindowEnv 5 exWindow
    ⟨.node exWindow [.int 5] [] 7, [⟨6, 0, 7⟩], 1⟩ 7).2.1 (by decide)
    (by simp [exWindow, PropertyCache.IsCacheOf, AreCachesOf, WrapperClass.bases])

/-- C25 (counterexample). The block of the object at 7 was created for `Window` and
holds the connection for `title`. `handleForObject<Dialog>` expands it: afterwards the
block holds one connection for `modal`, the property added by the expansion, and two
for `title`. -/
theorem expansion_subscribes_base_property_again :
    (match handleForObject exWindowEnv 5 exDialogW 7 exWindowState with
      | .ok (h, s1) =>
        (match s1.deref h.d with
          | .ok blk => some (blk.connections, blk.connections.count ⟨6, 0, 7⟩)
          | .error _ => none)
      | .error _ => none) = some ([⟨6, 0, 7⟩, ⟨8, 0, 7⟩, ⟨6, 0, 7⟩], 2) := rfl

/-- C25 (amended). `expandCache<C>` on a block whose tree is a complete cache, for the
non-null object at `o`, of a class `R` on the chain of first declared bases of `C`
appends to the connections of the block one connection for every notifying property
of `C` and of all its direct and indirect bases: for the properties of the classes
added by the expansion, and again for those of `R` and its bases, whatever
connections the block holds already. -/
theorem expandCache_subscribes_whole_hierarchy {L : Type} (E : Env L) (live : L)
    (blk : ObjectWrapperPrivate) (o : Ptr) (R C : WrapperClass) (ho : o ≠ 0)
    (hR : blk.m_cache.IsCacheOf o R) (hexp : Expandable blk.m_cache C) :
    ∃ d1, blk.expandCache E live C o = .ok d1 ∧ d1.m_cache.IsCacheOf o C ∧
      d1.connections = blk.connections ++ subscriptionsOf E live o C ∧
      subscriptionsOf E live o R ⊆ subscriptionsOf E live o C := by
  obtain ⟨t1, ht1, hC1, _⟩ :=
    fromBaseclassCache_of_expandable E.assertsEnabled o blk.m_cache R hR C hexp
  have h := connect_eq E live ho C { blk with m_cache := t1 }
    (fun X hX => found_of_mem_hierarchy hC1 hX)
  refine ⟨_, by simp only [ObjectWrapperPrivate.expandCache, ht1]; exact h, hC1, rfl,
    subscriptionsOf_subset E live o C R (expandable_mem_hierarchy hR C hexp)⟩

/-- Witness for C25: the block of the window at 7 expanded to `Dialog`. -/
theorem expandCache_subscribes_whole_hierarchy_witness :
    ∃ d1, ObjectWrapperPrivate.expandCache exWindowEnv 5
        ⟨.node exWindow [.int 5] [] 7, [⟨6, 0, 7⟩], 1⟩ exDialog 7 = .ok d1 ∧
      d1.m_cache.IsCacheOf 7 exDialog ∧
      d1.connections = [⟨6, 0, 7⟩] ++ subscriptionsOf exWindowEnv 5 7 exDialog ∧
      subscriptionsOf exWindowEnv 5 7 exWindow ⊆ subscriptionsOf exWindowEnv 5 7 exDialog :=
  expandCache_subscribes_whole_hierarchy exWindowEnv 5
    ⟨.node exWindow [.int 5] [] 7, [⟨6, 0, 7⟩], 1⟩ 7 exWindow exDialog (by decide)
    (by simp [exWindow, PropertyCache.IsCacheOf, AreCachesOf, WrapperClass.bases])
    (Or.inr ⟨rfl, rfl⟩)

/-- C26. On an existing block whose semaphore is available and whose tree has a node
of the declaring class with slot `i` and a non-null object, the functor of the notify
signal and, with caching enabled, `refresh_<prop>` return the same state: only the
block changes, and in it only slot `i` of the first node of the declaring class, which
now holds the phase-1-wrapped live value; every other slot of every node, the
connections, the semaphore and the registry are as before. Run again on that state
with the same live state they leave it as it is. With caching disabled
`refresh_<prop>` returns the state unchanged. -/
theorem single_slot_refresh {L : Type} (E : Env L) (live : L) (cls : WrapperClass)
    (i F : Nat) (b : Nat) (s : State) (blk : ObjectWrapperPrivate) (c : WrapperClass)
    (ds : List Value) (bs : List PropertyCache) (o : Ptr)
    (hblk : s.heap[b]? = some (some blk)) (hsem : blk.semaphore ≠ 0)
    (hnode : blk.m_cache.cache cls.id = .ok (.node c ds bs o)) (ho : o ≠ 0)
    (hi : i < ds.length) :
    ∃ s1 blk1, notifyFunctor E live cls i F b s = .ok s1 ∧
      refresh_property E live cls i F (some b) s =
        .ok (if cls.cachingDisabled then s else s1) ∧
      s1.m_objectToWrapperPrivateMap = s.m_objectToWrapperPrivateMap ∧
      s1.heap = s.heap.set b (some blk1) ∧
      blk1.m_cache.nodes =
        setFirstSlot cls.id i (wrapPhase1 F (E.fetch live o cls.id i)) blk.m_cache.nodes ∧
      blk1.connections = blk.connections ∧ blk1.semaphore = blk.semaphore ∧
      notifyFunctor E live cls i F b s1 = .ok s1 ∧
      refresh_property E live cls i F (some b) s1 = .ok s1 := by
  have hn := notifyFunctor_ok E live cls i F b s blk c ds bs o hblk hsem hnode ho hi
  have hr := refresh_property_ok E live cls i F b s blk c ds bs o hblk hsem hnode ho hi
  have hcid : c.id = cls.id := cache_id cls.id blk.m_cache c ds bs o hnode
  have hb : b < s.heap.length := State.Alive.lt ⟨blk, hblk⟩
  have hA : (PropertyCache.node c (ds.set i (wrapPhase1 F (E.fetch live o cls.id i))) bs o).isA
      cls.id = true := by simp [PropertyCache.isA, hcid]
  have hblk1 := State.heap_store_self s b
    { blk with m_cache := (blk.m_cache.replace cls.id
      (.node c (ds.set i (wrapPhase1 F (E.fetch live o cls.id i))) bs o)) } hb
  have hnode1 := cache_replace cls.id
    (.node c (ds.set i (wrapPhase1 F (E.fetch live o cls.id i))) bs o) hA blk.m_cache c ds bs o
    hnode
  have hn1 := notifyFunctor_ok E live cls i F b _ _ c
    (ds.set i (wrapPhase1 F (E.fetch live o cls.id i))) bs o hblk1 hsem hnode1 ho
    (by simp [hi])
  have hr1 := refresh_property_ok E live cls i F b _ _ c
    (ds.set i (wrapPhase1 F (E.fetch live o cls.id i))) bs o hblk1 hsem hnode1 ho
    (by simp [hi])
  have hsame : notifyFunctor E live cls i F b
      (s.store (some b) { blk with m_cache := (blk.m_cache.replace cls.id
        (.node c (ds.set i (wrapPhase1 F (E.fetch live o cls.id i))) bs o)) }) =
      .ok (s.store (some b) { blk with m_cache := (blk.m_cache.replace cls.id
        (.node c (ds.set i (wrapPhase1 F (E.fetch live o cls.id i))) bs o)) }) := by
    rw [hn1]
    simp only [List.set_set,
      replace_replace cls.id _ _ hA blk.m_cache c ds bs o hnode]
    rw [State.store_same _ b _ hblk1]
  refine ⟨_, _, hn, ?_, ?_, rfl, ?_, rfl, rfl, hsame, ?_⟩
  · rw [hr, hn]
    by_cases hcd : cls.cachingDisabled <;> simp [hcd]
  · simp [State.store]
  · exact nodes_replace cls.id i _ blk.m_cache c ds bs o hnode
  · rw [hr1, hsame]
    by_cases hcd : cls.cachingDisabled <;> simp [hcd]

/-- Witness for C26: `refresh_x` and the notify functor on the block of `Base` for the
object at 7 when the live `x` is 9. -/
theorem single_slot_refresh_witness :
    ∃ s1 blk1, notifyFunctor (exEnv true) 9 exBase 0 Getter 0 exBaseState = .ok s1 ∧
      refresh_property (exEnv true) 9 exBase 0 Getter (some 0) exBaseState =
        .ok (if exBase.cachingDisabled then exBaseState else s1) ∧
      s1.m_objectToWrapperPrivateMap = exBaseState.m_objectToWrapperPrivateMap ∧
      s1.heap = exBaseState.heap.set 0 (some blk1) ∧
      blk1.m_cache.nodes =
        setFirstSlot exBase.id 0 (wrapPhase1 Getter ((exEnv true).fetch 9 7 exBase.id 0))
          exBaseBlock.m_cache.nodes ∧
      blk1.connections = exBaseBlock.connections ∧ blk1.semaphore = exBaseBlock.semaphore ∧
      notifyFunctor (exEnv true) 9 exBase 0 Getter 0 s1 = .ok s1 ∧
      refresh_property (exEnv true) 9 exBase 0 Getter (some 0) s1 = .ok s1 :=
  single_slot_refresh (exEnv true) 9 exBase 0 Getter 0 exBaseState exBaseBlock exBase
    [.int 5] [] 7 rfl (by decide) rfl (by decide) (by decide)

/-- C28. For all flags and values `wrapPhase2<Flags>(wrapPhase1<Flags>(v))` is
`wrap<Flags>(v)`: with `ForeignPointerBit` phase 1 is the identity and phase 2 is
`wrap`, without it phase 1 is `wrap` and phase 2 the identity; `wrap` turns a pointer
to an object of a wrapped class into the view of the pointee for a foreign and for a
non-owning pointer and into its handle for an owning pointer, and leaves it as it is
without these flags. So after `refresh()` has run `update` on a block whose tree is a
complete cache of a class with distinct types in its hierarchy, the slot of a property
of a class of the hierarchy holds the phase-1 wrapped live value, the cached getter
returns the wrapped live value, and so does the getter of the same wrapper with
caching disabled; both leave the state as it is. -/
theorem cached_getter_after_update {L : Type} (E : Env L) (live : L) (C cls : WrapperClass)
    (i : Nat) (p : PropDecl) (b : Nat) (s : State) (blk : ObjectWrapperPrivate) (o : Ptr)
    (hblk : s.heap[b]? = some (some blk)) (hsem : blk.semaphore ≠ 0)
    (hC : blk.m_cache.IsCacheOf o C) (ho : o ≠ 0)
    (hnd : (C.hierarchy.map WrapperClass.id).Nodup) (hcls : cls ∈ C.hierarchy)
    (hp : cls.props[i]? = some p) (hi : i < 255) (hcd : cls.cachingDisabled = false) :
    (∀ (F : Nat) (v : Value), wrapPhase2 F (wrapPhase1 F v) = wrap F v) ∧
    (∀ (F : Nat) (v : Value), F &&& ForeignPointerBit ≠ 0 →
      wrapPhase1 F v = v ∧ wrapPhase2 F v = wrap F v) ∧
    (∀ (F : Nat) (v : Value), F &&& ForeignPointerBit = 0 →
      wrapPhase1 F v = wrap F v ∧ wrapPhase2 F v = v) ∧
    (∀ (T : TypeId) (x : Ptr), wrap ForeignPointer (.pointer T x) = .view T x ∧
      wrap NonOwningPointer (.pointer T x) = .view T x ∧
      wrap OwningPointer (.pointer T x) = .handle T x ∧
      wrap Getter (.pointer T x) = .pointer T x) ∧
    ∃ s1 blk1, ObjectHandle.refresh E live C s ⟨some b⟩ = .ok s1 ∧
      s1.heap[b]? = some (some blk1) ∧
      blk1.getSlot E cls.id i = .ok (wrapPhase1 p.flags (E.fetch live o cls.id i)) ∧
      getter E live cls i p.flags (some b) s1 =
        .ok (wrap p.flags (E.fetch live o cls.id i), s1) ∧
      getter E live (DISABLE_CACHING cls) i p.flags (some b) s1 =
        .ok (wrap p.flags (E.fetch live o cls.id i), s1) := by
  refine ⟨wrapPhase2_wrapPhase1_eq_wrap, fun F v hF => ?_, fun F v hF => ?_,
    fun T x => ⟨rfl, rfl, rfl, rfl⟩, ?_⟩
  · simp [wrapPhase1, wrapPhase2, hF]
  · simp [wrapPhase1, wrapPhase2, hF]
  obtain ⟨t1, hup, hC1, hF1⟩ := updateCache_root E live ho hC
  have hb : b < s.heap.length := State.Alive.lt ⟨blk, hblk⟩
  have hderef : s.deref (some b) = .ok blk := by simp [State.deref, hblk]
  have hblk1 := State.heap_store_self s b { blk with m_cache := t1 } hb
  obtain ⟨ds, bs, hnode⟩ := cache_class_of_nodup hC1 hnd hcls
  have hFn := fresh_of_cache E live cls.id t1 hF1 _ hnode
  simp only [PropertyCache.Fresh] at hFn
  have hx : ds[i]? = some (wrapPhase1 p.flags (E.fetch live o cls.id i)) := by
    rw [hFn.1]
    exact liveData_getElem? E live cls o i p hp 255 hi
  have hid : (DISABLE_CACHING cls).id = cls.id := by cases cls; rfl
  have hdis : (DISABLE_CACHING cls).cachingDisabled = true := by cases cls; rfl
  refine ⟨s.store (some b) { blk with m_cache := t1 }, { blk with m_cache := t1 }, ?_, hblk1,
    ?_, ?_, ?_⟩
  · simp only [ObjectHandle.refresh, hderef, hup]
  · simp [ObjectWrapperPrivate.getSlot, ObjectWrapperPrivate.cache, hnode, Q_ASSERT,
      PropertyCache.isNull, hx]
  · rw [getter_ok E live cls i p.flags b _ { blk with m_cache := t1 } cls ds bs o _ hblk1 hsem
      hnode ho hx]
    simp only [hcd, Bool.false_eq_true, if_false, wrapPhase2_wrapPhase1_eq_wrap]
  · rw [getter_ok E live (DISABLE_CACHING cls) i p.flags b _ { blk with m_cache := t1 } cls
      ds bs o _ hblk1 hsem (by rw [hid]; exact hnode) ho hx]
    simp only [hdis, if_true, hid]

/-- Witness for C28: the item at 7 after `refresh()`. The slot of the foreign pointer
`parent` holds the raw pointer to the item at 3 and both getters return the view of
it; the slot of the owning pointer `child` holds the handle of the item at 9, which
both getters return. -/
theorem cached_getter_after_update_witness :
    (∃ s1 blk1, ObjectHandle.refresh exItemEnv () exItem
        ⟨[some ⟨makeCache exItem 7, [], 1⟩], fun _ => none⟩ ⟨some 0⟩ = .ok s1 ∧
      s1.heap[0]? = some (some blk1) ∧
      blk1.getSlot exItemEnv exItem.id 0 = .ok (.pointer 40 3) ∧
      getter exItemEnv () exItem 0 (Getter ||| ForeignPointer) (some 0) s1 =
        .ok (.view 40 3, s1) ∧
      getter exItemEnv () (DISABLE_CACHING exItem) 0 (Getter ||| ForeignPointer) (some 0) s1 =
        .ok (.view 40 3, s1)) ∧
    ∃ s1 blk1, ObjectHandle.refresh exItemEnv () exItem
        ⟨[some ⟨makeCache exItem 7, [], 1⟩], fun _ => none⟩ ⟨some 0⟩ = .ok s1 ∧
      s1.heap[0]? = some (some blk1) ∧
      blk1.getSlot exItemEnv exItem.id 1 = .ok (.handle 40 9) ∧
      getter exItemEnv () exItem 1 (Getter ||| OwningPointer) (some 0) s1 =
        .ok (.handle 40 9, s1) ∧
      getter exItemEnv () (DISABLE_CACHING exItem) 1 (Getter ||| OwningPointer) (some 0) s1 =
        .ok (.handle 40 9, s1) :=
  ⟨(cached_getter_after_update exItemEnv () exItem exItem 0
      ⟨"parent", .ro, Getter ||| ForeignPointer, .pointer 40 0⟩ 0
      ⟨[some ⟨makeCache exItem 7, [], 1⟩], fun _ => none⟩ ⟨makeCache exItem 7, [], 1⟩ 7
      rfl (by decide) (makeCache_isCacheOf 7 exItem) (by decide) (by decide)
      (by simp [exItem, WrapperClass.hierarchy, hierarchyOfBases]) rfl (by decide) rfl).2.2.2.2,
    (cached_getter_after_update exItemEnv () exItem exItem 1
      ⟨"child", .ro, Getter ||| OwningPointer, .handle 40 0⟩ 0
      ⟨[some ⟨makeCache exItem 7, [], 1⟩], fun _ => none⟩ ⟨makeCache exItem 7, [], 1⟩ 7
      rfl (by decide) (makeCache_isCacheOf 7 exItem) (by decide) (by decide)
      (by simp [exItem, WrapperClass.hierarchy, hierarchyOfBases]) rfl (by decide) rfl).2.2.2.2⟩

/-- C29. In every state reached from the empty registry by `handleForObject`,
`create`, `expandCache` on the registered block of its object, and the destruction of
control blocks, each entry of the registry map refers to a control block that exists,
so that locking the entry and dereferencing the result succeed, and the key of the
entry is the object pointer in the root node of the tree of that block. -/
theorem registry_entries_are_live {L : Type} (E : Env L) (s : State) (h : Reachable E s) :
    ∀ k w, s.m_objectToWrapperPrivateMap k = some w →
      ∃ blk cls ds bs, s.lock w = some w ∧ s.deref (s.lock w) = .ok blk ∧
        blk.m_cache = .node cls ds bs k := by
  have hinv : s.RegistryInvariant := by
    induction h with
    | empty =>
      intro k w hk
      simp [State.empty] at hk
    | handleForObject _ hrun ih =>
      exact registryInvariant_handleForObject E _ _ _ _ _ _ ih hrun
    | create _ hrun ih =>
      exact registryInvariant_create E _ _ _ _ _ _ ih hrun
    | @expandCache s0 live0 T0 obj0 b0 blkA blkB _ hreg hblk hexp ih =>
      refine registryInvariant_store ih hblk (fun cls ds bs k hk => ?_)
      obtain ⟨blk0, cls0, ds0, bs0, hb0, hroot0⟩ := ih _ _ hreg
      rw [hblk] at hb0
      cases hb0
      have hko : k = obj0 := by
        have hk1 := hk
        rw [hroot0] at hk1
        cases hk1
        rfl
      subst hko
      exact expandCache_keeps_object E _ _ _ _ _ cls ds bs hk hexp
    | destroy _ hrun ih =>
      exact registryInvariant_destroy ih hrun
  intro k w hk
  obtain ⟨blk, cls, ds, bs, hb, hroot⟩ := hinv k w hk
  have hlock : s.lock w = some w := State.lock_of_alive ⟨blk, hb⟩
  exact ⟨blk, cls, ds, bs, hlock, by simp [hlock, State.deref, hb], hroot⟩

/-- Witness for C29: the state after `handleForObject<Base>` for the object at 7. -/
theorem registry_entries_are_live_witness :
    handleForObject (exEnv true) 5 exBaseW 7 State.empty = .ok (⟨some 0⟩, exBaseState) ∧
    exBaseState.m_objectToWrapperPrivateMap 7 = some 0 ∧
    (∃ blk cls ds bs, exBaseState.lock 0 = some 0 ∧
      exBaseState.deref (exBaseState.lock 0) = .ok blk ∧ blk.m_cache = .node cls ds bs 7) :=
  ⟨rfl, rfl,
    registry_entries_are_live (exEnv true) exBaseState
      (Reachable.handleForObject Reachable.empty
        (rfl : handleForObject (exEnv true) 5 exBaseW 7 State.empty =
          .ok (⟨some 0⟩, exBaseState))) 7 0 rfl⟩

end GammaRay
